import Mathlib

/-!
# Audiobooker — formal model of the core data structures and pipelines

A shallow embedding of the audiobooker repository (models, dialogue
compilation, review round-trip codec, render cache) in Lean 4, with theorems
checking the natural-language specification's claims against the code.

Conventions used throughout:
* Python `dict[str, T]` becomes an insertion-ordered association list
  `List (String × T)`; lookup finds the first matching key, update replaces
  the value in place, insertion appends.
* Python strings become Lean `String`; character-level operations work on
  `String.data`.  `str.strip` / `str.lower` / `str.casefold` are modelled for
  the ASCII range (`isPySpace`, `asciiLowerChar`); every concrete input used
  in a theorem is ASCII.
* The file system is a finite set of existing paths (`List String`);
  `Path(p).exists()` becomes list membership.
* Floating-point durations are opaque to every claim; they are carried as
  `Nat` payloads.
-/

set_option maxHeartbeats 1000000

namespace Audiobooker

/-! ## Python string primitives -/

/-- The whitespace class of Python's `str.strip` / `\s`, restricted to ASCII:
space, tab, newline, carriage return, vertical tab, form feed. -/
def isPySpace (c : Char) : Bool :=
  c = ' ' || c = '\t' || c = '\n' || c = '\r' || c = Char.ofNat 11 || c = Char.ofNat 12

/-- `str.strip()` on a character list: drop leading and trailing whitespace. -/
def pyStripCh (l : List Char) : List Char :=
  ((l.dropWhile isPySpace).reverse.dropWhile isPySpace).reverse

/-- `str.strip()`. -/
def pyStrip (s : String) : String :=
  String.mk (pyStripCh s.data)

/-- ASCII lowering of a single character (`str.lower` restricted to ASCII). -/
def asciiLowerChar (c : Char) : Char :=
  if 'A' ≤ c && c ≤ 'Z' then Char.ofNat (c.toNat + 32) else c

/-- `str.lower()` (ASCII range). -/
def pyLower (s : String) : String :=
  String.mk (s.data.map asciiLowerChar)

/-- `str.casefold()`; identical to `lower` on the ASCII range modelled here. -/
def pyCasefold (s : String) : String :=
  pyLower s

/-- `s.startswith(pre)`, on the underlying character lists. -/
def strStartsWith (s pre : String) : Bool :=
  s.data.take pre.data.length = pre.data

/-- Python truthiness of an `Optional[str]`: `None` and `""` are falsy. -/
def pyTruthy : Option String → Bool
  | none => false
  | some s => s ≠ ""

/-! ## Insertion-ordered dictionaries (`dict[str, T]`) -/

/-- `d[k]` / `d.get(k)`: first entry with the given key. -/
def dictGet {β : Type} : List (String × β) → String → Option β
  | [], _ => none
  | (k, v) :: rest, key => if k = key then some v else dictGet rest key

/-- `k in d`. -/
def dictHas {β : Type} (l : List (String × β)) (k : String) : Bool :=
  (dictGet l k).isSome

/-- `d[k] = v`: replace the value of an existing key in place (a dict holds
at most one entry per key, so replacing the first match is the dict update),
else append at the end, preserving insertion order. -/
def dictSet {β : Type} : List (String × β) → String → β → List (String × β)
  | [], k, v => [(k, v)]
  | (k', v') :: rest, k, v =>
    if k' = k then (k', v) :: rest else (k', v') :: dictSet rest k v

/-! ## Data model (`models.py`) -/

/-- `UtteranceType` — narration vs dialogue. -/
inductive UtteranceType where
  | narration
  | dialogue
deriving DecidableEq, Repr

/-- `Utterance` — the atomic synthesis unit. -/
structure Utterance where
  speaker : String
  text : String
  utterance_type : UtteranceType := UtteranceType.narration
  emotion : Option String := none
  chapter_index : Nat := 0
  line_index : Nat := 0
deriving DecidableEq, Repr

/-- `Character` — a speaker's voice profile. -/
structure Character where
  name : String
  voice : String
  emotion : Option String := none
  description : Option String := none
  line_count : Nat := 0
deriving DecidableEq, Repr

/-- `Chapter` — a section of the book.  `audio_path` is an optional path
string; `duration_seconds` is an opaque payload. -/
structure Chapter where
  index : Nat
  title : String
  raw_text : String
  utterances : List Utterance := []
  source_file : Option String := none
  audio_path : Option String := none
  duration_seconds : Nat := 0
deriving DecidableEq, Repr

/-- `CastingTable` — normalized speaker-to-voice map with fallbacks. -/
structure CastingTable where
  characters : List (String × Character) := []
  default_narrator : String := "narrator"
  unknown_character_behavior : String := "narrator"
  fallback_voice_id : String := "af_heart"
deriving DecidableEq, Repr

/-- `CastingTable.normalize_key`: `name.casefold().strip()`. -/
def CastingTable.normalize_key (name : String) : String :=
  pyStrip (pyCasefold name)

/-- `CastingTable.cast`: build a fresh `Character` from exactly the supplied
arguments and store it under the normalized key; returns the character and
the updated table. -/
def CastingTable.cast (t : CastingTable) (name voice : String)
    (emotion : Option String := none) (description : Option String := none) :
    Character × CastingTable :=
  let key := CastingTable.normalize_key name
  let char : Character :=
    { name := name, voice := voice, emotion := emotion,
      description := description, line_count := 0 }
  (char, { t with characters := dictSet t.characters key char })

/-- `CastingTable.get_voice`: exact normalized-key lookup, else the entry
stored under the `default_narrator` key, else the fallback voice with no
emotion. -/
def CastingTable.get_voice (t : CastingTable) (speaker : String) :
    String × Option String :=
  match dictGet t.characters (CastingTable.normalize_key speaker) with
  | some char => (char.voice, char.emotion)
  | none =>
    match dictGet t.characters t.default_narrator with
    | some char => (char.voice, char.emotion)
    | none => (t.fallback_voice_id, none)

/-! ## Cache manifest (`renderer/cache_manifest.py`) -/

/-- `ChapterCacheEntry` — one chapter's cache record. -/
structure ChapterCacheEntry where
  chapter_index : Nat
  text_hash : String
  casting_hash : String
  render_params_hash : String
  wav_path : String
  duration_s : Nat := 0
  status : String := "pending"
  error_summary : String := ""
  created_at : String := ""
deriving DecidableEq, Repr

/-- `ChapterCacheEntry.is_valid` against current hashes and a file system
(the set of existing paths). -/
def ChapterCacheEntry.is_valid (e : ChapterCacheEntry)
    (text_hash casting_hash render_params_hash : String)
    (fs : List String) : Bool :=
  if e.status ≠ "ok" then false
  else if e.text_hash ≠ text_hash then false
  else if e.casting_hash ≠ casting_hash then false
  else if e.render_params_hash ≠ render_params_hash then false
  else if ¬ (e.wav_path ∈ fs) then false
  else true

/-- `CacheManifest` — top-level manifest of a render session. -/
structure CacheManifest where
  version : Nat := 1
  book_title : String := ""
  config_hash : String := ""
  chapters : List ChapterCacheEntry := []
  last_updated : String := ""
deriving DecidableEq, Repr

/-- `CacheManifest.get_entry`: first entry with the given chapter index. -/
def CacheManifest.get_entry (m : CacheManifest) (i : Nat) :
    Option ChapterCacheEntry :=
  m.chapters.find? (fun e => e.chapter_index = i)

/-- Replace the first entry with a matching chapter index, else append. -/
def setEntryList : List ChapterCacheEntry → ChapterCacheEntry →
    List ChapterCacheEntry
  | [], e => [e]
  | x :: xs, e =>
    if x.chapter_index = e.chapter_index then e :: xs
    else x :: setEntryList xs e

/-- `CacheManifest.set_entry`. -/
def CacheManifest.set_entry (m : CacheManifest) (e : ChapterCacheEntry) :
    CacheManifest :=
  { m with chapters := setEntryList m.chapters e }

/-! ## SHA-256 (`hashlib.sha256`), over byte lists, words as `Nat` mod 2^32 -/

/-- Truncate to 32 bits. -/
def m32 (x : Nat) : Nat := x % 4294967296

/-- Right-rotate a 32-bit word by `n`. -/
def rotr32 (n x : Nat) : Nat := m32 (x / 2 ^ n + x % 2 ^ n * 2 ^ (32 - n))

/-- Bitwise complement of a 32-bit word. -/
def bnot32 (x : Nat) : Nat := Nat.xor x 4294967295

def bsig0 (x : Nat) : Nat := Nat.xor (Nat.xor (rotr32 2 x) (rotr32 13 x)) (rotr32 22 x)

def bsig1 (x : Nat) : Nat := Nat.xor (Nat.xor (rotr32 6 x) (rotr32 11 x)) (rotr32 25 x)

def ssig0 (x : Nat) : Nat := Nat.xor (Nat.xor (rotr32 7 x) (rotr32 18 x)) (x / 2 ^ 3)

def ssig1 (x : Nat) : Nat := Nat.xor (Nat.xor (rotr32 17 x) (rotr32 19 x)) (x / 2 ^ 10)

def chf (x y z : Nat) : Nat := Nat.xor (Nat.land x y) (Nat.land (bnot32 x) z)

def majf (x y z : Nat) : Nat :=
  Nat.xor (Nat.xor (Nat.land x y) (Nat.land x z)) (Nat.land y z)

/-- The 64 SHA-256 round constants. -/
def sha256K : List Nat :=
  [1116352408, 1899447441, 3049323471, 3921009573, 961987163,
   1508970993, 2453635748, 2870763221, 3624381080, 310598401,
   607225278, 1426881987, 1925078388, 2162078206, 2614888103,
   3248222580, 3835390401, 4022224774, 264347078, 604807628,
   770255983, 1249150122, 1555081692, 1996064986, 2554220882,
   2821834349, 2952996808, 3210313671, 3336571891, 3584528711,
   113926993, 338241895, 666307205, 773529912, 1294757372,
   1396182291, 1695183700, 1986661051, 2177026350, 2456956037,
   2730485921, 2820302411, 3259730800, 3345764771, 3516065817,
   3600352804, 4094571909, 275423344, 430227734, 506948616,
   659060556, 883997877, 958139571, 1322822218, 1537002063,
   1747873779, 1955562222, 2024104815, 2227730452, 2361852424,
   2428436474, 2756734187, 3204031479, 3329325298]

/-- The SHA-256 initial hash state. -/
def sha256H0 : List Nat :=
  [1779033703, 3144134277, 1013904242, 2773480762, 1359893119,
   2600822924, 528734635, 1541459225]

/-- Extend a 16-word block to the 64-word message schedule. -/
def sha256Schedule (w : Array Nat) : Array Nat :=
  (List.range 48).foldl
    (fun w i =>
      w.push (m32 (ssig1 (w.getD (i + 14) 0) + w.getD (i + 9) 0 +
        ssig0 (w.getD (i + 1) 0) + w.getD i 0)))
    w

/-- One SHA-256 round on the 8-word working state, fed `K[i] + W[i]`. -/
def sha256Round (st : List Nat) (kw : Nat) : List Nat :=
  match st with
  | [a, b, c, d, e, f, g, h] =>
    let t1 := m32 (h + bsig1 e + chf e f g + kw)
    let t2 := m32 (bsig0 a + majf a b c)
    [m32 (t1 + t2), a, b, c, m32 (d + t1), e, f, g]
  | other => other

/-- Process one 16-word block into the running hash state. -/
def sha256Block (hs : List Nat) (block : List Nat) : List Nat :=
  let w := sha256Schedule block.toArray
  let kws := (List.range 64).map (fun i => m32 (sha256K.getD i 0 + w.getD i 0))
  let final := kws.foldl sha256Round hs
  List.zipWith (fun x y => m32 (x + y)) hs final

/-- Big-endian 8-byte encoding of a length value. -/
def bigEndian8 (n : Nat) : List Nat :=
  (List.range 8).map (fun i => n / 2 ^ (8 * (7 - i)) % 256)

/-- SHA-256 message padding: `0x80`, zeros to 56 mod 64, 64-bit bit length. -/
def sha256Pad (msg : List Nat) : List Nat :=
  let len := msg.length
  let zeros := (64 + 56 - (len + 1) % 64) % 64
  msg ++ [0x80] ++ List.replicate zeros 0 ++ bigEndian8 (len * 8)

/-- Pack bytes four at a time into big-endian 32-bit words. -/
def bytesToWords : List Nat → List Nat
  | b0 :: b1 :: b2 :: b3 :: rest =>
    (b0 * 16777216 + b1 * 65536 + b2 * 256 + b3) :: bytesToWords rest
  | _ => []

/-- Split a byte list into 64-byte chunks.  (The first argument is fuel
bounding the recursion depth so the definition is structural and
kernel-computable; `chunk64` supplies enough of it.) -/
def chunk64Go : Nat → List Nat → List (List Nat)
  | 0, _ => []
  | _, [] => []
  | fuel + 1, b :: rest =>
    ((b :: rest).take 64) :: chunk64Go fuel ((b :: rest).drop 64)

/-- Split a byte list into 64-byte chunks. -/
def chunk64 (l : List Nat) : List (List Nat) :=
  chunk64Go (l.length + 1) l

/-- SHA-256 of a byte list, as the final 8-word state. -/
def sha256Words (msg : List Nat) : List Nat :=
  (chunk64 (sha256Pad msg)).foldl (fun hs b => sha256Block hs (bytesToWords b))
    sha256H0

/-- A lowercase hex digit. -/
def hexDigit (n : Nat) : Char :=
  if n < 10 then Char.ofNat (48 + n) else Char.ofNat (87 + n)

/-- Eight lowercase hex digits of a 32-bit word. -/
def toHex8 (n : Nat) : List Char :=
  (List.range 8).map (fun i => hexDigit (n / 16 ^ (7 - i) % 16))

/-- UTF-8 bytes of a string. -/
def utf8Bytes (s : String) : List Nat :=
  s.toUTF8.toList.map (fun b => b.toNat)

/-- `sha256_text` (`hash_utils.py`): SHA-256 of a UTF-8 string as a lowercase
hex digest. -/
def sha256_text (s : String) : String :=
  String.mk ((sha256Words (utf8Bytes s)).foldl (fun acc w => acc ++ toHex8 w) [])

/-! ## Canonical JSON and the audio-affecting hashes (`hash_utils.py`) -/

/-- JSON string escaping as `json.dumps` with `ensure_ascii=False` performs
it: quote, backslash, and control characters. -/
def jsonEscapeChar (c : Char) : List Char :=
  if c = '"' then ['\\', '"']
  else if c = '\\' then ['\\', '\\']
  else if c = '\n' then ['\\', 'n']
  else if c = '\t' then ['\\', 't']
  else if c = '\r' then ['\\', 'r']
  else if c = Char.ofNat 8 then ['\\', 'b']
  else if c = Char.ofNat 12 then ['\\', 'f']
  else if c.toNat < 32 then
    ['\\', 'u', '0', '0', hexDigit (c.toNat / 16), hexDigit (c.toNat % 16)]
  else [c]

/-- A JSON string literal. -/
def jsonStr (s : String) : String :=
  "\"" ++ String.mk (s.data.flatMap jsonEscapeChar) ++ "\""

/-- A JSON value for an `Optional[str]` (`null` when absent). -/
def jsonOptStr : Option String → String
  | none => "null"
  | some s => jsonStr s

/-- The canonical JSON of one character's audio-affecting fields:
`{"emotion": ..., "voice": ...}` with keys sorted, no whitespace. -/
def charEntryJson (voice : String) (emotion : Option String) : String :=
  "\x7b" ++ jsonStr "emotion" ++ ":" ++ jsonOptStr emotion ++ "," ++
    jsonStr "voice" ++ ":" ++ jsonStr voice ++ "\x7d"

/-- Key-order comparison used by Python's `sorted` on dict items (keys are
unique, so only the key matters). -/
def keyLe (a b : String × Character) : Prop := a.1 ≤ b.1

instance : DecidableRel keyLe := fun a b => inferInstanceAs (Decidable (a.1 ≤ b.1))

instance : IsTotal (String × Character) keyLe := ⟨fun a b => le_total a.1 b.1⟩

instance : IsTrans (String × Character) keyLe := ⟨fun _ _ _ h1 h2 => le_trans h1 h2⟩

/-- `casting_hash` (`hash_utils.py`): SHA-256 of the canonical JSON of
`{"characters": {sorted key: {"emotion", "voice"}}, "fallback_voice_id"}`. -/
def casting_hash (t : CastingTable) : String :=
  let sorted := List.insertionSort keyLe t.characters
  let inner := String.intercalate ","
    (sorted.map (fun p => jsonStr p.1 ++ ":" ++ charEntryJson p.2.voice p.2.emotion))
  let canonical :=
    "\x7b" ++ jsonStr "characters" ++ ":" ++ "\x7b" ++ inner ++ "\x7d" ++ "," ++
      jsonStr "fallback_voice_id" ++ ":" ++ jsonStr t.fallback_voice_id ++ "\x7d"
  sha256_text canonical

/-- `chapter_text_hash` (`hash_utils.py`). -/
def chapter_text_hash (c : Chapter) : String :=
  sha256_text c.raw_text

/-! ## Order-invariance of `casting_hash` (claim C8) -/

/-- The audio-affecting projection of a casting entry: normalized key, voice,
emotion.  `casting_hash` depends on entries only through this projection. -/
def projEntry (p : String × Character) : String × String × Option String :=
  (p.1, p.2.voice, p.2.emotion)

/-- Key order on projected entries. -/
def keyLe3 (a b : String × String × Option String) : Prop := a.1 ≤ b.1

instance : DecidableRel keyLe3 := fun a b => inferInstanceAs (Decidable (a.1 ≤ b.1))

instance : IsTotal (String × String × Option String) keyLe3 :=
  ⟨fun a b => le_total a.1 b.1⟩

instance : IsTrans (String × String × Option String) keyLe3 :=
  ⟨fun _ _ _ h1 h2 => le_trans h1 h2⟩

/-- The JSON fragment contributed by one (projected) casting entry. -/
def entryJson3 (q : String × String × Option String) : String :=
  jsonStr q.1 ++ ":" ++ charEntryJson q.2.1 q.2.2

/-! (The theorems about `casting_hash` follow in the theorem section.) -/

/-! ## Dialogue compilation (`casting/dialogue.py`) -/

def isAsciiUpper (c : Char) : Bool := 'A' ≤ c && c ≤ 'Z'

def isAsciiLower (c : Char) : Bool := 'a' ≤ c && c ≤ 'z'

def isAsciiLetter (c : Char) : Bool := isAsciiUpper c || isAsciiLower c

/-- The regex `\w` class (ASCII range): letters, digits, underscore. -/
def isWordChar (c : Char) : Bool := c.isAlphanum || c = '_'

/-- Length of the prefix of `run` up to and including its last newline
(0 when `run` has no newline). -/
def lastNewlinePrefixLen (run : List Char) : Nat :=
  (run.reverse.dropWhile (fun c => c ≠ '\n')).length

/-- `re.split(r'\n\s*\n', text)`: at each newline whose following whitespace
run contains another newline, the match extends to the last newline of that
run (greedy `\s*` backtracking to end on `\n`). -/
def splitParasGo : Nat → List Char → List Char → List (List Char)
  | 0, acc, _ => [acc.reverse]
  | _, acc, [] => [acc.reverse]
  | fuel + 1, acc, c :: rest =>
    if c = '\n' then
      if lastNewlinePrefixLen (rest.takeWhile isPySpace) = 0 then
        splitParasGo fuel (c :: acc) rest
      else
        acc.reverse ::
          splitParasGo fuel []
            (rest.drop (lastNewlinePrefixLen (rest.takeWhile isPySpace)))
    else splitParasGo fuel (c :: acc) rest

/-- Paragraph split of a chapter's raw text.  (The fuel bounds the scan and
is always sufficient: every step consumes at least one character.) -/
def splitParas (s : String) : List String :=
  (splitParasGo (s.data.length + 1) [] s.data).map String.mk

/-- `parse_inline_override` — the anchored match of
`\[([^\]|]+)(?:\|([^\]]+))?\]\s*` and the stripped capture groups.  On any
failure of the whole pattern the text is returned unchanged. -/
def parse_inline_override (s : String) : Option String × Option String × String :=
  match s.data with
  | '[' :: rest =>
    let g1 := rest.takeWhile (fun c => c ≠ ']' && c ≠ '|')
    if g1.isEmpty then (none, none, s)
    else
      match rest.drop g1.length with
      | '|' :: rest2 =>
        let g2 := rest2.takeWhile (fun c => c ≠ ']')
        if g2.isEmpty then (none, none, s)
        else
          match rest2.drop g2.length with
          | ']' :: rest3 =>
            (some (pyStrip (String.mk g1)), some (pyStrip (String.mk g2)),
              String.mk (rest3.dropWhile isPySpace))
          | _ => (none, none, s)
      | ']' :: rest3 =>
        (some (pyStrip (String.mk g1)), none,
          String.mk (rest3.dropWhile isPySpace))
      | _ => (none, none, s)
  | _ => (none, none, s)

/-- `finditer` of a quote pattern `open ([^close]+) close`: scan left to
right; at an opening character take the maximal run of non-closing
characters; accept when the run is nonempty and a closing character
follows, then resume after the match. -/
def findQuoteSpansGo (isOpen isClose : Char → Bool) :
    Nat → Nat → List Char → List (Nat × Nat × String)
  | 0, _, _ => []
  | _, _, [] => []
  | fuel + 1, pos, c :: rest =>
    if isOpen c then
      let content := rest.takeWhile (fun d => !(isClose d))
      if content.isEmpty then findQuoteSpansGo isOpen isClose fuel (pos + 1) rest
      else if content.length < rest.length then
        (pos, pos + content.length + 2, String.mk content) ::
          findQuoteSpansGo isOpen isClose fuel (pos + content.length + 2)
            (rest.drop (content.length + 1))
      else findQuoteSpansGo isOpen isClose fuel (pos + 1) rest
    else findQuoteSpansGo isOpen isClose fuel (pos + 1) rest

/-- As `findQuoteSpans` above, with always-sufficient fuel. -/
def findQuoteSpans (isOpen isClose : Char → Bool) (pos : Nat)
    (l : List Char) : List (Nat × Nat × String) :=
  findQuoteSpansGo isOpen isClose (l.length + 1) pos l

/-- Does `start` lie inside one of the accepted spans? (`s <= start < e`) -/
def insideAny (spans : List (Nat × Nat × String)) (start : Nat) : Bool :=
  spans.any (fun q => q.1 ≤ start && start < q.2.1)

/-- Span-start order for the position sort (all starts are distinct). -/
def spanLe (a b : Nat × Nat × String) : Prop := a.1 ≤ b.1

instance : DecidableRel spanLe := fun a b => inferInstanceAs (Decidable (a.1 ≤ b.1))

/-- Alternating narration/dialogue segment construction from the sorted
quote spans: narration is the stripped text between quotes (dropped when
empty), dialogue is the quote's inner content verbatim. -/
def buildSegments (text : List Char) (pos : Nat) :
    List (Nat × Nat × String) → List (String × Bool × Nat × Nat)
  | [] =>
    if pos < text.length then
      let remaining := pyStrip (String.mk (text.drop pos))
      if remaining ≠ "" then [(remaining, false, pos, text.length)] else []
    else []
  | (s, e, content) :: rest =>
    (if pos < s then
      let narration := pyStrip (String.mk ((text.drop pos).take (s - pos)))
      if narration ≠ "" then [(narration, false, pos, s)] else []
    else []) ++ (content, true, s, e) :: buildSegments text e rest

/-- `detect_dialogue`: double quotes, then smart quotes (discarded when
their start lies inside an accepted span), then optionally single quotes
(same rule), sorted by start position. -/
def detect_dialogue (text : String) (include_single_quotes : Bool := false) :
    List (String × Bool × Nat × Nat) :=
  let data := text.data
  let dq := findQuoteSpans (fun c => c = '"') (fun c => c = '"') 0 data
  let isSmart := fun c => c = Char.ofNat 0x201C || c = Char.ofNat 0x201D
  let sm := (findQuoteSpans isSmart isSmart 0 data).filter
    (fun m => !(insideAny dq m.1))
  let base := dq ++ sm
  let sq :=
    if include_single_quotes then
      (findQuoteSpans (fun c => c = '\'') (fun c => c = '\'') 0 data).filter
        (fun m => !(insideAny base m.1))
    else []
  let sorted := List.insertionSort spanLe (base ++ sq)
  buildSegments data 0 sorted

/-- The attribution verb alternation, in the order it appears in
`SAID_PATTERNS` (no verb is a prefix of another, so at most one matches at
any position). -/
def saidVerbs : List String :=
  ["said", "asked", "replied", "answered", "whispered", "shouted", "muttered",
   "exclaimed", "cried", "called", "yelled", "screamed", "murmured",
   "demanded", "pleaded", "begged", "suggested", "agreed", "added",
   "continued", "explained", "insisted", "admitted", "confessed", "announced",
   "declared", "stated", "mentioned", "noted", "observed", "remarked",
   "commented", "groaned", "sighed", "laughed", "chuckled", "giggled",
   "sobbed"]

/-- Case-insensitive prefix test of a (lowercase) verb. -/
def matchVerbAt (l : List Char) (v : String) : Bool :=
  (l.take v.data.length).map asciiLowerChar = v.data

/-- The `(?:\s|[,.\!\?]|$)` tail of the verb-before-name pattern (`$` before
a trailing newline is subsumed: `\n` is whitespace). -/
def endOrPunct : List Char → Bool
  | [] => true
  | c :: _ => isPySpace c || c = ',' || c = '.' || c = '!' || c = '?'

/-- Attempt the verb-before-name pattern at one position: a speech verb,
mandatory whitespace, a letter and a maximal nonempty letter run (the
`IGNORECASE` flag makes `[A-Z][a-z]+` match any ASCII letters), then
whitespace, `,.!?`, or end. -/
def tryPattern1At (l : List Char) : Option String :=
  match saidVerbs.find? (fun v => matchVerbAt l v) with
  | none => none
  | some v =>
    let after := l.drop v.data.length
    let ws := after.takeWhile isPySpace
    if ws.isEmpty then none
    else
      match after.drop ws.length with
      | [] => none
      | c0 :: rest1 =>
        if isAsciiLetter c0 then
          let letters := rest1.takeWhile isAsciiLetter
          if letters.isEmpty then none
          else if endOrPunct (rest1.drop letters.length) then
            some (String.mk (c0 :: letters))
          else none
        else none

/-- Leftmost match of the verb-before-name pattern. -/
def searchPattern1 : List Char → Option String
  | [] => none
  | c :: rest =>
    match tryPattern1At (c :: rest) with
    | some n => some n
    | none => searchPattern1 rest

/-- Attempt the name-before-verb pattern at one position: a letter and a
maximal nonempty letter run, mandatory whitespace, then a speech verb. -/
def tryPattern2At : List Char → Option String
  | [] => none
  | c0 :: rest1 =>
    if isAsciiLetter c0 then
      let letters := rest1.takeWhile isAsciiLetter
      if letters.isEmpty then none
      else
        let after := rest1.drop letters.length
        let ws := after.takeWhile isPySpace
        if ws.isEmpty then none
        else if saidVerbs.any (fun v => matchVerbAt (after.drop ws.length) v) then
          some (String.mk (c0 :: letters))
        else none
    else none

/-- Leftmost match of the name-before-verb pattern. -/
def searchPattern2 : List Char → Option String
  | [] => none
  | c :: rest =>
    match tryPattern2At (c :: rest) with
    | some n => some n
    | none => searchPattern2 rest

/-- The 16 emotion-carrying verbs, in the order of the emotion-verb
alternation in `extract_speaker_from_context`. -/
def emotionVerbs : List String :=
  ["whispered", "shouted", "yelled", "screamed", "muttered", "exclaimed",
   "cried", "sobbed", "laughed", "chuckled", "giggled", "sighed", "groaned",
   "demanded", "pleaded", "begged"]

/-- `EMOTION_HINTS`. -/
def emotionHints : List (String × String) :=
  [("whispered", "whisper"), ("shouted", "angry"), ("yelled", "angry"),
   ("screamed", "fearful"), ("muttered", "grumpy"), ("exclaimed", "excited"),
   ("cried", "sad"), ("sobbed", "sad"), ("laughed", "happy"),
   ("chuckled", "happy"), ("giggled", "happy"), ("sighed", "sad"),
   ("groaned", "grumpy"), ("demanded", "angry"), ("pleaded", "sad"),
   ("begged", "sad")]

/-- Word boundary after a match: end of text or a non-word character. -/
def boundaryAfter : List Char → Bool
  | [] => true
  | c :: _ => !(isWordChar c)

/-- Leftmost case-insensitive match of `\b(emotion verbs)\b`; `prev` is the
character before the current position (none at the start). -/
def searchEmotionVerb (prev : Option Char) : List Char → Option String
  | [] => none
  | c :: rest =>
    let boundaryBefore :=
      match prev with
      | none => true
      | some p => !(isWordChar p)
    match
      (if boundaryBefore then
        emotionVerbs.find? (fun v =>
          matchVerbAt (c :: rest) v &&
            boundaryAfter ((c :: rest).drop v.data.length))
      else none) with
    | some v => some v
    | none => searchEmotionVerb (some c) rest

/-- `SPEAKER_BLACKLIST`. -/
def speakerBlacklist : List String :=
  ["he", "she", "it", "they", "we", "i", "you",
   "him", "her", "them", "us", "me",
   "his", "hers", "its", "theirs", "ours", "mine", "yours",
   "softly", "loudly", "quietly", "gruffly", "sharply", "gently",
   "slowly", "quickly", "rapidly", "carefully", "angrily", "sadly",
   "happily", "nervously", "anxiously", "fearfully", "excitedly",
   "calmly", "coldly", "warmly", "coolly", "hotly", "flatly",
   "dryly", "wryly", "sweetly", "bitterly", "harshly", "roughly",
   "smoothly", "evenly", "unevenly", "breathlessly", "hoarsely",
   "huskily", "shrilly", "deeply", "lightly", "heavily", "urgently",
   "desperately", "frantically", "hysterically", "sarcastically",
   "mockingly", "teasingly", "playfully", "seriously", "solemnly",
   "thoughtfully", "absently", "distractedly", "sleepily", "wearily",
   "tiredly", "briskly", "curtly", "abruptly", "suddenly",
   "finally", "immediately", "eventually", "meanwhile", "instead",
   "however", "therefore", "moreover", "furthermore", "nevertheless",
   "wonderfully", "terribly", "horribly", "awfully", "incredibly"]

/-- `VALID_NAME_PATTERN` = `^[A-Z][a-z]{1,14}$` (with `$` also matching
before one trailing newline). -/
def validNamePattern (name : String) : Bool :=
  let d := name.data
  let core := if d.getLast? = some '\n' then d.dropLast else d
  match core with
  | [] => false
  | c0 :: rest =>
    isAsciiUpper c0 && decide (1 ≤ rest.length) && decide (rest.length ≤ 14) &&
      rest.all isAsciiLower

/-- `is_valid_speaker_name`: cast names are valid, blacklisted words are
not, anything else must match the valid-name pattern. -/
def is_valid_speaker_name (name : String) (casting : CastingTable) : Bool :=
  if name = "" then false
  else
    let name_lower := pyLower name
    if dictHas casting.characters name_lower then true
    else if speakerBlacklist.contains name_lower then false
    else validNamePattern name

/-- `extract_speaker_from_context`: the 100-character windows around the
dialogue span, joined by a space; the two said-patterns searched in order,
each only through its first match, with the candidate validated against the
casting table; on acceptance the emotion-verb search supplies the hint. -/
def extract_speaker_from_context (text : String)
    (dialogue_start dialogue_end : Nat) (casting : Option CastingTable) :
    Option String × Option String :=
  let data := text.data
  let window_before := (data.take dialogue_start).drop (dialogue_start - 100)
  let window_after := (data.drop dialogue_end).take 100
  let context := window_before ++ ' ' :: window_after
  let acceptable := fun (speaker : String) =>
    match casting with
    | some ct => is_valid_speaker_name speaker ct
    | none => true
  let emotionFor := fun (_ : Unit) =>
    match searchEmotionVerb none context with
    | some v => dictGet emotionHints (pyLower v)
    | none => none
  match searchPattern1 context with
  | some speaker =>
    if acceptable speaker then (some speaker, emotionFor ())
    else
      match searchPattern2 context with
      | some speaker2 =>
        if acceptable speaker2 then (some speaker2, emotionFor ())
        else (none, none)
      | none => (none, none)
  | none =>
    match searchPattern2 context with
    | some speaker2 =>
      if acceptable speaker2 then (some speaker2, emotionFor ())
      else (none, none)
    | none => (none, none)

/-- `compile_chapter`: split the raw text on blank-line boundaries, strip
each paragraph, parse a leading inline override, detect dialogue segments,
and emit utterances with dense line indexes; finally bump `line_count` on
every casting entry whose key matches an emitted speaker.  Returns the
utterances together with the updated casting table (the source mutates the
table in place). -/
def compile_chapter (chapter : Chapter) (casting : CastingTable)
    (include_single_quotes : Bool := false) :
    List Utterance × CastingTable :=
  let step := fun (acc : List Utterance × Nat) (para0 : String) =>
    let para1 := pyStrip para0
    if para1 = "" then acc
    else
      let (override_char, override_emotion, para) := parse_inline_override para1
      let segments := detect_dialogue para include_single_quotes
      if segments.isEmpty then
        (acc.1 ++ [{ speaker := if pyTruthy override_char then
                        override_char.getD "" else "narrator",
                     text := para, utterance_type := UtteranceType.narration,
                     emotion := override_emotion,
                     chapter_index := chapter.index, line_index := acc.2 }],
         acc.2 + 1)
      else
        segments.foldl (fun (acc2 : List Utterance × Nat) seg =>
          if pyStrip seg.1 = "" then acc2
          else if seg.2.1 then
            let se :=
              if pyTruthy override_char then
                (override_char.getD "", override_emotion)
              else
                let r := extract_speaker_from_context para seg.2.2.1 seg.2.2.2
                  (some casting)
                (r.1.getD "unknown", r.2)
            (acc2.1 ++ [{ speaker := se.1, text := seg.1,
                          utterance_type := UtteranceType.dialogue,
                          emotion := se.2, chapter_index := chapter.index,
                          line_index := acc2.2 }], acc2.2 + 1)
          else
            (acc2.1 ++ [{ speaker := "narrator", text := seg.1,
                          utterance_type := UtteranceType.narration,
                          emotion := none, chapter_index := chapter.index,
                          line_index := acc2.2 }], acc2.2 + 1)) acc
  let utts := ((splitParas chapter.raw_text).foldl step ([], 0)).1
  let casting2 := utts.foldl (fun ct u =>
    let key := pyLower u.speaker
    match dictGet ct.characters key with
    | some ch =>
      { ct with characters :=
          dictSet ct.characters key { ch with line_count := ch.line_count + 1 } }
    | none => ct) casting
  (utts, casting2)

/-! ## Project configuration and document (`models.py`, `project.py`) -/

/-- `ProjectConfig` (the float field `emotion_confidence_threshold` carries
no claim and is omitted; integers are `Nat`). -/
structure ProjectConfig where
  chapter_pause_ms : Nat := 2000
  narrator_pause_ms : Nat := 600
  dialogue_pause_ms : Nat := 400
  sample_rate : Nat := 24000
  output_format : String := "m4b"
  fallback_voice_id : String := "af_heart"
  validate_voices_on_render : Bool := true
  estimated_wpm : Nat := 150
  min_chapter_words : Nat := 50
  keep_titled_short_chapters : Bool := true
  language_code : String := "en"
  booknlp_mode : String := "auto"
  emotion_mode : String := "rule"
deriving DecidableEq, Repr

/-- `render_params_hash` (`hash_utils.py`): canonical JSON of the three
audio-affecting knobs, keys sorted. -/
def render_params_hash (config : ProjectConfig) : String :=
  sha256_text
    ("\x7b" ++ jsonStr "dialogue_pause_ms" ++ ":" ++
      toString config.dialogue_pause_ms ++ "," ++
      jsonStr "narrator_pause_ms" ++ ":" ++
      toString config.narrator_pause_ms ++ "," ++
      jsonStr "sample_rate" ++ ":" ++ toString config.sample_rate ++ "\x7d")

/-- `AudiobookProject` — the aggregate root (fields the claims touch). -/
structure AudiobookProject where
  title : String := "Untitled"
  author : String := ""
  chapters : List Chapter := []
  casting : CastingTable := {}
  config : ProjectConfig := {}
  project_path : Option String := none
  source_path : Option String := none
  output_path : Option String := none
deriving DecidableEq, Repr

/-- The parameter names of `compile_chapter` as defined in
`casting/dialogue.py` (lines 294–298): `chapter`, `casting`,
`include_single_quotes` — and nothing else, no `**kwargs`. -/
def compile_chapter_param_names : List String :=
  ["chapter", "casting", "include_single_quotes"]

/-- The `TypeError` Python raises when a call passes a keyword argument that
names no parameter. -/
def compileChapterKwErrorMsg : String :=
  "TypeError: compile_chapter() got an unexpected keyword argument 'profile'"

/-- `AudiobookProject.compile` (and `compile_chapter`) invoke
`compile_chapter(chapter, self.casting, profile=profile)`
(`project.py` lines 461 and 486).  Python binds keyword arguments before
running the callee: if the keyword names no parameter, the call raises
`TypeError` and the body never runs. -/
def call_compile_chapter_with_profile_kw (chapter : Chapter)
    (casting : CastingTable) :
    Except String (List Utterance × CastingTable) :=
  if compile_chapter_param_names.contains "profile" then
    Except.ok (compile_chapter chapter casting false)
  else Except.error compileChapterKwErrorMsg

/-- The chapter loop of `AudiobookProject.compile`, threading the shared
casting table. -/
def compileChaptersLoop (casting : CastingTable) :
    List Chapter → Except String (List Chapter × CastingTable)
  | [] => Except.ok ([], casting)
  | ch :: rest =>
    match call_compile_chapter_with_profile_kw ch casting with
    | Except.error e => Except.error e
    | Except.ok (utts, casting2) =>
      match compileChaptersLoop casting2 rest with
      | Except.error e => Except.error e
      | Except.ok (chs, casting3) =>
        Except.ok ({ ch with utterances := utts } :: chs, casting3)

/-- `AudiobookProject.compile`: compile every chapter (the profile lookup
`get_profile(language_code)` precedes the loop and succeeds for registered
languages; it is independent of the call failure modelled above). -/
def AudiobookProject.compile (p : AudiobookProject) :
    Except String AudiobookProject :=
  match compileChaptersLoop p.casting p.chapters with
  | Except.ok (chapters, casting2) =>
    Except.ok { p with chapters := chapters, casting := casting2 }
  | Except.error e => Except.error e

/-- `AudiobookProject.compile_chapter`: bounds check (`IndexError` out of
range), then the same keyword call. -/
def AudiobookProject.compile_chapter (p : AudiobookProject) (i : Nat) :
    Except String (List Utterance) :=
  if i < p.chapters.length then
    match call_compile_chapter_with_profile_kw
        (p.chapters.getD i { index := 0, title := "", raw_text := "" })
        p.casting with
    | Except.error e => Except.error e
    | Except.ok (utts, _) => Except.ok utts
  else Except.error "IndexError: chapter index out of range"

/-- The speaker-lookup rule exactly as the specification words it: the
character stored under the normalized key when present; otherwise the
character stored under the `default_narrator` key when present; otherwise
the fallback voice id with no emotion.  (Spec-side definition; compared with
the source-side `CastingTable.get_voice`.) -/
def specGetVoice (t : CastingTable) (speaker : String) : String × Option String :=
  match dictGet t.characters (CastingTable.normalize_key speaker),
        dictGet t.characters t.default_narrator with
  | some c, _ => (c.voice, c.emotion)
  | none, some c => (c.voice, c.emotion)
  | none, none => (t.fallback_voice_id, none)

/-! ## Review codec (`review.py`) -/

/-- Split a character list at every newline, keeping empty pieces
(`str.split("\n")`). -/
def splitLinesCh : List Char → List (List Char)
  | [] => [[]]
  | c :: rest =>
    if c = '\n' then [] :: splitLinesCh rest
    else
      match splitLinesCh rest with
      | [] => [[c]]
      | l :: ls => (c :: l) :: ls

/-- `content.split("\n")`. -/
def splitLines (s : String) : List String :=
  (splitLinesCh s.data).map String.mk

/-- `"\n".join(lines)`. -/
def joinLines : List String → String
  | [] => ""
  | [x] => x
  | x :: xs => x ++ "\n" ++ joinLines xs

/-- `" ".join(lines)`. -/
def joinSpaces : List String → String
  | [] => ""
  | [x] => x
  | x :: xs => x ++ " " ++ joinSpaces xs

/-- The review file name used in the header comment
(`{title}_review.txt`). -/
def reviewFileName (p : AudiobookProject) : String :=
  p.title ++ "_review.txt"

/-- The metadata/instructions comment block opening a review file. -/
def reviewHeaderLines (p : AudiobookProject) : List String :=
  ["# Audiobooker Review File",
   "# Title: " ++ p.title,
   "# Author: " ++ p.author,
   "#",
   "# Instructions:",
   "#   - Edit speaker names by changing @OldName to @NewName",
   "#   - Edit emotions by changing @Name (old) to @Name (new)",
   "#   - Delete entire speaker blocks to remove them",
   "#   - Add emotions: @narrator -> @narrator (somber)",
   "#   - Lines starting with # are comments (ignored)",
   "#",
   "# After editing, import with: audiobooker review-import " ++
     reviewFileName p,
   ""]

/-- A speaker tag line; the emotion suffix is emitted only when the emotion
is truthy. -/
def speakerTagLine (speaker : String) (emotion : Option String) : String :=
  if pyTruthy emotion then "@" ++ speaker ++ " (" ++ emotion.getD "" ++ ")"
  else "@" ++ speaker

/-- The per-utterance export loop: a speaker tag is emitted only when the
`(speaker, emotion)` pair differs from the previous one, with a blank
separator line before every tag except the chapter's first. -/
def exportUttLines (cur_sp : Option String) (cur_em : Option String) :
    List Utterance → List String
  | [] => []
  | u :: rest =>
    if some u.speaker ≠ cur_sp ∨ u.emotion ≠ cur_em then
      (if cur_sp ≠ none then [""] else []) ++
        speakerTagLine u.speaker u.emotion :: u.text ::
          exportUttLines (some u.speaker) u.emotion rest
    else u.text :: exportUttLines cur_sp cur_em rest

/-- One chapter's lines in the review file. -/
def exportChapterLines (c : Chapter) : List String :=
  ("=== " ++ c.title ++ " ===") :: "" ::
    (if c.utterances.isEmpty then
      ["# (Chapter not compiled - no utterances)", ""]
    else exportUttLines none none c.utterances ++ [""])

/-- `export_for_review`: the review file's content (the source joins the
line list with newlines and writes it to disk). -/
def export_for_review (p : AudiobookProject) : String :=
  joinLines (reviewHeaderLines p ++ p.chapters.flatMap exportChapterLines)

/-- `CHAPTER_PATTERN` = `^===\s*(.+?)\s*===$` applied to a newline-free
line: it matches exactly when the line is `===`, at least one character,
then `===`; the lazy/greedy capture is the stripped middle when that is
nonempty, else the middle's last (whitespace) character. -/
def chapterMarkerParse (line : String) : Option String :=
  if 7 ≤ line.data.length ∧ line.data.take 3 = ['=', '=', '='] ∧
      line.data.drop (line.data.length - 3) = ['=', '=', '='] then
    if pyStripCh ((line.data.drop 3).take (line.data.length - 6)) ≠ [] then
      some (String.mk (pyStripCh ((line.data.drop 3).take (line.data.length - 6))))
    else
      match ((line.data.drop 3).take (line.data.length - 6)).getLast? with
      | some c => some (String.mk [c])
      | none => none
  else none

/-- The optional-emotion part of the speaker-tag grammar, applied to what
remains after the speaker's word run: end of line means no emotion;
otherwise whitespace, `(`, a nonempty run without `)`, `)`, end. -/
def tagEmotionParse (sp : String) : List Char → Option (String × Option String)
  | [] => some (sp, none)
  | d :: r2 =>
    match (d :: r2).dropWhile isPySpace with
    | [] => none
    | c2 :: r3 =>
      if c2 = '(' then
        if (r3.takeWhile (fun ch => ch ≠ ')')).isEmpty then none
        else
          match r3.drop (r3.takeWhile (fun ch => ch ≠ ')')).length with
          | [c3] =>
            if c3 = ')' then
              some (sp, some (String.mk (r3.takeWhile (fun ch => ch ≠ ')'))))
            else none
          | _ => none
      else none

/-- `SPEAKER_PATTERN` = `^@(\w+)(?:\s*\(([^)]+)\))?$` applied to a stripped
line: `@`, a maximal nonempty word-character run, then the optional emotion
group or end of line. -/
def speakerTagParse (line : String) : Option (String × Option String) :=
  match line.data with
  | [] => none
  | c :: rest =>
    if c = '@' then
      if (rest.takeWhile isWordChar).isEmpty then none
      else
        tagEmotionParse (String.mk (rest.takeWhile isWordChar))
          (rest.drop (rest.takeWhile isWordChar).length)
    else none

/-- The import parser's state: parsed chapters, current chapter title and
utterances, current speaker/emotion, accumulated text lines.  A parsed
utterance is `(speaker, emotion, text)`. -/
structure ReviewParseState where
  chaptersData : List (String × List (String × Option String × String)) := []
  curTitle : Option String := none
  curUtts : List (String × Option String × String) := []
  curSpeaker : Option String := none
  curEmotion : Option String := none
  curTextLines : List String := []
deriving DecidableEq, Repr

/-- `flush_utterance`: emit the accumulated text (space-joined, stripped)
under the current speaker when the speaker is truthy, lines were
accumulated, and the joined text is nonempty. -/
def flushUtterance (st : ReviewParseState) : ReviewParseState :=
  if pyTruthy st.curSpeaker ∧ ¬ st.curTextLines.isEmpty then
    if pyStrip (joinSpaces st.curTextLines) ≠ "" then
      { st with
        curUtts := st.curUtts ++
          [(st.curSpeaker.getD "", st.curEmotion,
            pyStrip (joinSpaces st.curTextLines))],
        curTextLines := [] }
    else { st with curTextLines := [] }
  else { st with curTextLines := [] }

/-- `flush_chapter`: flush the pending utterance, then record the chapter
when a title is current. -/
def flushChapter (st : ReviewParseState) : ReviewParseState :=
  let st2 := flushUtterance st
  match st2.curTitle with
  | some t =>
    { st2 with chaptersData := st2.chaptersData ++ [(t, st2.curUtts)],
               curUtts := [] }
  | none => { st2 with curUtts := [] }

/-- One line of the import parser: comments and blanks are skipped, a
chapter marker flushes and resets, a speaker tag flushes the utterance and
sets the pair, any other line is text for the current speaker. -/
def reviewParseLine (st : ReviewParseState) (line : String) :
    ReviewParseState :=
  let ls := pyStrip line
  if strStartsWith ls "#" then st
  else if ls = "" then st
  else
    match chapterMarkerParse ls with
    | some t =>
      { flushChapter st with curTitle := some t, curSpeaker := none,
                             curEmotion := none }
    | none =>
      match speakerTagParse ls with
      | some (sp, em) =>
        { flushUtterance st with curSpeaker := some sp, curEmotion := em }
      | none =>
        if pyTruthy st.curSpeaker then
          { st with curTextLines := st.curTextLines ++ [ls] }
        else st

/-- The parse phase of `import_reviewed`: run the line parser over the
file's lines, flushing the final chapter at end of input. -/
def reviewParse (content : String) :
    List (String × List (String × Option String × String)) :=
  (flushChapter ((splitLines content).foldl reviewParseLine {})).chaptersData

/-- The utterance-kind heuristic on import: dialogue exactly when the text
begins with a double quote. -/
def classifyKind (text : String) : UtteranceType :=
  if strStartsWith text "\"" then UtteranceType.dialogue
  else UtteranceType.narration

/-- Rebuild one chapter's utterances from parsed `(speaker, emotion, text)`
triples, with dense line indexes and the chapter's index. -/
def rebuildUtterances (index : Nat)
    (utts : List (String × Option String × String)) : List Utterance :=
  utts.enum.map (fun iu =>
    { speaker := iu.2.1, text := iu.2.2.2,
      utterance_type := classifyKind iu.2.2.2, emotion := iu.2.2.1,
      chapter_index := index, line_index := iu.1 })

/-- Replace the utterances of the first chapter whose title matches. -/
def updateChapterAtFirstTitle (title : String)
    (utts : List (String × Option String × String)) :
    List Chapter → List Chapter
  | [] => []
  | c :: rest =>
    if c.title = title then
      { c with utterances := rebuildUtterances c.index utts } :: rest
    else c :: updateChapterAtFirstTitle title utts rest

/-- Import statistics (`speakers_found` as an insertion-ordered list). -/
structure ImportStats where
  chapters_updated : Nat := 0
  utterances_imported : Nat := 0
  speakers_found : List String := []
deriving DecidableEq, Repr

def insertIfAbsent (l : List String) (s : String) : List String :=
  if l.contains s then l else l ++ [s]

/-- The merge phase of `import_reviewed`: each parsed chapter updates the
first project chapter with the same title; unmatched parsed chapters are
dropped. -/
def mergeReviewedLoop (chs : List Chapter) (stats : ImportStats) :
    List (String × List (String × Option String × String)) →
    List Chapter × ImportStats
  | [] => (chs, stats)
  | (title, utts) :: rest =>
    if chs.any (fun c => c.title = title) then
      mergeReviewedLoop (updateChapterAtFirstTitle title utts chs)
        { chapters_updated := stats.chapters_updated + 1,
          utterances_imported := stats.utterances_imported + utts.length,
          speakers_found :=
            utts.foldl (fun acc u => insertIfAbsent acc u.1)
              stats.speakers_found }
        rest
    else mergeReviewedLoop chs stats rest

/-- `import_reviewed`: parse the review content, merge into the project. -/
def import_reviewed (p : AudiobookProject) (content : String) :
    AudiobookProject × ImportStats :=
  let merged := mergeReviewedLoop p.chapters {} (reviewParse content)
  ({ p with chapters := merged.1 }, merged.2)

/-! ## Round-trip predicates (claim C2) -/

/-- No two adjacent utterances share the same `(speaker, emotion)` pair —
the claim's own precondition. -/
def adjacentPairsDistinct (utts : List Utterance) : Prop :=
  List.Chain' (fun u v => (u.speaker, u.emotion) ≠ (v.speaker, v.emotion)) utts

instance adjacentPairsDistinctDec :
    (utts : List Utterance) → Decidable (adjacentPairsDistinct utts)
  | [] => isTrue List.chain'_nil
  | [_] => isTrue (List.chain'_singleton _)
  | u :: v :: rest =>
    haveI : Decidable (List.Chain'
        (fun a b : Utterance =>
          (a.speaker, a.emotion) ≠ (b.speaker, b.emotion))
        (v :: rest)) :=
      adjacentPairsDistinctDec (v :: rest)
    decidable_of_iff
      ((u.speaker, u.emotion) ≠ (v.speaker, v.emotion) ∧
        List.Chain'
          (fun a b : Utterance =>
            (a.speaker, a.emotion) ≠ (b.speaker, b.emotion))
          (v :: rest))
      ((@List.chain'_cons Utterance
        (fun a b => (a.speaker, a.emotion) ≠ (b.speaker, b.emotion))
        u v rest).symm)

/-- A text line survives the import parser as content: nonblank after
trimming and not mistakable for a comment, speaker tag, or chapter
marker. -/
def reviewSafeTextLine (ln : String) : Prop :=
  pyStrip ln ≠ "" ∧ ¬ strStartsWith (pyStrip ln) "#" ∧
    ¬ strStartsWith (pyStrip ln) "@" ∧ ¬ strStartsWith (pyStrip ln) "==="

/-- A speaker name that the tag grammar round-trips: a nonempty word. -/
def reviewSafeSpeaker (sp : String) : Prop :=
  sp ≠ "" ∧ sp.data.all isWordChar

/-- An emotion the tag grammar round-trips: absent, or nonempty without
`)` or newline. -/
def reviewSafeEmotion : Option String → Prop
  | none => True
  | some e => e ≠ "" ∧ ')' ∉ e.data ∧ '\n' ∉ e.data

/-- A chapter title the marker grammar round-trips: nonempty, newline-free,
trim-invariant. -/
def reviewSafeTitle (t : String) : Prop :=
  t ≠ "" ∧ '\n' ∉ t.data ∧ pyStrip t = t

def reviewSafeUtterance (u : Utterance) : Prop :=
  reviewSafeSpeaker u.speaker ∧ reviewSafeEmotion u.emotion ∧
    ∀ ln ∈ splitLines u.text, reviewSafeTextLine ln

/-- The amended claim's precondition on a project. -/
def reviewRoundTripSafe (p : AudiobookProject) : Prop :=
  '\n' ∉ p.title.data ∧ '\n' ∉ p.author.data ∧
  (p.chapters.map Chapter.title).Nodup ∧
  ∀ c ∈ p.chapters, reviewSafeTitle c.title ∧
    adjacentPairsDistinct c.utterances ∧
    ∀ u ∈ c.utterances, reviewSafeUtterance u

/-- What import makes of an exported utterance text: its lines trimmed and
joined by single spaces. -/
def roundTripText (t : String) : String :=
  joinSpaces ((splitLines t).map pyStrip)

/-- Physical file lines of a logical line list: what splitting the joined
content on newlines yields. -/
def physLines (ls : List String) : List String :=
  ls.flatMap splitLines

/-- What the import parser reconstructs from one exported utterance. -/
def parsedUtt (u : Utterance) : String × Option String × String :=
  (u.speaker, u.emotion, roundTripText u.text)

/-- What the import parser reconstructs from one exported chapter. -/
def parsedChapter (c : Chapter) :
    String × List (String × Option String × String) :=
  (c.title, c.utterances.map parsedUtt)

/-- The export block of a run of utterances in which every utterance gets a
speaker tag (the shape `exportUttLines` takes under the adjacency
precondition); `first` suppresses the leading blank separator. -/
def exportBlocks : Bool → List Utterance → List String
  | _, [] => []
  | first, u :: rest =>
    (if first then [] else [""]) ++
      speakerTagLine u.speaker u.emotion :: u.text :: exportBlocks false rest

/-- The parser state in the middle of a chapter: `prev` is the utterance
whose tag was seen last, with its text lines accumulated but not yet
flushed. -/
def stateOf (done : List (String × List (String × Option String × String)))
    (title : String) (curUtts : List (String × Option String × String)) :
    Option Utterance → ReviewParseState
  | none =>
    { chaptersData := done, curTitle := some title, curUtts := curUtts,
      curSpeaker := none, curEmotion := none, curTextLines := [] }
  | some u =>
    { chaptersData := done, curTitle := some title, curUtts := curUtts,
      curSpeaker := some u.speaker, curEmotion := u.emotion,
      curTextLines := (splitLines u.text).map pyStrip }

/-- The parser state after all of one chapter's exported lines. -/
def chapterOpenState
    (done : List (String × List (String × Option String × String)))
    (c : Chapter) : ReviewParseState :=
  stateOf done c.title ((c.utterances.dropLast).map parsedUtt)
    c.utterances.getLast?

/-- The chapter resulting from a round-trip import: utterances rebuilt from
their parsed forms. -/
def updateFromParsed (c : Chapter) : Chapter :=
  { c with utterances :=
      rebuildUtterances c.index (c.utterances.map parsedUtt) }

/-- A minimal concrete project as built by `from_chapters`: one chapter and
the auto-installed default narrator. -/
def c1DemoProject : AudiobookProject :=
  { title := "Demo",
    chapters := [{ index := 0, title := "Ch1", raw_text := "Hello." }],
    casting := (CastingTable.cast {} "narrator" "af_heart" (some "calm")
      (some "Default narrator")).2 }

instance (ln : String) : Decidable (reviewSafeTextLine ln) :=
  inferInstanceAs (Decidable (_ ∧ _ ∧ _ ∧ _))

instance (sp : String) : Decidable (reviewSafeSpeaker sp) :=
  inferInstanceAs (Decidable (_ ∧ _))

instance : (em : Option String) → Decidable (reviewSafeEmotion em)
  | none => isTrue trivial
  | some _ => inferInstanceAs (Decidable (_ ∧ _ ∧ _))

instance (t : String) : Decidable (reviewSafeTitle t) :=
  inferInstanceAs (Decidable (_ ∧ _ ∧ _))

instance (u : Utterance) : Decidable (reviewSafeUtterance u) :=
  inferInstanceAs
    (Decidable (_ ∧ _ ∧ ∀ ln ∈ splitLines u.text, reviewSafeTextLine ln))

instance (p : AudiobookProject) : Decidable (reviewRoundTripSafe p) :=
  inferInstanceAs
    (Decidable ('\n' ∉ p.title.data ∧ '\n' ∉ p.author.data ∧
      (p.chapters.map Chapter.title).Nodup ∧
      ∀ c ∈ p.chapters, reviewSafeTitle c.title ∧
        adjacentPairsDistinct c.utterances ∧
        ∀ u ∈ c.utterances, reviewSafeUtterance u))

/-- A project meeting the original claim's stated precondition (adjacent
`(speaker, emotion)` pairs distinct) whose single utterance text starts
with `#`: the review-import parser reads that exported line back as a
comment. -/
def c2CexProject : AudiobookProject :=
  { title := "T", author := "A",
    chapters :=
      [{ index := 0, title := "Ch1", raw_text := "# note",
         utterances :=
           [{ speaker := "Narrator", text := "# note",
              utterance_type := UtteranceType.narration, emotion := none,
              chapter_index := 0, line_index := 0 }] }] }

/-- A small concrete project satisfying the amended round-trip
precondition. -/
def c2WitnessProject : AudiobookProject :=
  { title := "T", author := "A",
    chapters :=
      [{ index := 0, title := "Ch1", raw_text := "Hi.",
         utterances :=
           [{ speaker := "Narrator", text := "Hi there.",
              utterance_type := UtteranceType.narration, emotion := none,
              chapter_index := 0, line_index := 0 },
            { speaker := "Alice", text := "\"Yes!\"",
              utterance_type := UtteranceType.dialogue,
              emotion := some "happy", chapter_index := 0,
              line_index := 1 }] }] }

/-! ## Renderer (`renderer/engine.py` `render_project`) -/

/-- One decimal digit as a character. -/
def digitChar : Nat → Char
  | 0 => '0' | 1 => '1' | 2 => '2' | 3 => '3' | 4 => '4'
  | 5 => '5' | 6 => '6' | 7 => '7' | 8 => '8' | 9 => '9'
  | _ => '*'

/-- Decimal digits of a natural number, most significant first
(fuel-based so that it evaluates in the kernel). -/
def natDigitsGo : Nat → Nat → List Char
  | 0, _ => []
  | fuel + 1, n =>
    if n < 10 then [digitChar n]
    else natDigitsGo fuel (n / 10) ++ [digitChar (n % 10)]

def natDigits (n : Nat) : List Char := natDigitsGo (n + 1) n

/-- The value a digit string denotes (used only to reason about path
injectivity). -/
def digitsVal (a : Nat) (ds : List Char) : Nat :=
  ds.foldl (fun acc c => acc * 10 + (c.toNat - 48)) a

/-- Python's `f"{i:04d}"`: the decimal digits left-padded with zeros to
width 4. -/
def pad4 (i : Nat) : String :=
  String.mk (List.replicate (4 - (natDigits i).length) '0' ++ natDigits i)

/-- `get_chapter_wav_path`: `<cache_root>/chapters/chapter_{i:04d}.wav`. -/
def wavPath (cache_root : String) (i : Nat) : String :=
  cache_root ++ "/chapters/chapter_" ++ pad4 i ++ ".wav"

/-- `target_path.with_suffix(".wav.tmp")`: the same path with `.wav`
replaced by `.wav.tmp`. -/
def tmpWavPath (cache_root : String) (i : Nat) : String :=
  wavPath cache_root i ++ ".tmp"

/-- The mutable state `render_project` works on: the project's chapter
objects (audio paths and durations are set in place), the file system as
the set of existing paths, the manifest on disk, and the summary
counters. -/
structure RenderState where
  chapters : List Chapter := []
  fs : List String := []
  mdisk : Option CacheManifest := none
  synthCalls : Nat := 0
  rendered : Nat := 0
  skipped_cached : Nat := 0
  failed : Nat := 0
deriving DecidableEq, Repr

/-- The cache entry written after a successful chapter render
(`status="ok"`, canonical wav path, current hashes). -/
def okEntry (cache_root : String) (i : Nat) (th ch ph : String) (d : Nat) :
    ChapterCacheEntry :=
  { chapter_index := i, text_hash := th, casting_hash := ch,
    render_params_hash := ph, wav_path := wavPath cache_root i,
    duration_s := d, status := "ok" }

/-- The cache entry written after a failed chapter render
(`status="failed"`, empty wav path). -/
def failedEntry (i : Nat) (th ch ph : String) : ChapterCacheEntry :=
  { chapter_index := i, text_hash := th, casting_hash := ch,
    render_params_hash := ph, wav_path := "", status := "failed",
    error_summary := "synthesis failed" }

/-- The chapter loop of `render_project` (engine.py 300–394) over
`enumerate(project.chapters)`.  `synth i = some d` models
`render_chapter` succeeding with duration `d` after writing the tmp WAV;
`none` models it raising.  `allowIncomplete` is the source's
`allow_partial` flag.  The third component is `some msg` when the loop
aborted by raising `RenderError`. -/
def renderLoop (cache_root : String) (casting_h params_h : String)
    (synth : Nat → Option Nat) (resume allowIncomplete : Bool)
    (from_chapter : Option Nat) :
    List (Nat × Chapter) → CacheManifest → RenderState →
    CacheManifest × RenderState × Option String
  | [], m, st => (m, st, none)
  | (i, ch) :: rest, m, st =>
    if (from_chapter.map (fun f => decide (i < f))).getD false then
      renderLoop cache_root casting_h params_h synth resume allowIncomplete
        from_chapter rest m { st with chapters := st.chapters ++ [ch] }
    else
      let th := chapter_text_hash ch
      let hit := resume && (match m.get_entry i with
        | some e => e.is_valid th casting_h params_h st.fs
        | none => false)
      if hit then
        let e := (m.get_entry i).getD (failedEntry i th casting_h params_h)
        renderLoop cache_root casting_h params_h synth resume allowIncomplete
          from_chapter rest m
          { st with
            chapters := st.chapters ++
              [{ ch with audio_path := some e.wav_path,
                         duration_seconds := e.duration_s }],
            skipped_cached := st.skipped_cached + 1 }
      else
        let target := wavPath cache_root i
        let tmp := tmpWavPath cache_root i
        match synth i with
        | some d =>
          let fs1 := tmp :: st.fs
          let fs2 := fs1.filter (fun q => ¬ q = target)
          let fs3 := target :: fs2.filter (fun q => ¬ q = tmp)
          let m2 := m.set_entry (okEntry cache_root i th casting_h params_h d)
          renderLoop cache_root casting_h params_h synth resume
            allowIncomplete from_chapter rest m2
            { st with
              chapters := st.chapters ++
                [{ ch with audio_path := some target,
                           duration_seconds := d }],
              fs := fs3, mdisk := some m2,
              synthCalls := st.synthCalls + 1,
              rendered := st.rendered + 1 }
        | none =>
          let fs2 := st.fs.filter (fun q => ¬ q = tmp)
          let m2 := m.set_entry (failedEntry i th casting_h params_h)
          let st2 := { st with
            chapters := st.chapters ++ [ch], fs := fs2, mdisk := some m2,
            synthCalls := st.synthCalls + 1, failed := st.failed + 1 }
          if allowIncomplete then
            renderLoop cache_root casting_h params_h synth resume
              allowIncomplete from_chapter rest m2 st2
          else
            (m2, { st2 with chapters := st2.chapters ++ rest.map Prod.snd },
              some ("Chapter " ++ toString i ++ " ('" ++ ch.title ++
                "') failed: synthesis failed"))

/-- The assembly-readiness loop of `render_project` (engine.py 396–409):
collect the audio path of every chapter whose path is set and exists;
with `allow_partial` false, raise at the first chapter without audio.
The error carries the chapter index and title. -/
def assemblyLoop (allowIncomplete : Bool) (fs : List String) :
    List (Nat × Chapter) → Except (Nat × String) (List String)
  | [] => Except.ok []
  | (i, ch) :: rest =>
    match ch.audio_path with
    | some ap =>
      if ap ∈ fs then
        match assemblyLoop allowIncomplete fs rest with
        | Except.ok paths => Except.ok (ap :: paths)
        | Except.error e => Except.error e
      else if allowIncomplete then assemblyLoop allowIncomplete fs rest
      else Except.error (i, ch.title)
    | none =>
      if allowIncomplete then assemblyLoop allowIncomplete fs rest
      else Except.error (i, ch.title)

/-- The `RenderError` message for a chapter with no audio at assembly
time. -/
def noAudioMsg (i : Nat) (title : String) : String :=
  "Chapter " ++ toString i ++ " ('" ++ title ++
    "') has no audio — cannot assemble. Use --allow-partial or fix and --resume."

/-- `render_project`: load the manifest when resuming (fresh otherwise or
when missing/corrupt/newer than supported), run the chapter loop, verify
assembly readiness, fail when nothing rendered, then assemble to
`output_path`.  Returns the final external state and the call's result
(`ok output_path`, or the raised `RenderError`'s message). -/
def renderProject (p : AudiobookProject) (output_path : String)
    (cache_root : String) (synth : Nat → Option Nat)
    (resume allowIncomplete : Bool) (from_chapter : Option Nat)
    (fs0 : List String) (mdisk0 : Option CacheManifest) :
    RenderState × Except String String :=
  let casting_h := casting_hash p.casting
  let params_h := render_params_hash p.config
  let m0 := ((if resume then mdisk0 else none).bind
    (fun m => if 1 < m.version then none else some m)).getD
    { book_title := p.title }
  match renderLoop cache_root casting_h params_h synth resume
      allowIncomplete from_chapter p.chapters.enum m0
      { chapters := [], fs := fs0, mdisk := mdisk0 } with
  | (_, st, some msg) => (st, Except.error msg)
  | (_, st, none) =>
    match assemblyLoop allowIncomplete st.fs st.chapters.enum with
    | Except.error it => (st, Except.error (noAudioMsg it.1 it.2))
    | Except.ok ok_paths =>
      if ok_paths.isEmpty then
        (st, Except.error "No chapters rendered successfully.")
      else
        ({ st with fs := output_path :: st.fs }, Except.ok output_path)

/-- The duration `render_chapter` reports for chapter `j` (when `synth j`
succeeds). -/
def dOf (synth : Nat → Option Nat) (j : Nat) : Nat := (synth j).getD 0

/-- A blank chapter, used as the irrelevant default of list lookups. -/
def blankChapter : Chapter := { index := 0, title := "", raw_text := "" }

/-- The chapter list a fresh all-successful render run produces: every
chapter pointed at its canonical cache WAV.  (Proof infrastructure for the
render-loop characterization.) -/
def freshChapters (cache_root : String) (synth : Nat → Option Nat) :
    Nat → List Chapter → List Chapter
  | _, [] => []
  | n, ch :: rest =>
    { ch with audio_path := some (wavPath cache_root n),
              duration_seconds := dOf synth n } ::
      freshChapters cache_root synth (n + 1) rest

/-- The manifest a fresh all-successful render run produces. -/
def freshManifest (cache_root casting_h params_h : String)
    (synth : Nat → Option Nat) :
    Nat → List Chapter → CacheManifest → CacheManifest
  | _, [], m => m
  | n, ch :: rest, m =>
    freshManifest cache_root casting_h params_h synth (n + 1) rest
      (m.set_entry (okEntry cache_root n (chapter_text_hash ch)
        casting_h params_h (dOf synth n)))

/-- The file system a fresh all-successful render run produces. -/
def freshFs (cache_root : String) :
    Nat → List Chapter → List String → List String
  | _, [], fs => fs
  | n, _ :: rest, fs =>
    freshFs cache_root (n + 1) rest
      (wavPath cache_root n ::
        ((tmpWavPath cache_root n :: fs).filter
          (fun q => ¬ q = wavPath cache_root n)).filter
          (fun q => ¬ q = tmpWavPath cache_root n))

/-- The chapter list an all-cache-hit resume run produces: every chapter
restored from its manifest entry. -/
def hitChapters (m : CacheManifest) : Nat → List Chapter → List Chapter
  | _, [] => []
  | n, ch :: rest =>
    (match m.get_entry n with
      | some e => { ch with audio_path := some e.wav_path,
                            duration_seconds := e.duration_s }
      | none => ch) :: hitChapters m (n + 1) rest

/-- The two-chapter project of the C9 counterexample run. -/
def c9CexProject : AudiobookProject :=
  { title := "B", author := "A",
    chapters :=
      [{ index := 0, title := "Ch0", raw_text := "Zero." },
       { index := 1, title := "Ch1", raw_text := "One." }] }

/-- A one-chapter project for the render witnesses. -/
def c3WitnessProject : AudiobookProject :=
  { title := "B", author := "A",
    chapters := [{ index := 0, title := "Ch0", raw_text := "Zero." }] }

/-! ## Dictionary lemmas -/

theorem dictGet_dictSet_self {β : Type} (l : List (String × β)) (k : String)
    (v : β) : dictGet (dictSet l k v) k = some v := by
  induction l with
  | nil => simp [dictSet, dictGet]
  | cons p rest ih =>
    obtain ⟨k1, v1⟩ := p
    by_cases hp : k1 = k
    · simp [dictSet, dictGet, hp]
    · simp [dictSet, dictGet, hp, ih]

theorem dictGet_dictSet_other {β : Type} (l : List (String × β))
    (k k' : String) (v : β) (hne : k' ≠ k) :
    dictGet (dictSet l k v) k' = dictGet l k' := by
  have hke : ¬ (k = k') := fun h => hne h.symm
  induction l with
  | nil => simp [dictSet, dictGet, hke]
  | cons p rest ih =>
    obtain ⟨k1, v1⟩ := p
    by_cases hp : k1 = k
    · subst hp
      simp [dictSet, dictGet, hke]
    · simp only [dictSet, if_neg hp, dictGet]
      by_cases hq : k1 = k'
      · simp [hq]
      · simp [hq, ih]

/-! ## Theorems for claims C6, C7, C10 -/

theorem projEntry_orderedInsert (x : String × Character)
    (l : List (String × Character)) :
    (List.orderedInsert keyLe x l).map projEntry =
      List.orderedInsert keyLe3 (projEntry x) (l.map projEntry) := by
  induction l with
  | nil => rfl
  | cons y ys ih =>
    by_cases h : keyLe x y
    · have h3 : keyLe3 (projEntry x) (projEntry y) := h
      simp [List.orderedInsert, h, h3]
    · have h3 : ¬ keyLe3 (projEntry x) (projEntry y) := h
      simp [List.orderedInsert, h, h3, ih]

theorem projEntry_insertionSort (l : List (String × Character)) :
    (List.insertionSort keyLe l).map projEntry =
      List.insertionSort keyLe3 (l.map projEntry) := by
  induction l with
  | nil => rfl
  | cons y ys ih =>
    simp only [List.insertionSort, List.map_cons, ← ih, projEntry_orderedInsert]

/-- C8: two casting tables holding the same set of characters — the same
normalized keys with the same voices and emotions, inserted in any order —
and the same fallback voice id hash identically. -/
theorem c8_casting_hash_order_invariant (t1 t2 : CastingTable)
    (hperm : (t1.characters.map projEntry).Perm (t2.characters.map projEntry))
    (hnodup : (t1.characters.map Prod.fst).Nodup)
    (hfb : t1.fallback_voice_id = t2.fallback_voice_id) :
    casting_hash t1 = casting_hash t2 := by
  have hsorted : List.insertionSort keyLe3 (t1.characters.map projEntry) =
      List.insertionSort keyLe3 (t2.characters.map projEntry) := by
    set s1 := List.insertionSort keyLe3 (t1.characters.map projEntry) with hs1
    set s2 := List.insertionSort keyLe3 (t2.characters.map projEntry) with hs2
    have hp1 : s1.Perm (t1.characters.map projEntry) :=
      List.perm_insertionSort keyLe3 _
    have hp2 : s2.Perm (t2.characters.map projEntry) :=
      List.perm_insertionSort keyLe3 _
    have hp : s1.Perm s2 := (hp1.trans hperm).trans hp2.symm
    have hsort1 : s1.Sorted keyLe3 := List.sorted_insertionSort keyLe3 _
    have hsort2 : s2.Sorted keyLe3 := List.sorted_insertionSort keyLe3 _
    have hkeys : (t1.characters.map projEntry).map Prod.fst =
        t1.characters.map Prod.fst := by
      rw [List.map_map]; rfl
    have hnodup1 : (s1.map Prod.fst).Nodup := by
      refine ((hp1.map Prod.fst).nodup_iff).mpr ?_
      rw [hkeys]; exact hnodup
    have hnodup2 : (s2.map Prod.fst).Nodup := by
      refine ((hp.map Prod.fst).nodup_iff).mp hnodup1
    have hne1 : s1.Pairwise (fun a b => a.1 ≠ b.1) :=
      (List.pairwise_map).mp hnodup1
    have hne2 : s2.Pairwise (fun a b => a.1 ≠ b.1) :=
      (List.pairwise_map).mp hnodup2
    have hlt1 : s1.Pairwise (fun a b => a.1 < b.1) :=
      (hsort1.and hne1).imp (fun h => lt_of_le_of_ne h.1 h.2)
    have hlt2 : s2.Pairwise (fun a b => a.1 < b.1) :=
      (hsort2.and hne2).imp (fun h => lt_of_le_of_ne h.1 h.2)
    haveI : IsAntisymm (String × String × Option String)
        (fun a b => a.1 < b.1) := ⟨fun _ _ h1 h2 => absurd h2 (lt_asymm h1)⟩
    exact List.eq_of_perm_of_sorted hp hlt1 hlt2
  simp only [casting_hash]
  have hmap : ∀ t : CastingTable,
      (List.insertionSort keyLe t.characters).map
        (fun p => jsonStr p.1 ++ ":" ++ charEntryJson p.2.voice p.2.emotion) =
      (List.insertionSort keyLe3 (t.characters.map projEntry)).map entryJson3 := by
    intro t
    rw [← projEntry_insertionSort, List.map_map]
    rfl
  rw [hmap t1, hmap t2, hsorted, hfb]

/-- Witness for C8: the same two characters inserted in opposite orders. -/
theorem c8_witness :
    casting_hash
      { characters :=
          [("alice", { name := "Alice", voice := "af_bella" }),
           ("bob", { name := "Bob", voice := "bm_george",
                     emotion := some "calm" })] } =
    casting_hash
      { characters :=
          [("bob", { name := "Bobby", voice := "bm_george",
                     emotion := some "calm", line_count := 7 }),
           ("alice", { name := "ALICE", voice := "af_bella",
                       description := some "lead" })] } :=
  c8_casting_hash_order_invariant _ _ (by decide) (by decide) (by decide)

/-- C6: for every casting table and speaker string, `get_voice` returns the
voice and emotion of the character under the normalized key of the speaker
when present, else of the character under the `default_narrator` key when
present, else the table's `fallback_voice_id` with no emotion. -/
theorem c6_get_voice_matches_spec (t : CastingTable) (speaker : String) :
    t.get_voice speaker = specGetVoice t speaker := by
  unfold CastingTable.get_voice specGetVoice
  cases h1 : dictGet t.characters (CastingTable.normalize_key speaker) with
  | some c => simp [h1]
  | none =>
    cases h2 : dictGet t.characters t.default_narrator with
    | some c => simp [h1, h2]
    | none => simp [h1, h2]

/-- C7: a manifest chapter entry is judged valid against current hashes
`(ht, hc, hp)` and a file system exactly when its status is `ok`, its three
stored hashes equal the current ones, and the file at its `wav_path`
exists. -/
theorem c7_is_valid_iff (e : ChapterCacheEntry) (ht hc hp : String)
    (fs : List String) :
    e.is_valid ht hc hp fs = true ↔
      (e.status = "ok" ∧ e.text_hash = ht ∧ e.casting_hash = hc ∧
       e.render_params_hash = hp ∧ e.wav_path ∈ fs) := by
  unfold ChapterCacheEntry.is_valid
  by_cases h1 : e.status = "ok" <;>
    by_cases h2 : e.text_hash = ht <;>
    by_cases h3 : e.casting_hash = hc <;>
    by_cases h4 : e.render_params_hash = hp <;>
    by_cases h5 : e.wav_path ∈ fs <;>
    simp [h1, h2, h3, h4, h5]

/-- C10: re-casting a name whose normalized key is already present replaces
the stored entry by a freshly built `Character` — new display form and voice,
`line_count` reset to 0, and emotion/description exactly the ones supplied
to this call — while every other key's entry is unchanged, and the fresh
character is also the function's return value. -/
theorem c10_cast_replaces_entry (t : CastingTable) (name voice : String)
    (em desc : Option String) (old : Character)
    (_hold : dictGet t.characters (CastingTable.normalize_key name) = some old) :
    dictGet (t.cast name voice em desc).2.characters
        (CastingTable.normalize_key name) =
      some { name := name, voice := voice, emotion := em,
             description := desc, line_count := 0 } ∧
    (∀ k : String, k ≠ CastingTable.normalize_key name →
      dictGet (t.cast name voice em desc).2.characters k =
        dictGet t.characters k) ∧
    (t.cast name voice em desc).1 =
      { name := name, voice := voice, emotion := em,
        description := desc, line_count := 0 } := by
  refine ⟨?_, ?_, rfl⟩
  · exact dictGet_dictSet_self t.characters _ _
  · intro k hk
    exact dictGet_dictSet_other t.characters _ k _ hk

/-- Witness for C10 at a concrete table: "Alice" cast as `af_bella` with an
emotion and description, then re-cast as "ALICE" with `af_heart` and
neither. -/
theorem c10_witness :
    dictGet ((CastingTable.cast {} "Alice" "af_bella" (some "warm")
        (some "the heroine")).2.cast "ALICE" "af_heart" none none).2.characters
        (CastingTable.normalize_key "ALICE") =
      some { name := "ALICE", voice := "af_heart", emotion := none,
             description := none, line_count := 0 } ∧
    dictGet ((CastingTable.cast {} "Alice" "af_bella" (some "warm")
        (some "the heroine")).2.cast "ALICE" "af_heart" none none).2.characters
        "bob" =
      dictGet (CastingTable.cast {} "Alice" "af_bella" (some "warm")
        (some "the heroine")).2.characters "bob" := by
  have h := c10_cast_replaces_entry
    (CastingTable.cast {} "Alice" "af_bella" (some "warm")
      (some "the heroine")).2
    "ALICE" "af_heart" none none
    { name := "Alice", voice := "af_bella", emotion := some "warm",
      description := some "the heroine", line_count := 0 }
    (by decide)
  exact ⟨h.1, h.2.1 "bob" (by decide)⟩

/-! ## Claims C1 and C5 (dialogue compilation) -/

/-- C1 (divergence witness): for every project with at least one chapter,
`AudiobookProject.compile` raises
`TypeError: compile_chapter() got an unexpected keyword argument 'profile'`
— `project.py` passes `profile=profile`, but `compile_chapter` in
`casting/dialogue.py` has no such parameter — and `compile_chapter i` raises
the same error for every in-range index.  The claim states compilation
completes without raising on ordinary prose; the code contradicts it (and
its own test suite) on every nonempty project. -/
theorem c1_compile_raises_type_error (p : AudiobookProject)
    (h : p.chapters ≠ []) :
    p.compile = Except.error compileChapterKwErrorMsg ∧
    ∀ i, i < p.chapters.length →
      p.compile_chapter i = Except.error compileChapterKwErrorMsg := by
  constructor
  · match hc : p.chapters with
    | [] => exact absurd hc h
    | ch :: rest =>
      simp [AudiobookProject.compile, hc, compileChaptersLoop,
        call_compile_chapter_with_profile_kw, compile_chapter_param_names]
  · intro i hi
    simp [AudiobookProject.compile_chapter, hi,
      call_compile_chapter_with_profile_kw, compile_chapter_param_names]

/-- Witness for C1 at the concrete one-chapter project. -/
theorem c1_witness :
    c1DemoProject.compile = Except.error compileChapterKwErrorMsg ∧
    c1DemoProject.compile_chapter 0 = Except.error compileChapterKwErrorMsg := by
  have h := c1_compile_raises_type_error c1DemoProject (by decide)
  exact ⟨h.1, h.2 0 (by decide)⟩

/-- C5 (divergence witness): a paragraph consisting only of an inline
override tag compiles to one narration utterance whose text is empty — the
claim (and the spec) require such utterances to be dropped and no emitted
utterance to have empty text. -/
theorem c5_override_only_paragraph_emits_empty_text :
    (compile_chapter { index := 0, title := "T", raw_text := "[Bob]" } {}
        false).1 =
      [{ speaker := "Bob", text := "",
         utterance_type := UtteranceType.narration, emotion := none,
         chapter_index := 0, line_index := 0 }] := by
  rfl

/-! ## String and line-splitting lemmas -/

theorem strData_append (a b : String) : (a ++ b).data = a.data ++ b.data := by
  cases a; cases b; rfl

theorem splitLinesCh_ne_nil (l : List Char) : splitLinesCh l ≠ [] := by
  cases l with
  | nil => simp [splitLinesCh]
  | cons c rest =>
    rw [splitLinesCh]
    split
    · simp
    · split <;> simp

theorem splitLinesCh_append (u v : List Char) :
    splitLinesCh (u ++ '\n' :: v) = splitLinesCh u ++ splitLinesCh v := by
  induction u with
  | nil =>
    rw [List.nil_append, splitLinesCh]
    simp [splitLinesCh]
  | cons c rest ih =>
    by_cases hc : c = '\n'
    · subst hc
      rw [List.cons_append, splitLinesCh, if_pos rfl, ih, splitLinesCh,
        if_pos rfl]
      rfl
    · rw [List.cons_append, splitLinesCh, if_neg hc, ih]
      rw [splitLinesCh, if_neg hc]
      cases hs : splitLinesCh rest with
      | nil => exact absurd hs (splitLinesCh_ne_nil rest)
      | cons l ls => simp

theorem splitLinesCh_noNewline (l : List Char) (h : '\n' ∉ l) :
    splitLinesCh l = [l] := by
  induction l with
  | nil => rfl
  | cons c rest ih =>
    have hc : ¬ (c = '\n') := fun he => h (he ▸ List.mem_cons_self c rest)
    have hrest : '\n' ∉ rest := fun hm => h (List.mem_cons_of_mem c hm)
    rw [splitLinesCh, if_neg hc, ih hrest]

theorem splitLines_noNewline (s : String) (h : '\n' ∉ s.data) :
    splitLines s = [s] := by
  unfold splitLines
  rw [splitLinesCh_noNewline s.data h]
  rfl

theorem splitLines_join (ls : List String) (h : ls ≠ []) :
    splitLines (joinLines ls) = ls.flatMap splitLines := by
  induction ls with
  | nil => exact absurd rfl h
  | cons x xs ih =>
    cases xs with
    | nil => simp [joinLines, List.flatMap]
    | cons y ys =>
      have hne : y :: ys ≠ [] := by simp
      show splitLines (x ++ "\n" ++ joinLines (y :: ys)) = _
      unfold splitLines
      rw [strData_append, strData_append]
      have : ("\n" : String).data = ['\n'] := rfl
      rw [this, List.append_assoc, List.cons_append, List.nil_append,
        splitLinesCh_append]
      rw [List.map_append]
      have ih2 := ih hne
      unfold splitLines at ih2
      rw [ih2]
      simp [List.flatMap_cons, splitLines]

/-! ## Strip lemmas -/

theorem head_dropWhile {α : Type} (p : α → Bool) (l : List α) (c : α)
    (h : (l.dropWhile p).head? = some c) : p c = false := by
  induction l with
  | nil => simp [List.dropWhile] at h
  | cons a rest ih =>
    rw [List.dropWhile] at h
    by_cases hp : p a = true
    · rw [hp] at h
      exact ih h
    · simp only [Bool.not_eq_true] at hp
      rw [hp] at h
      simp at h
      exact h ▸ hp

theorem getLast?_dropWhile {α : Type} (p : α → Bool) (l : List α) (c : α)
    (h : (l.dropWhile p).getLast? = some c) : l.getLast? = some c := by
  induction l with
  | nil => simp [List.dropWhile] at h
  | cons a rest ih =>
    rw [List.dropWhile] at h
    by_cases hp : p a = true
    · rw [hp] at h
      have hr := ih h
      cases rest with
      | nil => simp at hr
      | cons b bs => rw [List.getLast?_cons_cons]; exact hr
    · simp only [Bool.not_eq_true] at hp
      rw [hp] at h
      exact h

theorem dropWhile_noop {α : Type} (p : α → Bool) (l : List α)
    (h : ∀ c, l.head? = some c → p c = false) : l.dropWhile p = l := by
  cases l with
  | nil => rfl
  | cons a rest =>
    rw [List.dropWhile, h a rfl]

theorem pyStripCh_head (l : List Char) (c : Char)
    (h : (pyStripCh l).head? = some c) : isPySpace c = false := by
  unfold pyStripCh at h
  rw [List.head?_reverse] at h
  have h2 := getLast?_dropWhile isPySpace _ c h
  rw [List.getLast?_reverse] at h2
  exact head_dropWhile isPySpace _ c h2

theorem pyStripCh_getLast (l : List Char) (c : Char)
    (h : (pyStripCh l).getLast? = some c) : isPySpace c = false := by
  unfold pyStripCh at h
  rw [List.getLast?_reverse] at h
  exact head_dropWhile isPySpace _ c h

theorem pyStripCh_noop (l : List Char)
    (hh : ∀ c, l.head? = some c → isPySpace c = false)
    (hl : ∀ c, l.getLast? = some c → isPySpace c = false) :
    pyStripCh l = l := by
  unfold pyStripCh
  rw [dropWhile_noop isPySpace l hh]
  rw [dropWhile_noop isPySpace l.reverse (fun c hc => by
    rw [List.head?_reverse] at hc
    exact hl c hc)]
  exact List.reverse_reverse l

theorem pyStrip_idem (s : String) : pyStrip (pyStrip s) = pyStrip s := by
  unfold pyStrip
  congr 1
  exact pyStripCh_noop _ (fun c hc => pyStripCh_head s.data c hc)
    (fun c hc => pyStripCh_getLast s.data c hc)

theorem strMk_data (s : String) : String.mk s.data = s := by
  cases s; rfl

theorem strNeEmpty (s : String) (h : s ≠ "") : s.data ≠ [] := by
  intro hd
  apply h
  cases s
  cases hd
  rfl

theorem headAppend {α : Type} (u v : List α) (h : u ≠ []) :
    (u ++ v).head? = u.head? := by
  cases u with
  | nil => exact absurd rfl h
  | cons a l => rfl

theorem getLastAppend {α : Type} (u v : List α) (h : v ≠ []) :
    (u ++ v).getLast? = v.getLast? := by
  rw [← List.head?_reverse, List.reverse_append,
    headAppend v.reverse u.reverse (by simpa using h), List.head?_reverse]

theorem joinSpaces_data_head (x : String) (xs : List String)
    (hx : x.data ≠ []) :
    (joinSpaces (x :: xs)).data.head? = x.data.head? := by
  cases xs with
  | nil => rfl
  | cons y ys =>
    show ((x ++ " ") ++ joinSpaces (y :: ys)).data.head? = _
    rw [strData_append, strData_append]
    rw [List.append_assoc, headAppend _ _ hx]

theorem joinSpaces_ne_nil (x : String) (xs : List String)
    (hx : x.data ≠ []) : (joinSpaces (x :: xs)).data ≠ [] := by
  intro hd
  have := joinSpaces_data_head x xs hx
  rw [hd] at this
  cases hx2 : x.data with
  | nil => exact hx hx2
  | cons c l =>
    rw [hx2] at this
    simp at this

theorem joinSpaces_getLast_mem (pieces : List String)
    (hall : ∀ pc ∈ pieces, pc.data ≠ []) (hne : pieces ≠ []) :
    ∃ pc ∈ pieces, (joinSpaces pieces).data.getLast? = pc.data.getLast? := by
  induction pieces with
  | nil => exact absurd rfl hne
  | cons x xs ih =>
    cases xs with
    | nil => exact ⟨x, List.mem_cons_self x [], rfl⟩
    | cons y ys =>
      have hys : ∀ pc ∈ y :: ys, pc.data ≠ [] :=
        fun pc hpc => hall pc (List.mem_cons_of_mem x hpc)
      obtain ⟨pc, hmem, heq⟩ := ih hys (by simp)
      refine ⟨pc, List.mem_cons_of_mem x hmem, ?_⟩
      show ((x ++ " ") ++ joinSpaces (y :: ys)).data.getLast? = _
      rw [strData_append]
      rw [getLastAppend _ _ (joinSpaces_ne_nil y ys (hys y (by simp)))]
      exact heq

theorem pyStrip_inv_head (s : String) (c : Char) (hinv : pyStrip s = s)
    (h : s.data.head? = some c) : isPySpace c = false := by
  apply pyStripCh_head s.data c
  have : (pyStrip s).data = s.data := by rw [hinv]
  rw [show (pyStrip s).data = pyStripCh s.data from rfl] at this
  rw [this]
  exact h

theorem pyStrip_inv_getLast (s : String) (c : Char) (hinv : pyStrip s = s)
    (h : s.data.getLast? = some c) : isPySpace c = false := by
  apply pyStripCh_getLast s.data c
  have : (pyStrip s).data = s.data := by rw [hinv]
  rw [show (pyStrip s).data = pyStripCh s.data from rfl] at this
  rw [this]
  exact h

theorem pyStrip_joinSpaces (pieces : List String) (hne : pieces ≠ [])
    (hall : ∀ pc ∈ pieces, pc ≠ "" ∧ pyStrip pc = pc) :
    pyStrip (joinSpaces pieces) = joinSpaces pieces ∧
      joinSpaces pieces ≠ "" := by
  cases pieces with
  | nil => exact absurd rfl hne
  | cons x xs =>
    have hx := hall x (List.mem_cons_self x xs)
    have hxd : x.data ≠ [] := strNeEmpty x hx.1
    constructor
    · have hh : ∀ c, (joinSpaces (x :: xs)).data.head? = some c →
          isPySpace c = false := by
        intro c hc
        rw [joinSpaces_data_head x xs hxd] at hc
        exact pyStrip_inv_head x c hx.2 hc
      have hl : ∀ c, (joinSpaces (x :: xs)).data.getLast? = some c →
          isPySpace c = false := by
        intro c hc
        obtain ⟨pc, hmem, heq⟩ := joinSpaces_getLast_mem (x :: xs)
          (fun pc hpc => strNeEmpty pc (hall pc hpc).1) (by simp)
        rw [heq] at hc
        exact pyStrip_inv_getLast pc c (hall pc hmem).2 hc
      unfold pyStrip
      rw [pyStripCh_noop _ hh hl]
    · intro he
      exact joinSpaces_ne_nil x xs hxd (by rw [he])

/-! ## Line classification lemmas for the import parser -/

theorem strStartsWith_single_iff (s : String) (c : Char) :
    strStartsWith s (String.mk [c]) = true ↔ s.data.head? = some c := by
  cases hd : s.data with
  | nil => simp [strStartsWith, hd]
  | cons a l => simp [strStartsWith, hd]

theorem head_mem {α : Type} (l : List α) (c : α) (h : l.head? = some c) :
    c ∈ l := by
  cases l with
  | nil => simp at h
  | cons a t =>
    simp at h
    exact h ▸ List.mem_cons_self a t

theorem dropWhile_ne_nil_of_mem {α : Type} (p : α → Bool) (l : List α)
    (c : α) (hc : c ∈ l) (hp : p c = false) : l.dropWhile p ≠ [] := by
  induction l with
  | nil => simp at hc
  | cons a t ih =>
    rw [List.dropWhile]
    by_cases ha : p a = true
    · rw [ha]
      rcases List.mem_cons.mp hc with h1 | h2
      · rw [h1] at hp; rw [hp] at ha; exact absurd ha (by simp)
      · exact ih h2
    · simp only [Bool.not_eq_true] at ha
      rw [ha]
      simp

theorem pyStrip_head_preserved (s : String) (c : Char)
    (h : s.data.head? = some c) (hc : isPySpace c = false) :
    (pyStrip s).data.head? = some c := by
  show (pyStripCh s.data).head? = some c
  unfold pyStripCh
  rw [dropWhile_noop isPySpace s.data (fun d hd => by
    rw [h] at hd
    cases hd
    exact hc)]
  rw [List.head?_reverse]
  have hne : s.data.reverse.dropWhile isPySpace ≠ [] := by
    apply dropWhile_ne_nil_of_mem isPySpace _ c _ hc
    rw [List.mem_reverse]
    exact head_mem _ _ h
  cases hx : (s.data.reverse.dropWhile isPySpace).getLast? with
  | none =>
    rw [List.getLast?_eq_none_iff] at hx
    exact absurd hx hne
  | some c2 =>
    have := getLast?_dropWhile isPySpace s.data.reverse c2 hx
    rw [List.getLast?_reverse, h] at this
    cases this
    rfl

theorem parseLine_comment (st : ReviewParseState) (line : String)
    (h : strStartsWith (pyStrip line) "#" = true) :
    reviewParseLine st line = st := by
  simp [reviewParseLine, h]

theorem parseLine_hash_head (st : ReviewParseState) (line : String)
    (h : line.data.head? = some '#') : reviewParseLine st line = st := by
  apply parseLine_comment
  have hpre := pyStrip_head_preserved line '#' h (by decide)
  exact (strStartsWith_single_iff (pyStrip line) '#').mpr hpre

theorem parseLine_blank (st : ReviewParseState) (line : String)
    (h : pyStrip line = "") : reviewParseLine st line = st := by
  unfold reviewParseLine
  rw [h]
  rfl

theorem parseLine_empty (st : ReviewParseState) :
    reviewParseLine st "" = st :=
  parseLine_blank st "" rfl

theorem markerParse_none_of_not_prefix (ls : String)
    (h : ¬ strStartsWith ls "===" = true) : chapterMarkerParse ls = none := by
  unfold chapterMarkerParse
  rw [if_neg]
  intro hcond
  apply h
  simp only [strStartsWith, decide_eq_true_eq]
  exact hcond.2.1

theorem tagParse_none_of_not_at (ls : String)
    (h : ¬ strStartsWith ls "@" = true) : speakerTagParse ls = none := by
  have hc : ls.data.head? ≠ some '@' := fun he =>
    h ((strStartsWith_single_iff ls '@').mpr he)
  unfold speakerTagParse
  cases hd : ls.data with
  | nil => rfl
  | cons c rest =>
    rw [hd] at hc
    simp only [List.head?_cons] at hc
    have hne : ¬ (c = '@') := fun he => hc (by rw [he])
    simp [hne]

theorem markerLine_data (t : String) :
    ("=== " ++ t ++ " ===").data =
      ('=' :: '=' :: '=' :: ' ' :: t.data) ++ [' ', '=', '=', '='] := by
  rw [strData_append, strData_append]
  rfl

theorem dropWhile_cons_of_pos {α : Type} (p : α → Bool) (a : α) (l : List α)
    (h : p a = true) : (a :: l).dropWhile p = l.dropWhile p := by
  rw [List.dropWhile, h]

theorem title_head_not_space (t : String) (ht : reviewSafeTitle t) :
    ∀ c, (t.data ++ [' ']).head? = some c → isPySpace c = false := by
  intro c hc
  rw [headAppend _ _ (strNeEmpty t ht.1)] at hc
  exact pyStrip_inv_head t c ht.2.2 hc

theorem stripCh_space_title_space (t : String) (ht : reviewSafeTitle t) :
    pyStripCh (' ' :: (t.data ++ [' '])) = t.data := by
  unfold pyStripCh
  rw [dropWhile_cons_of_pos isPySpace ' ' _ (by decide)]
  rw [dropWhile_noop isPySpace _ (title_head_not_space t ht)]
  have hrev : (t.data ++ [' ']).reverse = ' ' :: t.data.reverse := by simp
  rw [hrev, dropWhile_cons_of_pos isPySpace ' ' _ (by decide)]
  rw [dropWhile_noop isPySpace _ (fun c hc => by
    rw [List.head?_reverse] at hc
    exact pyStrip_inv_getLast t c ht.2.2 hc)]
  exact List.reverse_reverse t.data

theorem markerParse_markerLine (t : String) (ht : reviewSafeTitle t) :
    chapterMarkerParse ("=== " ++ t ++ " ===") = some t := by
  have htd : t.data ≠ [] := strNeEmpty t ht.1
  have hdata := markerLine_data t
  have hlen : ("=== " ++ t ++ " ===").data.length = t.data.length + 8 := by
    rw [hdata]; simp
  have htake3 : ("=== " ++ t ++ " ===").data.take 3 = ['=', '=', '='] := by
    rw [hdata]; rfl
  have hdrop3tail :
      ("=== " ++ t ++ " ===").data.drop
        (("=== " ++ t ++ " ===").data.length - 3) = ['=', '=', '='] := by
    rw [hdata]
    have h1 : (('=' :: '=' :: '=' :: ' ' :: t.data) ++
        [' ', '=', '=', '=']).length - 3 =
        ('=' :: '=' :: '=' :: ' ' :: t.data).length + 1 := by
      simp only [List.length_append, List.length_cons, List.length_nil]
      omega
    rw [h1, List.drop_append 1]
    rfl
  have hmid : (("=== " ++ t ++ " ===").data.drop 3).take
      (("=== " ++ t ++ " ===").data.length - 6) =
      ' ' :: (t.data ++ [' ']) := by
    rw [hdata]
    have h2 : (('=' :: '=' :: '=' :: ' ' :: t.data) ++
        [' ', '=', '=', '=']).length - 6 = t.data.length + 1 + 1 := by
      simp only [List.length_append, List.length_cons, List.length_nil]
      omega
    have h3 : (('=' :: '=' :: '=' :: ' ' :: t.data) ++
        [' ', '=', '=', '=']).drop 3 =
        ' ' :: (t.data ++ [' ', '=', '=', '=']) := by
      simp
    rw [h2, h3, List.take_succ_cons]
    congr 1
    rw [show (t.data ++ [' ', '=', '=', '=']).take (t.data.length + 1) =
        t.data ++ [' ', '=', '=', '='].take 1 from List.take_append 1]
    rfl
  unfold chapterMarkerParse
  rw [if_pos ⟨by omega, htake3, hdrop3tail⟩, hmid,
    stripCh_space_title_space t ht, if_pos htd, strMk_data]

theorem parseLine_marker (st : ReviewParseState) (t : String)
    (ht : reviewSafeTitle t) :
    reviewParseLine st ("=== " ++ t ++ " ===") =
      { flushChapter st with curTitle := some t, curSpeaker := none,
                             curEmotion := none } := by
  have hdata := markerLine_data t
  have hstrip : pyStrip ("=== " ++ t ++ " ===") = "=== " ++ t ++ " ===" := by
    have hh : ∀ c, ("=== " ++ t ++ " ===").data.head? = some c →
        isPySpace c = false := by
      intro c hc
      rw [hdata] at hc
      simp at hc
      subst hc
      decide
    have hl : ∀ c, ("=== " ++ t ++ " ===").data.getLast? = some c →
        isPySpace c = false := by
      intro c hc
      rw [hdata, getLastAppend _ _ (by simp)] at hc
      simp at hc
      subst hc
      decide
    unfold pyStrip
    rw [pyStripCh_noop _ hh hl]
  unfold reviewParseLine
  rw [hstrip]
  rw [if_neg ?hhash, if_neg ?hne, markerParse_markerLine t ht]
  case hhash =>
    intro hh
    rw [strStartsWith_single_iff] at hh
    rw [hdata] at hh
    simp at hh
  case hne =>
    intro hh
    have := congrArg String.data hh
    rw [hdata] at this
    simp at this

theorem wordChar_not_space (c : Char) (h : isWordChar c = true) :
    isPySpace c = false := by
  by_contra hs
  simp only [Bool.not_eq_false] at hs
  simp only [isPySpace, Bool.or_eq_true, decide_eq_true_eq] at hs
  rcases hs with ((((h1 | h2) | h3) | h4) | h5) | h6 <;>
    (first
      | (subst h1; exact absurd h (by decide))
      | (subst h2; exact absurd h (by decide))
      | (subst h3; exact absurd h (by decide))
      | (subst h4; exact absurd h (by decide))
      | (subst h5; exact absurd h (by decide))
      | (subst h6; exact absurd h (by decide)))

theorem takeWhile_all_append_stop {α : Type} (p : α → Bool) (l : List α)
    (c0 : α) (r : List α) (hall : ∀ c ∈ l, p c = true) (hc0 : p c0 = false) :
    (l ++ c0 :: r).takeWhile p = l := by
  induction l with
  | nil => simp [List.takeWhile, hc0]
  | cons a t ih =>
    have ha : p a = true := hall a (List.mem_cons_self a t)
    rw [List.cons_append, List.takeWhile, ha]
    rw [ih (fun c hc => hall c (List.mem_cons_of_mem a hc))]

theorem takeWhile_all {α : Type} (p : α → Bool) (l : List α)
    (hall : ∀ c ∈ l, p c = true) : l.takeWhile p = l := by
  induction l with
  | nil => rfl
  | cons a t ih =>
    rw [List.takeWhile, hall a (List.mem_cons_self a t),
      ih (fun c hc => hall c (List.mem_cons_of_mem a hc))]

theorem tagLineNone_data (sp : String) :
    ("@" ++ sp).data = '@' :: sp.data := by
  rw [strData_append]
  rfl

theorem tagLineSome_data (sp e : String) :
    ("@" ++ sp ++ " (" ++ e ++ ")").data =
      '@' :: (sp.data ++ ' ' :: '(' :: (e.data ++ [')'])) := by
  rw [strData_append, strData_append, strData_append, strData_append]
  simp only [List.append_assoc]
  rfl

theorem not_startsWith3_of_head (s : String) (c : Char)
    (h : s.data.head? = some c) (hc : ¬ (c = '=')) :
    ¬ strStartsWith s "===" = true := by
  intro hss
  simp only [strStartsWith, decide_eq_true_eq] at hss
  cases hd : s.data with
  | nil => rw [hd] at h; simp at h
  | cons a l =>
    rw [hd] at h hss
    simp only [List.head?_cons, Option.some.injEq] at h
    have : (List.take ("===" : String).data.length (a :: l)).head? =
        some '=' := by rw [hss]; rfl
    rw [show ("===" : String).data.length = 3 from rfl] at this
    simp only [List.take_succ_cons, List.head?_cons, Option.some.injEq] at this
    exact hc (by rw [← h, this])

theorem tagParse_tagLine (sp : String) (em : Option String)
    (hsp : reviewSafeSpeaker sp) (hem : reviewSafeEmotion em) :
    speakerTagParse (speakerTagLine sp em) = some (sp, em) := by
  obtain ⟨hne, hword⟩ := hsp
  have hspd : sp.data ≠ [] := strNeEmpty sp hne
  have hwordAll : ∀ c ∈ sp.data, isWordChar c = true := by
    intro c hc
    exact List.all_eq_true.mp hword c hc
  cases em with
  | none =>
    show speakerTagParse ("@" ++ sp) = some (sp, none)
    unfold speakerTagParse
    rw [tagLineNone_data sp]
    simp only [takeWhile_all isWordChar sp.data hwordAll]
    rw [if_pos trivial, if_neg (by simpa using hspd), List.drop_length]
    rfl
  | some e =>
    obtain ⟨hene, hpar, henl⟩ := hem
    have hed : e.data ≠ [] := strNeEmpty e hene
    have hemAll : ∀ c ∈ e.data, (decide ¬ (c = ')')) = true := by
      intro c hc
      simp only [decide_eq_true_eq]
      intro he
      exact hpar (he ▸ hc)
    have htruthy : pyTruthy (some e) = true := by
      simp [pyTruthy, hene]
    have hline : speakerTagLine sp (some e) = "@" ++ sp ++ " (" ++ e ++ ")" := by
      unfold speakerTagLine
      rw [if_pos htruthy]
      rfl
    rw [hline]
    have hdw : (' ' :: '(' :: (e.data ++ [')'])).dropWhile isPySpace =
        '(' :: (e.data ++ [')']) := by
      rw [dropWhile_cons_of_pos isPySpace ' ' _ (by decide)]
      exact dropWhile_noop _ _ (fun c hc => by cases hc; rfl)
    have hee : e.data.isEmpty = false := by simpa using hed
    have hse : sp.data.isEmpty = false := by simpa using hspd
    have hdrop : (e.data ++ [')']).drop e.data.length = [')'] :=
      List.drop_left e.data [')']
    unfold speakerTagParse
    rw [tagLineSome_data sp e]
    simp only [takeWhile_all_append_stop isWordChar sp.data ' ' _ hwordAll
      (by decide), takeWhile_all_append_stop _ e.data ')' [] hemAll
      (by decide), hse, hee, hdw, hdrop, List.drop_left, tagEmotionParse]
    rfl

theorem tagLine_strip_noop (sp : String) (em : Option String)
    (hsp : reviewSafeSpeaker sp) (hem : reviewSafeEmotion em) :
    pyStrip (speakerTagLine sp em) = speakerTagLine sp em := by
  obtain ⟨hne, hword⟩ := hsp
  have hspd : sp.data ≠ [] := strNeEmpty sp hne
  cases em with
  | none =>
    show pyStrip ("@" ++ sp) = "@" ++ sp
    have hh : ∀ c, ("@" ++ sp).data.head? = some c → isPySpace c = false := by
      intro c hc
      rw [tagLineNone_data sp] at hc
      simp at hc
      subst hc
      decide
    have hl : ∀ c, ("@" ++ sp).data.getLast? = some c →
        isPySpace c = false := by
      intro c hc
      rw [tagLineNone_data sp,
        show ('@' :: sp.data) = ['@'] ++ sp.data from rfl,
        getLastAppend _ _ hspd] at hc
      have hmem := List.mem_of_mem_getLast? hc
      exact wordChar_not_space c (List.all_eq_true.mp hword c hmem)
    unfold pyStrip
    rw [pyStripCh_noop _ hh hl]
  | some e =>
    have htruthy : pyTruthy (some e) = true := by
      simp [pyTruthy, hem.1]
    have hline : speakerTagLine sp (some e) = "@" ++ sp ++ " (" ++ e ++ ")" := by
      unfold speakerTagLine
      rw [if_pos htruthy]
      rfl
    rw [hline]
    have hh : ∀ c, ("@" ++ sp ++ " (" ++ e ++ ")").data.head? = some c →
        isPySpace c = false := by
      intro c hc
      rw [tagLineSome_data sp e] at hc
      simp at hc
      subst hc
      decide
    have hl : ∀ c, ("@" ++ sp ++ " (" ++ e ++ ")").data.getLast? = some c →
        isPySpace c = false := by
      intro c hc
      rw [tagLineSome_data sp e,
        show '@' :: (sp.data ++ ' ' :: '(' :: (e.data ++ [')'])) =
          ('@' :: sp.data ++ [' ', '(']) ++ (e.data ++ [')']) by simp,
        getLastAppend _ _ (by simp),
        getLastAppend _ _ (by simp)] at hc
      simp at hc
      subst hc
      decide
    unfold pyStrip
    rw [pyStripCh_noop _ hh hl]

theorem parseLine_tag (st : ReviewParseState) (sp : String)
    (em : Option String) (hsp : reviewSafeSpeaker sp)
    (hem : reviewSafeEmotion em) :
    reviewParseLine st (speakerTagLine sp em) =
      { flushUtterance st with curSpeaker := some sp, curEmotion := em } := by
  have hhead : (speakerTagLine sp em).data.head? = some '@' := by
    cases em with
    | none => rw [show speakerTagLine sp none = "@" ++ sp from rfl,
        tagLineNone_data sp]; rfl
    | some e =>
      have htruthy : pyTruthy (some e) = true := by
        simp [pyTruthy, hem.1]
      rw [show speakerTagLine sp (some e) =
          "@" ++ sp ++ " (" ++ e ++ ")" by
        unfold speakerTagLine
        rw [if_pos htruthy]
        rfl]
      rw [tagLineSome_data sp e]
      rfl
  unfold reviewParseLine
  rw [tagLine_strip_noop sp em hsp hem]
  rw [if_neg ?hhash, if_neg ?hne2,
    markerParse_none_of_not_prefix _
      (not_startsWith3_of_head _ '@' hhead (by decide)),
    tagParse_tagLine sp em hsp hem]
  case hhash =>
    intro hh
    rw [strStartsWith_single_iff] at hh
    rw [hhead] at hh
    simp at hh
  case hne2 =>
    intro hh
    rw [hh] at hhead
    simp at hhead

theorem parseLine_text (st : ReviewParseState) (ln : String)
    (h : reviewSafeTextLine ln) (hsp : pyTruthy st.curSpeaker = true) :
    reviewParseLine st ln =
      { st with curTextLines := st.curTextLines ++ [pyStrip ln] } := by
  obtain ⟨hne, hhash, hat, heq3⟩ := h
  unfold reviewParseLine
  simp only [Bool.not_eq_true] at hhash hat heq3
  rw [if_neg (by rw [hhash]; simp), if_neg hne,
    markerParse_none_of_not_prefix _ (by rw [heq3]; simp),
    tagParse_none_of_not_at _ (by rw [hat]; simp), hsp]
  rfl

/-! ## Round-trip: physical lines and a few folding helpers -/

theorem splitLines_empty : splitLines "" = [""] := rfl

theorem tagLine_no_newline (sp : String) (em : Option String)
    (hsp : reviewSafeSpeaker sp) (hem : reviewSafeEmotion em) :
    '\n' ∉ (speakerTagLine sp em).data := by
  have hword := hsp.2
  cases em with
  | none =>
    rw [show speakerTagLine sp none = "@" ++ sp from rfl, tagLineNone_data]
    intro hmem
    rcases List.mem_cons.mp hmem with h1 | h2
    · exact absurd h1 (by decide)
    · have := List.all_eq_true.mp hword _ h2
      simp [isWordChar] at this
  | some e =>
    have htruthy : pyTruthy (some e) = true := by
      simp [pyTruthy, hem.1]
    rw [show speakerTagLine sp (some e) = "@" ++ sp ++ " (" ++ e ++ ")" by
      unfold speakerTagLine
      rw [if_pos htruthy]
      rfl]
    rw [tagLineSome_data]
    intro hmem
    rcases List.mem_cons.mp hmem with h1 | h2
    · exact absurd h1 (by decide)
    · rcases List.mem_append.mp h2 with h3 | h4
      · have := List.all_eq_true.mp hword _ h3
        simp [isWordChar] at this
      · rcases List.mem_cons.mp h4 with h5 | h6
        · exact absurd h5 (by decide)
        · rcases List.mem_cons.mp h6 with h7 | h8
          · exact absurd h7 (by decide)
          · rcases List.mem_append.mp h8 with h9 | h10
            · exact hem.2.2 h9
            · simp at h10

theorem marker_no_newline (t : String) (ht : reviewSafeTitle t) :
    '\n' ∉ ("=== " ++ t ++ " ===").data := by
  rw [markerLine_data]
  intro hmem
  rcases List.mem_append.mp hmem with h1 | h2
  · rcases List.mem_cons.mp h1 with h | h1
    · exact absurd h (by decide)
    rcases List.mem_cons.mp h1 with h | h1
    · exact absurd h (by decide)
    rcases List.mem_cons.mp h1 with h | h1
    · exact absurd h (by decide)
    rcases List.mem_cons.mp h1 with h | h1
    · exact absurd h (by decide)
    · exact ht.2.1 h1
  · simp at h2

theorem physLines_append (a b : List String) :
    physLines (a ++ b) = physLines a ++ physLines b := by
  unfold physLines
  induction a with
  | nil => rfl
  | cons x xs ih => simp [List.flatMap_cons, ih, List.append_assoc]

theorem physLines_single_noNewline (s : String) (h : '\n' ∉ s.data) :
    physLines [s] = [s] := by
  unfold physLines
  rw [List.flatMap_cons, splitLines_noNewline s h]
  rfl

theorem foldl_const (ls : List String) (st : ReviewParseState)
    (h : ∀ ln ∈ ls, reviewParseLine st ln = st) :
    ls.foldl reviewParseLine st = st := by
  induction ls with
  | nil => rfl
  | cons x xs ih =>
    rw [List.foldl_cons, h x (List.mem_cons_self x xs)]
    exact ih (fun ln hln => h ln (List.mem_cons_of_mem x hln))

theorem textLines_foldl (lines : List String) :
    ∀ st : ReviewParseState, (∀ ln ∈ lines, reviewSafeTextLine ln) →
      pyTruthy st.curSpeaker = true →
      lines.foldl reviewParseLine st =
        { st with curTextLines := st.curTextLines ++ lines.map pyStrip } := by
  induction lines with
  | nil =>
    intro st _ _
    simp
  | cons x xs ih =>
    intro st hsafe hsp
    rw [List.foldl_cons,
      parseLine_text st x (hsafe x (List.mem_cons_self x xs)) hsp,
      ih { st with curTextLines := st.curTextLines ++ [pyStrip x] }
        (fun ln hln => hsafe ln (List.mem_cons_of_mem x hln)) hsp]
    simp

/-! ## Round-trip: the export side under the adjacency precondition -/

theorem exportUtt_eq_blocks_tail (rest : List Utterance) :
    ∀ u : Utterance, adjacentPairsDistinct (u :: rest) →
      exportUttLines (some u.speaker) u.emotion rest =
        exportBlocks false rest := by
  induction rest with
  | nil => intro u _; rfl
  | cons v r2 ih =>
    intro u h
    have hrel : (u.speaker, u.emotion) ≠ (v.speaker, v.emotion) :=
      (List.chain'_cons.mp h).1
    have hcond : some v.speaker ≠ some u.speaker ∨ v.emotion ≠ u.emotion := by
      by_contra hcon
      push_neg at hcon
      apply hrel
      have h1 : u.speaker = v.speaker := (Option.some_injective _ hcon.1).symm
      rw [h1, hcon.2]
    rw [exportUttLines, if_pos hcond, ih v (List.chain'_cons.mp h).2]
    rfl

theorem exportUtt_eq_blocks (utts : List Utterance)
    (h : adjacentPairsDistinct utts) :
    exportUttLines none none utts = exportBlocks true utts := by
  cases utts with
  | nil => rfl
  | cons u rest =>
    rw [exportUttLines, if_pos (Or.inl (by simp)),
      exportUtt_eq_blocks_tail rest u h]
    rfl

/-! ## Round-trip: the parser state across one utterance block -/

theorem flushUtterance_stateOf_none (done : _) (title : String)
    (curUtts : _) :
    flushUtterance (stateOf done title curUtts none) =
      stateOf done title curUtts none := rfl

theorem flushUtterance_stateOf_some (done : _) (title : String)
    (curUtts : _) (p : Utterance) (hp : reviewSafeUtterance p) :
    flushUtterance (stateOf done title curUtts (some p)) =
      { chaptersData := done, curTitle := some title,
        curUtts := curUtts ++ [parsedUtt p],
        curSpeaker := some p.speaker, curEmotion := p.emotion,
        curTextLines := [] } := by
  have hlines : ∀ pc ∈ (splitLines p.text).map pyStrip,
      pc ≠ "" ∧ pyStrip pc = pc := by
    intro pc hpc
    rcases List.mem_map.mp hpc with ⟨ln, hln, rfl⟩
    exact ⟨(hp.2.2 ln hln).1, pyStrip_idem ln⟩
  have hnil : (splitLines p.text).map pyStrip ≠ [] := by
    unfold splitLines
    intro hmap
    exact splitLinesCh_ne_nil p.text.data
      (by simpa using congrArg (List.map String.data) hmap)
  obtain ⟨hstr, hjne⟩ := pyStrip_joinSpaces _ hnil hlines
  unfold flushUtterance
  rw [if_pos ⟨by simp [stateOf, pyTruthy, hp.1.1], by
    simp only [stateOf]
    intro hcon
    exact hnil (List.isEmpty_iff.mp hcon)⟩]
  rw [if_pos (by simpa only [stateOf, hstr] using hjne)]
  simp only [stateOf, hstr]
  rfl

theorem runBlocks_some (utts : List Utterance) :
    ∀ (done : List (String × List (String × Option String × String)))
      (title : String)
      (curUtts : List (String × Option String × String)) (p : Utterance),
      (∀ u ∈ utts, reviewSafeUtterance u) → reviewSafeUtterance p →
      (physLines (exportBlocks false utts)).foldl reviewParseLine
          (stateOf done title curUtts (some p)) =
        stateOf done title
          (curUtts ++ ((p :: utts).dropLast).map parsedUtt)
          ((p :: utts).getLast?) := by
  induction utts with
  | nil =>
    intro done title curUtts p _ _
    simp [physLines, exportBlocks]
  | cons u rest ih =>
    intro done title curUtts p hsafe hp
    have hu := hsafe u (List.mem_cons_self u rest)
    have hlines : physLines (exportBlocks false (u :: rest)) =
        "" :: speakerTagLine u.speaker u.emotion ::
          (splitLines u.text ++ physLines (exportBlocks false rest)) := by
      show physLines ("" :: speakerTagLine u.speaker u.emotion :: u.text ::
          exportBlocks false rest) = _
      unfold physLines
      rw [List.flatMap_cons, List.flatMap_cons, List.flatMap_cons,
        splitLines_empty,
        splitLines_noNewline _
          (tagLine_no_newline u.speaker u.emotion hu.1 hu.2.1)]
      rfl
    rw [hlines, List.foldl_cons, parseLine_empty, List.foldl_cons,
      parseLine_tag _ u.speaker u.emotion hu.1 hu.2.1,
      flushUtterance_stateOf_some done title curUtts p hp]
    show List.foldl reviewParseLine
        (⟨done, some title, curUtts ++ [parsedUtt p], some u.speaker,
          u.emotion, []⟩ : ReviewParseState)
        (splitLines u.text ++ physLines (exportBlocks false rest)) = _
    rw [List.foldl_append,
      textLines_foldl (splitLines u.text)
        ⟨done, some title, curUtts ++ [parsedUtt p], some u.speaker,
          u.emotion, []⟩
        hu.2.2 (by simp [pyTruthy, hu.1.1])]
    show List.foldl reviewParseLine
        (stateOf done title (curUtts ++ [parsedUtt p]) (some u))
        (physLines (exportBlocks false rest)) = _
    rw [ih done title (curUtts ++ [parsedUtt p]) u
      (fun v hv => hsafe v (List.mem_cons_of_mem u hv)) hu]
    simp [List.getLast?_cons_cons, List.append_assoc]

theorem runBlocks_start (u : Utterance) (rest : List Utterance)
    (hsafe : ∀ v ∈ u :: rest, reviewSafeUtterance v)
    (done : List (String × List (String × Option String × String)))
    (title : String) :
    (physLines (exportBlocks true (u :: rest))).foldl reviewParseLine
        (stateOf done title [] none) =
      stateOf done title (((u :: rest).dropLast).map parsedUtt)
        ((u :: rest).getLast?) := by
  have hu := hsafe u (List.mem_cons_self u rest)
  have hlines : physLines (exportBlocks true (u :: rest)) =
      speakerTagLine u.speaker u.emotion ::
        (splitLines u.text ++ physLines (exportBlocks false rest)) := by
    show physLines (speakerTagLine u.speaker u.emotion :: u.text ::
        exportBlocks false rest) = _
    unfold physLines
    rw [List.flatMap_cons, List.flatMap_cons,
      splitLines_noNewline _
        (tagLine_no_newline u.speaker u.emotion hu.1 hu.2.1)]
    rfl
  rw [hlines, List.foldl_cons,
    parseLine_tag _ u.speaker u.emotion hu.1 hu.2.1,
    flushUtterance_stateOf_none done title []]
  show List.foldl reviewParseLine
      (⟨done, some title, [], some u.speaker, u.emotion, []⟩ :
        ReviewParseState)
      (splitLines u.text ++ physLines (exportBlocks false rest)) = _
  rw [List.foldl_append,
    textLines_foldl (splitLines u.text)
      ⟨done, some title, [], some u.speaker, u.emotion, []⟩
      hu.2.2 (by simp [pyTruthy, hu.1.1])]
  show List.foldl reviewParseLine (stateOf done title [] (some u))
      (physLines (exportBlocks false rest)) = _
  rw [runBlocks_some rest done title [] u
    (fun v hv => hsafe v (List.mem_cons_of_mem u hv)) hu]
  simp

/-! ## Round-trip: chapter boundaries -/

theorem flushUtterance_textLines (st : ReviewParseState) :
    (flushUtterance st).curTextLines = [] := by
  unfold flushUtterance
  split
  · split <;> rfl
  · rfl

theorem flushChapter_curUtts (st : ReviewParseState) :
    (flushChapter st).curUtts = [] := by
  unfold flushChapter
  dsimp only
  split <;> rfl

theorem flushChapter_textLines (st : ReviewParseState) :
    (flushChapter st).curTextLines = [] := by
  unfold flushChapter
  dsimp only
  split <;> simp [flushUtterance_textLines]

theorem parseLine_marker_any (st : ReviewParseState) (t : String)
    (ht : reviewSafeTitle t) :
    reviewParseLine st ("=== " ++ t ++ " ===") =
      stateOf (flushChapter st).chaptersData t [] none := by
  rw [parseLine_marker st t ht]
  have h1 := flushChapter_curUtts st
  have h2 := flushChapter_textLines st
  rcases hf : flushChapter st with ⟨cd, ct, cu, cs, ce, ctl⟩
  rw [hf] at h1 h2
  simp only at h1 h2
  subst h1
  subst h2
  rfl

theorem runChapter (c : Chapter) (ht : reviewSafeTitle c.title)
    (hadj : adjacentPairsDistinct c.utterances)
    (hsafe : ∀ u ∈ c.utterances, reviewSafeUtterance u)
    (st : ReviewParseState) :
    (physLines (exportChapterLines c)).foldl reviewParseLine st =
      chapterOpenState (flushChapter st).chaptersData c := by
  cases hu : c.utterances with
  | nil =>
    have hlines : physLines (exportChapterLines c) =
        ["=== " ++ c.title ++ " ===", "",
         "# (Chapter not compiled - no utterances)", ""] := by
      unfold exportChapterLines
      rw [hu]
      show physLines ["=== " ++ c.title ++ " ===", "",
        "# (Chapter not compiled - no utterances)", ""] = _
      unfold physLines
      rw [List.flatMap_cons, List.flatMap_cons, List.flatMap_cons,
        List.flatMap_cons,
        splitLines_noNewline _ (marker_no_newline c.title ht),
        splitLines_empty,
        splitLines_noNewline "# (Chapter not compiled - no utterances)"
          (by decide)]
      rfl
    rw [hlines]
    rw [show (["=== " ++ c.title ++ " ===", "",
        "# (Chapter not compiled - no utterances)", ""] :
        List String).foldl reviewParseLine st =
      List.foldl reviewParseLine
        (reviewParseLine st ("=== " ++ c.title ++ " ==="))
        ["", "# (Chapter not compiled - no utterances)", ""] from rfl]
    rw [parseLine_marker_any st c.title ht]
    rw [foldl_const _ _ (by
      intro ln hln
      rcases List.mem_cons.mp hln with rfl | hln
      · exact parseLine_empty _
      rcases List.mem_cons.mp hln with rfl | hln
      · exact parseLine_hash_head _ _ rfl
      rcases List.mem_cons.mp hln with rfl | hln
      · exact parseLine_empty _
      · simp at hln)]
    unfold chapterOpenState
    rw [hu]
    rfl
  | cons u rest =>
    have hlines : physLines (exportChapterLines c) =
        ("=== " ++ c.title ++ " ===") :: "" ::
          (physLines (exportBlocks true (u :: rest)) ++ [""]) := by
      unfold exportChapterLines
      rw [hu]
      rw [show (u :: rest).isEmpty = false from rfl]
      show physLines (("=== " ++ c.title ++ " ===") :: "" ::
        (exportUttLines none none (u :: rest) ++ [""])) = _
      rw [exportUtt_eq_blocks (u :: rest) (hu ▸ hadj)]
      unfold physLines
      rw [List.flatMap_cons, List.flatMap_cons, List.flatMap_append,
        splitLines_noNewline _ (marker_no_newline c.title ht),
        splitLines_empty]
      rfl
    rw [hlines, List.foldl_cons, parseLine_marker_any st c.title ht,
      List.foldl_cons, parseLine_empty, List.foldl_append,
      runBlocks_start u rest (hu ▸ hsafe) (flushChapter st).chaptersData
        c.title,
      List.foldl_cons, parseLine_empty, List.foldl_nil]
    unfold chapterOpenState
    rw [hu]

theorem flushChapter_open
    (D : List (String × List (String × Option String × String)))
    (c : Chapter) (hsafe : ∀ u ∈ c.utterances, reviewSafeUtterance u) :
    (flushChapter (chapterOpenState D c)).chaptersData =
      D ++ [parsedChapter c] := by
  unfold chapterOpenState
  cases hlast : c.utterances.getLast? with
  | none =>
    have hnil : c.utterances = [] := List.getLast?_eq_none_iff.mp hlast
    rw [hnil]
    rw [show flushChapter (stateOf D c.title (([] : List Utterance).dropLast.map parsedUtt) none) =
        ⟨D ++ [(c.title, [])], some c.title, [], none, none, []⟩ from rfl]
    simp [parsedChapter, hnil]
  | some p =>
    have hne : c.utterances ≠ [] := by
      intro hcon
      rw [hcon] at hlast
      simp at hlast
    have hp : reviewSafeUtterance p :=
      hsafe p (List.mem_of_mem_getLast? hlast)
    unfold flushChapter
    dsimp only
    rw [flushUtterance_stateOf_some D c.title _ p hp]
    dsimp only
    have hpl : p = c.utterances.getLast hne := by
      have := List.getLast?_eq_getLast c.utterances hne
      rw [hlast] at this
      exact Option.some_injective _ this
    have hfull : (c.utterances.dropLast).map parsedUtt ++ [parsedUtt p] =
        c.utterances.map parsedUtt := by
      rw [hpl, show [parsedUtt (c.utterances.getLast hne)] =
        List.map parsedUtt [c.utterances.getLast hne] from rfl,
        ← List.map_append, List.dropLast_append_getLast hne]
    rw [hfull]
    rfl

theorem runChapters (chs : List Chapter)
    (hsafe : ∀ c ∈ chs, reviewSafeTitle c.title ∧
      adjacentPairsDistinct c.utterances ∧
      ∀ u ∈ c.utterances, reviewSafeUtterance u) :
    ∀ st : ReviewParseState,
      (flushChapter ((physLines (chs.flatMap exportChapterLines)).foldl
          reviewParseLine st)).chaptersData =
        (flushChapter st).chaptersData ++ chs.map parsedChapter := by
  induction chs with
  | nil =>
    intro st
    simp [physLines]
  | cons c rest ih =>
    intro st
    have hc := hsafe c (List.mem_cons_self c rest)
    rw [List.flatMap_cons, physLines_append, List.foldl_append,
      runChapter c hc.1 hc.2.1 hc.2.2 st]
    rw [ih (fun x hx => hsafe x (List.mem_cons_of_mem c hx))
      (chapterOpenState (flushChapter st).chaptersData c)]
    rw [flushChapter_open _ c hc.2.2]
    simp

theorem physLines_noNewline (ls : List String)
    (h : ∀ ln ∈ ls, '\n' ∉ ln.data) : physLines ls = ls := by
  induction ls with
  | nil => rfl
  | cons x xs ih =>
    unfold physLines
    rw [List.flatMap_cons,
      splitLines_noNewline x (h x (List.mem_cons_self x xs))]
    show [x] ++ physLines xs = x :: xs
    rw [ih (fun ln hln => h ln (List.mem_cons_of_mem x hln))]
    rfl

theorem runHeader (p : AudiobookProject) (ht : '\n' ∉ p.title.data)
    (ha : '\n' ∉ p.author.data) :
    (physLines (reviewHeaderLines p)).foldl reviewParseLine {} = {} := by
  have hphys : physLines (reviewHeaderLines p) = reviewHeaderLines p := by
    apply physLines_noNewline
    intro ln hln
    simp only [reviewHeaderLines, List.mem_cons] at hln
    rcases hln with rfl | rfl | rfl | rfl | rfl | rfl | rfl | rfl | rfl |
      rfl | rfl | rfl | rfl | hln
    · decide
    · rw [strData_append]
      intro hm
      rcases List.mem_append.mp hm with hm | hm
      · exact absurd hm (by decide)
      · exact ht hm
    · rw [strData_append]
      intro hm
      rcases List.mem_append.mp hm with hm | hm
      · exact absurd hm (by decide)
      · exact ha hm
    · decide
    · decide
    · decide
    · decide
    · decide
    · decide
    · decide
    · decide
    · rw [strData_append]
      intro hm
      rcases List.mem_append.mp hm with hm | hm
      · exact absurd hm (by decide)
      · rw [show (reviewFileName p).data = p.title.data ++
            ("_review.txt" : String).data from strData_append p.title _] at hm
        rcases List.mem_append.mp hm with hm | hm
        · exact ht hm
        · exact absurd hm (by decide)
    · decide
    · simp at hln
  rw [hphys]
  apply foldl_const
  intro ln hln
  simp only [reviewHeaderLines, List.mem_cons] at hln
  rcases hln with rfl | rfl | rfl | rfl | rfl | rfl | rfl | rfl | rfl |
    rfl | rfl | rfl | rfl | hln
  · exact parseLine_hash_head _ _ rfl
  · apply parseLine_hash_head
    rw [strData_append, headAppend _ _ (by decide)]
    rfl
  · apply parseLine_hash_head
    rw [strData_append, headAppend _ _ (by decide)]
    rfl
  · exact parseLine_hash_head _ _ rfl
  · exact parseLine_hash_head _ _ rfl
  · exact parseLine_hash_head _ _ rfl
  · exact parseLine_hash_head _ _ rfl
  · exact parseLine_hash_head _ _ rfl
  · exact parseLine_hash_head _ _ rfl
  · exact parseLine_hash_head _ _ rfl
  · exact parseLine_hash_head _ _ rfl
  · apply parseLine_hash_head
    rw [strData_append, headAppend _ _ (by decide)]
    rfl
  · exact parseLine_empty _
  · simp at hln

theorem reviewParse_export (p : AudiobookProject)
    (h : reviewRoundTripSafe p) :
    reviewParse (export_for_review p) = p.chapters.map parsedChapter := by
  unfold reviewParse export_for_review
  rw [splitLines_join _ (by simp [reviewHeaderLines])]
  rw [show (reviewHeaderLines p ++
      p.chapters.flatMap exportChapterLines).flatMap splitLines =
    physLines (reviewHeaderLines p ++
      p.chapters.flatMap exportChapterLines) from rfl]
  rw [physLines_append, List.foldl_append, runHeader p h.1 h.2.1]
  rw [runChapters p.chapters h.2.2.2 {}]
  rw [show (flushChapter ({} : ReviewParseState)).chaptersData = []
    from rfl]
  rfl

/-! ## Round-trip: the merge phase -/

theorem updateAtTitle_append (pre : List Chapter) (c : Chapter)
    (post : List Chapter) (u : List (String × Option String × String))
    (hpre : ∀ x ∈ pre, ¬ x.title = c.title) :
    updateChapterAtFirstTitle c.title u (pre ++ c :: post) =
      pre ++ { c with utterances := rebuildUtterances c.index u } :: post := by
  induction pre with
  | nil =>
    simp only [List.nil_append, updateChapterAtFirstTitle]
    rw [if_pos trivial]
  | cons x xs ih =>
    rw [List.cons_append]
    simp only [updateChapterAtFirstTitle]
    rw [if_neg (hpre x (List.mem_cons_self x xs)),
      ih (fun y hy => hpre y (List.mem_cons_of_mem x hy)),
      List.cons_append]

theorem mergeLoop_parsed (rest : List Chapter) :
    ∀ (handled : List Chapter) (stats : ImportStats),
      ((handled ++ rest).map Chapter.title).Nodup →
      (mergeReviewedLoop (handled.map updateFromParsed ++ rest) stats
          (rest.map parsedChapter)).1 =
        (handled ++ rest).map updateFromParsed := by
  induction rest with
  | nil =>
    intro handled stats _
    simp [mergeReviewedLoop]
  | cons c rest' ih =>
    intro handled stats hnodup
    rw [List.map_cons,
      show parsedChapter c = (c.title, c.utterances.map parsedUtt)
        from rfl]
    simp only [mergeReviewedLoop]
    rw [if_pos (List.any_eq_true.mpr ⟨c,
      List.mem_append_right _ (List.mem_cons_self c rest'), by simp⟩)]
    have hdisj : List.Disjoint (handled.map Chapter.title)
        ((c :: rest').map Chapter.title) := by
      apply List.disjoint_of_nodup_append
      rw [← List.map_append]
      exact hnodup
    have hpre : ∀ x ∈ handled.map updateFromParsed,
        ¬ x.title = c.title := by
      intro x hx
      rcases List.mem_map.mp hx with ⟨y, hy, rfl⟩
      intro hcon
      apply hdisj (a := y.title)
      · exact List.mem_map_of_mem Chapter.title hy
      · rw [show (updateFromParsed y).title = y.title from rfl] at hcon
        rw [hcon]
        exact List.mem_cons_self _ _
    rw [updateAtTitle_append (handled.map updateFromParsed) c rest' _ hpre]
    rw [show ({ c with utterances :=
        rebuildUtterances c.index (c.utterances.map parsedUtt) } : Chapter) =
      updateFromParsed c from rfl]
    rw [show handled.map updateFromParsed ++ updateFromParsed c :: rest' =
      (handled ++ [c]).map updateFromParsed ++ rest' by
        rw [List.map_append]
        simp]
    rw [ih (handled ++ [c]) _ (by
      rw [List.append_assoc]
      simpa using hnodup)]
    rw [List.append_assoc]
    rfl

theorem import_export (p : AudiobookProject) (h : reviewRoundTripSafe p) :
    (import_reviewed p (export_for_review p)).1.chapters =
      p.chapters.map updateFromParsed := by
  unfold import_reviewed
  dsimp only
  rw [reviewParse_export p h]
  have hm := mergeLoop_parsed p.chapters [] {} (by simpa using h.2.2.1)
  simpa using hm

theorem rebuild_length (idx : Nat)
    (l : List (String × Option String × String)) :
    (rebuildUtterances idx l).length = l.length := by
  unfold rebuildUtterances
  rw [List.length_map, List.enum_length]

theorem rebuild_forall₂ (idx : Nat) (l : List Utterance) :
    List.Forall₂ (fun u u' => u'.speaker = u.speaker ∧
        u'.emotion = u.emotion ∧ u'.text = roundTripText u.text)
      l (rebuildUtterances idx (l.map parsedUtt)) := by
  rw [List.forall₂_iff_get]
  constructor
  · rw [rebuild_length, List.length_map]
  · intro i h1 h2
    unfold rebuildUtterances
    simp only [List.get_eq_getElem, List.getElem_map, List.getElem_enum]
    exact ⟨rfl, rfl, rfl⟩

/-- C2 (amended): for a project whose adjacent compiled `(speaker, emotion)`
pairs are distinct AND whose titles are distinct, trim-invariant, nonempty
and newline-free, whose speakers are nonempty words, whose emotions are
absent or nonempty without `)` and newline, and whose utterance texts have
every line nonblank after trimming and not starting with `#`, `@` or `===`,
importing the exported review file yields the same chapter titles and, per
chapter, utterances in the same number carrying the same speaker, the same
emotion, and text equal to the original with its lines trimmed and joined
by single spaces.  (The frozen claim's precondition — adjacency alone — is
refuted by `c2_counterexample`.) -/
theorem c2_review_round_trip (p : AudiobookProject)
    (h : reviewRoundTripSafe p) :
    ((import_reviewed p (export_for_review p)).1.chapters.map Chapter.title =
        p.chapters.map Chapter.title) ∧
      List.Forall₂ (fun c c' =>
          c'.title = c.title ∧
          c'.utterances.length = c.utterances.length ∧
          List.Forall₂ (fun u u' => u'.speaker = u.speaker ∧
              u'.emotion = u.emotion ∧ u'.text = roundTripText u.text)
            c.utterances c'.utterances)
        p.chapters
        (import_reviewed p (export_for_review p)).1.chapters := by
  rw [import_export p h]
  constructor
  · rw [List.map_map]
    rfl
  · rw [List.forall₂_map_right_iff, List.forall₂_same]
    intro c _
    refine ⟨rfl, ?_, ?_⟩
    · show (rebuildUtterances c.index (c.utterances.map parsedUtt)).length =
        c.utterances.length
      rw [rebuild_length, List.length_map]
    · exact rebuild_forall₂ c.index c.utterances

/-- Witness for the amended C2 at a concrete two-utterance project
(narrator line plus an Alice line with an emotion). -/
theorem c2_round_trip_witness :
    reviewRoundTripSafe c2WitnessProject ∧
      (((import_reviewed c2WitnessProject
            (export_for_review c2WitnessProject)).1.chapters.map
          Chapter.title = c2WitnessProject.chapters.map Chapter.title) ∧
        List.Forall₂ (fun c c' =>
            c'.title = c.title ∧
            c'.utterances.length = c.utterances.length ∧
            List.Forall₂ (fun u u' => u'.speaker = u.speaker ∧
                u'.emotion = u.emotion ∧ u'.text = roundTripText u.text)
              c.utterances c'.utterances)
          c2WitnessProject.chapters
          (import_reviewed c2WitnessProject
            (export_for_review c2WitnessProject)).1.chapters) :=
  ⟨by decide, c2_review_round_trip c2WitnessProject (by decide)⟩

/-- C2 counterexample to the frozen claim: `c2CexProject` satisfies the
claim's stated precondition (adjacent `(speaker, emotion)` pairs change
exactly at tag boundaries — trivially, with one utterance), yet importing
its own export loses the utterance whose text starts with `#`: the chapter
comes back with 0 utterances instead of 1. -/
theorem c2_counterexample :
    (∀ c ∈ c2CexProject.chapters, adjacentPairsDistinct c.utterances) ∧
      c2CexProject.chapters.map (fun c => c.utterances.length) = [1] ∧
      (import_reviewed c2CexProject
          (export_for_review c2CexProject)).1.chapters.map
        (fun c => c.utterances.length) = [0] :=
  ⟨by decide, rfl, by decide⟩

/-! ## Renderer: path arithmetic -/

theorem digitsVal_append (a : Nat) (xs ys : List Char) :
    digitsVal a (xs ++ ys) = digitsVal (digitsVal a xs) ys := by
  unfold digitsVal
  rw [List.foldl_append]

theorem digitChar_val : ∀ d, d < 10 → (digitChar d).toNat - 48 = d := by
  decide

theorem natDigitsGo_val (fuel : Nat) :
    ∀ n a, n < fuel →
      digitsVal a (natDigitsGo fuel n) =
        a * 10 ^ (natDigitsGo fuel n).length + n := by
  induction fuel with
  | zero => intro n a h; exact absurd h (by omega)
  | succ fuel ih =>
    intro n a h
    rw [natDigitsGo]
    by_cases h10 : n < 10
    · rw [if_pos h10]
      show a * 10 + ((digitChar n).toNat - 48) = a * 10 ^ 1 + n
      rw [digitChar_val n h10, pow_one]
    · rw [if_neg h10]
      have hdiv : n / 10 < fuel := by omega
      rw [digitsVal_append, ih (n / 10) a hdiv]
      show (a * 10 ^ (natDigitsGo fuel (n / 10)).length + n / 10) * 10 +
          ((digitChar (n % 10)).toNat - 48) = _
      rw [digitChar_val (n % 10) (Nat.mod_lt n (by omega))]
      rw [List.length_append, List.length_cons, List.length_nil,
        pow_succ]
      have : (a * 10 ^ (natDigitsGo fuel (n / 10)).length + n / 10) * 10 +
          n % 10 = a * (10 ^ (natDigitsGo fuel (n / 10)).length * 10) +
          (10 * (n / 10) + n % 10) := by ring
      rw [this, Nat.div_add_mod]

theorem natDigits_val (n : Nat) : digitsVal 0 (natDigits n) = n := by
  unfold natDigits
  rw [natDigitsGo_val (n + 1) n 0 (by omega)]
  simp

theorem digitsVal_zeros (z : Nat) (ds : List Char) :
    digitsVal 0 (List.replicate z '0' ++ ds) = digitsVal 0 ds := by
  induction z with
  | zero => rfl
  | succ z ih =>
    rw [List.replicate_succ, List.cons_append]
    show digitsVal (0 * 10 + (('0' : Char).toNat - 48))
      (List.replicate z '0' ++ ds) = _
    rw [show 0 * 10 + (('0' : Char).toNat - 48) = 0 from by decide]
    exact ih

theorem pad4_inj (i j : Nat) (h : pad4 i = pad4 j) : i = j := by
  have hd := congrArg String.data h
  show i = j
  have h2 := congrArg (digitsVal 0) hd
  rw [show (pad4 i).data =
      List.replicate (4 - (natDigits i).length) '0' ++ natDigits i from rfl,
    show (pad4 j).data =
      List.replicate (4 - (natDigits j).length) '0' ++ natDigits j from rfl,
    digitsVal_zeros, digitsVal_zeros, natDigits_val, natDigits_val] at h2
  exact h2

theorem wavPath_inj (cr : String) (i j : Nat)
    (h : wavPath cr i = wavPath cr j) : i = j := by
  apply pad4_inj
  have hd := congrArg String.data h
  unfold wavPath at hd
  rw [strData_append, strData_append, strData_append, strData_append,
    strData_append, strData_append] at hd
  have h2 := List.append_cancel_right hd
  have h4 := List.append_cancel_left h2
  show pad4 i = pad4 j
  rw [← strMk_data (pad4 i), ← strMk_data (pad4 j), h4]

theorem wavPath_getLast (cr : String) (i : Nat) :
    (wavPath cr i).data.getLast? = some 'v' := by
  unfold wavPath
  rw [strData_append, getLastAppend _ _ (by decide)]
  rfl

theorem tmpWavPath_getLast (cr : String) (i : Nat) :
    (tmpWavPath cr i).data.getLast? = some 'p' := by
  unfold tmpWavPath
  rw [strData_append, getLastAppend _ _ (by decide)]
  rfl

theorem wavPath_ne_tmp (cr cr' : String) (i j : Nat) :
    wavPath cr i ≠ tmpWavPath cr' j := by
  intro h
  have h1 := wavPath_getLast cr i
  rw [h, tmpWavPath_getLast] at h1
  simp at h1

/-! ## Renderer: manifest lemmas -/

theorem find?_setEntryList_ne (l : List ChapterCacheEntry)
    (e : ChapterCacheEntry) (j : Nat) (hne : j ≠ e.chapter_index) :
    (setEntryList l e).find? (fun x => x.chapter_index = j) =
      l.find? (fun x => x.chapter_index = j) := by
  induction l with
  | nil =>
    show [e].find? _ = _
    rw [List.find?_cons_of_neg _ (by
      simp only [decide_eq_true_eq]
      exact fun hc => hne hc.symm)]
  | cons x xs ih =>
    rw [setEntryList]
    by_cases hx : x.chapter_index = e.chapter_index
    · rw [if_pos hx]
      rw [List.find?_cons_of_neg _ (by
        simp only [decide_eq_true_eq]
        exact fun hc => hne hc.symm),
        List.find?_cons_of_neg _ (by
          simp only [decide_eq_true_eq]
          exact fun hc => hne (hx ▸ hc).symm)]
    · rw [if_neg hx]
      by_cases hxj : x.chapter_index = j
      · rw [List.find?_cons_of_pos _ (by simp [hxj]),
          List.find?_cons_of_pos _ (by simp [hxj])]
      · rw [List.find?_cons_of_neg _ (by simp [hxj]),
          List.find?_cons_of_neg _ (by simp [hxj])]
        exact ih

theorem getEntry_setEntry_ne (m : CacheManifest) (e : ChapterCacheEntry)
    (j : Nat) (hne : j ≠ e.chapter_index) :
    (m.set_entry e).get_entry j = m.get_entry j := by
  unfold CacheManifest.get_entry CacheManifest.set_entry
  exact find?_setEntryList_ne m.chapters e j hne

theorem find?_setEntryList_self (l : List ChapterCacheEntry)
    (e : ChapterCacheEntry) :
    (setEntryList l e).find?
      (fun x => x.chapter_index = e.chapter_index) = some e := by
  induction l with
  | nil =>
    show [e].find? _ = _
    rw [List.find?_cons_of_pos _ (by simp)]
  | cons x xs ih =>
    rw [setEntryList]
    by_cases hx : x.chapter_index = e.chapter_index
    · rw [if_pos hx, List.find?_cons_of_pos _ (by simp)]
    · rw [if_neg hx, List.find?_cons_of_neg _ (by simp [hx])]
      exact ih

theorem getEntry_setEntry_self (m : CacheManifest) (e : ChapterCacheEntry) :
    (m.set_entry e).get_entry e.chapter_index = some e :=
  find?_setEntryList_self m.chapters e

theorem mem_setEntryList (l : List ChapterCacheEntry)
    (e x : ChapterCacheEntry) (hx : x ∈ setEntryList l e) :
    x ∈ l ∨ x = e := by
  induction l with
  | nil =>
    rcases List.mem_cons.mp hx with h | h
    · exact Or.inr h
    · simp at h
  | cons y ys ih =>
    rw [setEntryList] at hx
    by_cases hy : y.chapter_index = e.chapter_index
    · rw [if_pos hy] at hx
      rcases List.mem_cons.mp hx with h | h
      · exact Or.inr h
      · exact Or.inl (List.mem_cons_of_mem y h)
    · rw [if_neg hy] at hx
      rcases List.mem_cons.mp hx with h | h
      · exact Or.inl (h ▸ List.mem_cons_self y ys)
      · rcases ih h with h2 | h2
        · exact Or.inl (List.mem_cons_of_mem y h2)
        · exact Or.inr h2

theorem getEntry_none_of_below (m : CacheManifest) (n j : Nat)
    (hm : ∀ e ∈ m.chapters, e.chapter_index < n) (hj : n ≤ j) :
    m.get_entry j = none := by
  unfold CacheManifest.get_entry
  rw [List.find?_eq_none]
  intro x hx
  intro hc
  have := hm x hx
  rw [decide_eq_true_eq] at hc
  omega

theorem setEntry_version (m : CacheManifest) (e : ChapterCacheEntry) :
    (m.set_entry e).version = m.version := rfl

/-! ## Renderer: single-step reductions of the chapter loop -/

theorem renderLoop_skip (cr ch_h p_h : String) (synth : Nat → Option Nat)
    (resume allowInc : Bool) (fc : Option Nat) (i : Nat) (ch : Chapter)
    (rest : List (Nat × Chapter)) (m : CacheManifest) (st : RenderState)
    (h : (fc.map (fun f => decide (i < f))).getD false = true) :
    renderLoop cr ch_h p_h synth resume allowInc fc ((i, ch) :: rest) m st =
      renderLoop cr ch_h p_h synth resume allowInc fc rest m
        { st with chapters := st.chapters ++ [ch] } := by
  simp only [renderLoop]
  rw [if_pos h]

theorem renderLoop_hit (cr ch_h p_h : String) (synth : Nat → Option Nat)
    (allowInc : Bool) (fc : Option Nat) (i : Nat) (ch : Chapter)
    (rest : List (Nat × Chapter)) (m : CacheManifest) (st : RenderState)
    (e : ChapterCacheEntry)
    (hskip : (fc.map (fun f => decide (i < f))).getD false = false)
    (he : m.get_entry i = some e)
    (hval : e.is_valid (chapter_text_hash ch) ch_h p_h st.fs = true) :
    renderLoop cr ch_h p_h synth true allowInc fc ((i, ch) :: rest) m st =
      renderLoop cr ch_h p_h synth true allowInc fc rest m
        { st with
          chapters := st.chapters ++
            [{ ch with audio_path := some e.wav_path,
                       duration_seconds := e.duration_s }],
          skipped_cached := st.skipped_cached + 1 } := by
  simp only [renderLoop, hskip, he, hval, Option.getD_some, Bool.true_and,
    Bool.false_eq_true, if_false, if_true]

theorem renderLoop_miss_success (cr ch_h p_h : String)
    (synth : Nat → Option Nat) (resume allowInc : Bool) (fc : Option Nat)
    (i : Nat) (ch : Chapter) (rest : List (Nat × Chapter))
    (m : CacheManifest) (st : RenderState) (d : Nat)
    (hskip : (fc.map (fun f => decide (i < f))).getD false = false)
    (hmiss : (resume && (match m.get_entry i with
      | some e => e.is_valid (chapter_text_hash ch) ch_h p_h st.fs
      | none => false)) = false)
    (hd : synth i = some d) :
    renderLoop cr ch_h p_h synth resume allowInc fc ((i, ch) :: rest) m st =
      renderLoop cr ch_h p_h synth resume allowInc fc rest
        (m.set_entry (okEntry cr i (chapter_text_hash ch) ch_h p_h d))
        { st with
          chapters := st.chapters ++
            [{ ch with audio_path := some (wavPath cr i),
                       duration_seconds := d }],
          fs := wavPath cr i ::
            ((tmpWavPath cr i :: st.fs).filter
              (fun q => ¬ q = wavPath cr i)).filter
              (fun q => ¬ q = tmpWavPath cr i),
          mdisk := some (m.set_entry
            (okEntry cr i (chapter_text_hash ch) ch_h p_h d)),
          synthCalls := st.synthCalls + 1,
          rendered := st.rendered + 1 } := by
  simp only [renderLoop, hskip, hmiss, hd, Bool.false_eq_true, if_false]

theorem renderLoop_fail_abort (cr ch_h p_h : String)
    (synth : Nat → Option Nat) (resume : Bool) (fc : Option Nat)
    (i : Nat) (ch : Chapter) (rest : List (Nat × Chapter))
    (m : CacheManifest) (st : RenderState)
    (hskip : (fc.map (fun f => decide (i < f))).getD false = false)
    (hmiss : (resume && (match m.get_entry i with
      | some e => e.is_valid (chapter_text_hash ch) ch_h p_h st.fs
      | none => false)) = false)
    (hd : synth i = none) :
    renderLoop cr ch_h p_h synth resume false fc ((i, ch) :: rest) m st =
      (m.set_entry (failedEntry i (chapter_text_hash ch) ch_h p_h),
       { st with
         chapters := (st.chapters ++ [ch]) ++ rest.map Prod.snd,
         fs := st.fs.filter (fun q => ¬ q = tmpWavPath cr i),
         mdisk := some (m.set_entry
           (failedEntry i (chapter_text_hash ch) ch_h p_h)),
         synthCalls := st.synthCalls + 1,
         failed := st.failed + 1 },
       some ("Chapter " ++ toString i ++ " ('" ++ ch.title ++
         "') failed: synthesis failed")) := by
  simp only [renderLoop, hskip, hmiss, hd, Bool.false_eq_true, if_false]

/-! ## Renderer: the fresh all-successful run -/

theorem freshManifest_if (cr ch_h p_h : String) (synth : Nat → Option Nat)
    (k : Nat) (rest : List Chapter) (m2 : CacheManifest) :
    (if rest.isEmpty then some m2
      else some (freshManifest cr ch_h p_h synth k rest m2)) =
      some (freshManifest cr ch_h p_h synth k rest m2) := by
  cases rest with
  | nil => rfl
  | cons x xs => rfl

theorem renderLoop_fresh (cr ch_h p_h : String) (synth : Nat → Option Nat)
    (resume allowInc : Bool) (chs : List Chapter) :
    ∀ (n : Nat) (m : CacheManifest) (st : RenderState),
      (∀ j, j < chs.length → (synth (n + j)).isSome = true) →
      (∀ e ∈ m.chapters, e.chapter_index < n) →
      renderLoop cr ch_h p_h synth resume allowInc none
          (chs.enumFrom n) m st =
        (freshManifest cr ch_h p_h synth n chs m,
         { st with
           chapters := st.chapters ++ freshChapters cr synth n chs,
           fs := freshFs cr n chs st.fs,
           mdisk := if chs.isEmpty then st.mdisk
             else some (freshManifest cr ch_h p_h synth n chs m),
           synthCalls := st.synthCalls + chs.length,
           rendered := st.rendered + chs.length },
         none) := by
  induction chs with
  | nil =>
    intro n m st _ _
    show (m, st, none) = _
    simp [freshManifest, freshChapters, freshFs]
  | cons c rest ih =>
    intro n m st hs hm
    obtain ⟨d, hd⟩ := Option.isSome_iff_exists.mp (by simpa using hs 0 (by simp))
    have hdof : dOf synth n = d := by
      unfold dOf
      rw [hd]
      rfl
    show renderLoop cr ch_h p_h synth resume allowInc none
      ((n, c) :: rest.enumFrom (n + 1)) m st = _
    rw [renderLoop_miss_success cr ch_h p_h synth resume allowInc none n c
      (rest.enumFrom (n + 1)) m st d (by simp)
      (by rw [getEntry_none_of_below m n n hm (le_refl n)]; simp) hd]
    rw [ih (n + 1)
      (m.set_entry (okEntry cr n (chapter_text_hash c) ch_h p_h d))
      _
      (fun j hj => by
        have := hs (j + 1) (by simpa using hj)
        rw [show n + 1 + j = n + (j + 1) from by omega]
        exact this)
      (fun e he => by
        rcases mem_setEntryList _ _ _ he with h2 | h2
        · have := hm e h2
          omega
        · rw [h2]
          show n < n + 1
          omega)]
    simp only [freshManifest, freshChapters, freshFs, hdof,
      freshManifest_if, List.isEmpty_cons, List.length_cons]
    simp [List.append_assoc, Nat.add_assoc, Nat.add_comm, Nat.add_left_comm]

theorem renderLoop_none_synth (cr ch_h p_h : String)
    (synth : Nat → Option Nat) (resume : Bool) (chs : List Chapter) :
    ∀ (n : Nat) (m : CacheManifest) (st : RenderState),
      (∀ e ∈ m.chapters, e.chapter_index < n) →
      (renderLoop cr ch_h p_h synth resume false none
        (chs.enumFrom n) m st).2.2 = none →
      ∀ j, j < chs.length → (synth (n + j)).isSome = true := by
  induction chs with
  | nil =>
    intro n m st _ _ j hj
    simp at hj
  | cons c rest ih =>
    intro n m st hm hnone j hj
    have hmiss : (resume && (match m.get_entry n with
        | some e => e.is_valid (chapter_text_hash c) ch_h p_h st.fs
        | none => false)) = false := by
      rw [getEntry_none_of_below m n n hm (le_refl n)]
      simp
    cases hd : synth n with
    | none =>
      rw [show (c :: rest).enumFrom n = (n, c) :: rest.enumFrom (n + 1)
          from rfl,
        renderLoop_fail_abort cr ch_h p_h synth resume none n c
          (rest.enumFrom (n + 1)) m st (by simp) hmiss hd] at hnone
      simp at hnone
    | some d =>
      rw [show (c :: rest).enumFrom n = (n, c) :: rest.enumFrom (n + 1)
          from rfl,
        renderLoop_miss_success cr ch_h p_h synth resume false none n c
          (rest.enumFrom (n + 1)) m st d (by simp) hmiss hd] at hnone
      cases j with
      | zero =>
        rw [Nat.add_zero, hd]
        rfl
      | succ j2 =>
        have hrec := ih (n + 1)
          (m.set_entry (okEntry cr n (chapter_text_hash c) ch_h p_h d)) _
          (fun e he => by
            rcases mem_setEntryList _ _ _ he with h2 | h2
            · have := hm e h2
              omega
            · rw [h2]
              show n < n + 1
              omega)
          hnone j2 (by simpa using hj)
        rw [show n + (j2 + 1) = n + 1 + j2 from by omega]
        exact hrec

theorem getEntry_freshManifest_low (cr ch_h p_h : String)
    (synth : Nat → Option Nat) (rest : List Chapter) :
    ∀ (k : Nat) (m : CacheManifest) (j : Nat), j < k →
      (freshManifest cr ch_h p_h synth k rest m).get_entry j =
        m.get_entry j := by
  induction rest with
  | nil => intro k m j _; rfl
  | cons c rest2 ih =>
    intro k m j hj
    show (freshManifest cr ch_h p_h synth (k + 1) rest2 _).get_entry j = _
    rw [ih (k + 1) _ j (by omega),
      getEntry_setEntry_ne _ _ j (by
        show j ≠ (okEntry cr k (chapter_text_hash c) ch_h p_h
          (dOf synth k)).chapter_index
        show j ≠ k
        omega)]

theorem getEntry_freshManifest (cr ch_h p_h : String)
    (synth : Nat → Option Nat) (chs : List Chapter) :
    ∀ (n : Nat) (m : CacheManifest) (j : Nat), j < chs.length →
      (freshManifest cr ch_h p_h synth n chs m).get_entry (n + j) =
        some (okEntry cr (n + j)
          (chapter_text_hash (chs.getD j blankChapter))
          ch_h p_h (dOf synth (n + j))) := by
  induction chs with
  | nil => intro n m j hj; simp at hj
  | cons c rest ih =>
    intro n m j hj
    cases j with
    | zero =>
      show (freshManifest cr ch_h p_h synth (n + 1) rest _).get_entry
        (n + 0) = _
      rw [getEntry_freshManifest_low cr ch_h p_h synth rest (n + 1) _
        (n + 0) (by omega)]
      rw [show n + 0 = n from rfl]
      exact getEntry_setEntry_self _ _
    | succ j2 =>
      show (freshManifest cr ch_h p_h synth (n + 1) rest _).get_entry
        (n + (j2 + 1)) = _
      rw [show n + (j2 + 1) = (n + 1) + j2 from by omega]
      rw [ih (n + 1) _ j2 (by simpa using hj)]
      rfl

theorem freshFs_preserves (cr : String) (chs : List Chapter) :
    ∀ (k : Nat) (fs : List String) (q : String), q ∈ fs →
      (∀ j, k ≤ j → j < k + chs.length →
        ¬ q = wavPath cr j ∧ ¬ q = tmpWavPath cr j) →
      q ∈ freshFs cr k chs fs := by
  induction chs with
  | nil => intro k fs q hq _; exact hq
  | cons c rest ih =>
    intro k fs q hq hok
    show q ∈ freshFs cr (k + 1) rest _
    apply ih (k + 1) _ q
    · apply List.mem_cons_of_mem
      apply List.mem_filter.mpr
      refine ⟨List.mem_filter.mpr ⟨List.mem_cons_of_mem _ hq, ?_⟩, ?_⟩
      · simpa using (hok k (le_refl k) (by simp)).1
      · simpa using (hok k (le_refl k) (by simp)).2
    · intro j h1 h2
      exact hok j (by omega) (by
        simp only [List.length_cons]
        omega)

theorem freshFs_mem_wav (cr : String) (chs : List Chapter) :
    ∀ (k : Nat) (fs : List String) (j : Nat), k ≤ j →
      j < k + chs.length → wavPath cr j ∈ freshFs cr k chs fs := by
  induction chs with
  | nil =>
    intro k fs j h1 h2
    simp at h2
    omega
  | cons c rest ih =>
    intro k fs j h1 h2
    show wavPath cr j ∈ freshFs cr (k + 1) rest _
    by_cases hjk : j = k
    · subst hjk
      apply freshFs_preserves
      · exact List.mem_cons_self _ _
      · intro j2 hj1 hj2
        constructor
        · intro hc
          have := wavPath_inj cr j j2 hc
          omega
        · exact wavPath_ne_tmp cr cr j j2
    · exact ih (k + 1) _ j (by omega) (by
        simp only [List.length_cons] at h2
        omega)

theorem freshChapters_length (cr : String) (synth : Nat → Option Nat)
    (chs : List Chapter) : ∀ n,
    (freshChapters cr synth n chs).length = chs.length := by
  induction chs with
  | nil => intro n; rfl
  | cons c rest ih =>
    intro n
    show (freshChapters cr synth (n + 1) rest).length + 1 = _
    rw [ih (n + 1)]
    rfl

theorem freshChapters_raw_text (cr : String) (synth : Nat → Option Nat)
    (chs : List Chapter) : ∀ n j,
    ((freshChapters cr synth n chs).getD j
      blankChapter).raw_text =
    (chs.getD j blankChapter).raw_text := by
  induction chs with
  | nil => intro n j; rfl
  | cons c rest ih =>
    intro n j
    cases j with
    | zero => rfl
    | succ j2 => exact ih (n + 1) j2

theorem freshChapters_audio (cr : String) (synth : Nat → Option Nat)
    (chs : List Chapter) : ∀ (n : Nat) (fs : List String),
    (∀ j, n ≤ j → j < n + chs.length → wavPath cr j ∈ fs) →
    ∀ pr ∈ (freshChapters cr synth n chs).enumFrom n,
      ∃ ap, pr.2.audio_path = some ap ∧ ap ∈ fs := by
  induction chs with
  | nil => intro n fs _ pr hpr; simp [freshChapters] at hpr
  | cons c rest ih =>
    intro n fs hfs pr hpr
    rcases List.mem_cons.mp hpr with h | h
    · refine ⟨wavPath cr n, ?_, hfs n (le_refl n) (by simp)⟩
      rw [h]
    · exact ih (n + 1) fs (fun j h1 h2 => hfs j (by omega) (by
        simp only [List.length_cons]
        omega)) pr h

theorem hitChapters_length (m : CacheManifest) (chs : List Chapter) :
    ∀ n, (hitChapters m n chs).length = chs.length := by
  induction chs with
  | nil => intro n; rfl
  | cons c rest ih =>
    intro n
    show (hitChapters m (n + 1) rest).length + 1 = _
    rw [ih (n + 1)]
    rfl

theorem hitChapters_audio (m : CacheManifest) (chs : List Chapter)
    (fs : List String) : ∀ n : Nat,
    (∀ j, j < chs.length → ∃ e, m.get_entry (n + j) = some e ∧
      e.wav_path ∈ fs) →
    ∀ pr ∈ (hitChapters m n chs).enumFrom n,
      ∃ ap, pr.2.audio_path = some ap ∧ ap ∈ fs := by
  induction chs with
  | nil => intro n _ pr hpr; simp [hitChapters] at hpr
  | cons c rest ih =>
    intro n hh pr hpr
    rcases List.mem_cons.mp hpr with h | h
    · obtain ⟨e, he, hw⟩ := hh 0 (by simp)
      rw [show n + 0 = n from rfl] at he
      refine ⟨e.wav_path, ?_, hw⟩
      rw [h]
      show (match m.get_entry n with
        | some e => { c with audio_path := some e.wav_path,
                             duration_seconds := e.duration_s }
        | none => c).audio_path = some e.wav_path
      rw [he]
    · exact ih (n + 1) (fun j hj => by
        obtain ⟨e, he, hw⟩ := hh (j + 1) (by simpa using hj)
        rw [show n + (j + 1) = n + 1 + j from by omega] at he
        exact ⟨e, he, hw⟩) pr h

theorem okEntry_is_valid (cr : String) (i : Nat) (th ch ph : String)
    (d : Nat) (fs : List String) (hmem : wavPath cr i ∈ fs) :
    (okEntry cr i th ch ph d).is_valid th ch ph fs = true := by
  unfold okEntry ChapterCacheEntry.is_valid
  simp [hmem]

theorem freshManifest_version (cr ch_h p_h : String)
    (synth : Nat → Option Nat) (chs : List Chapter) :
    ∀ n m, (freshManifest cr ch_h p_h synth n chs m).version = m.version := by
  induction chs with
  | nil => intro n m; rfl
  | cons c rest ih =>
    intro n m
    show (freshManifest cr ch_h p_h synth (n + 1) rest _).version = _
    rw [ih (n + 1)]
    rfl

/-! ## Renderer: the all-cache-hit resume run -/

theorem renderLoop_all_hit (cr ch_h p_h : String)
    (synth : Nat → Option Nat) (allowInc : Bool) (chs : List Chapter) :
    ∀ (n : Nat) (m : CacheManifest) (st : RenderState),
      (∀ j, j < chs.length → ∃ e, m.get_entry (n + j) = some e ∧
        e.is_valid (chapter_text_hash (chs.getD j blankChapter)) ch_h p_h st.fs = true) →
      renderLoop cr ch_h p_h synth true allowInc none
          (chs.enumFrom n) m st =
        (m,
         { st with
           chapters := st.chapters ++ hitChapters m n chs,
           skipped_cached := st.skipped_cached + chs.length },
         none) := by
  induction chs with
  | nil =>
    intro n m st _
    show (m, st, none) = _
    simp [hitChapters]
  | cons c rest ih =>
    intro n m st hh
    obtain ⟨e, he, hv⟩ := hh 0 (by simp)
    rw [show n + 0 = n from rfl] at he
    show renderLoop cr ch_h p_h synth true allowInc none
      ((n, c) :: rest.enumFrom (n + 1)) m st = _
    rw [renderLoop_hit cr ch_h p_h synth allowInc none n c
      (rest.enumFrom (n + 1)) m st e (by simp) he hv]
    rw [ih (n + 1) m _ (fun j hj => by
      obtain ⟨e2, he2, hv2⟩ := hh (j + 1) (by simpa using hj)
      rw [show n + (j + 1) = n + 1 + j from by omega] at he2
      exact ⟨e2, he2, hv2⟩)]
    have hhead : hitChapters m n (c :: rest) =
        { c with audio_path := some e.wav_path,
                 duration_seconds := e.duration_s } ::
          hitChapters m (n + 1) rest := by
      show (match m.get_entry n with
        | some e => { c with audio_path := some e.wav_path,
                             duration_seconds := e.duration_s }
        | none => c) :: hitChapters m (n + 1) rest = _
      rw [he]
    rw [hhead]
    simp [List.append_assoc, Nat.add_assoc, Nat.add_comm, Nat.add_left_comm]

/-! ## Renderer: the assembly check -/

theorem assemblyLoop_all_ok (allowInc : Bool) (fs : List String)
    (l : List (Nat × Chapter)) :
    (∀ pr ∈ l, ∃ ap, pr.2.audio_path = some ap ∧ ap ∈ fs) →
    ∃ paths, assemblyLoop allowInc fs l = Except.ok paths ∧
      paths.length = l.length := by
  induction l with
  | nil => intro _; exact ⟨[], rfl, rfl⟩
  | cons pr rest ih =>
    intro h
    obtain ⟨ap, hap, hmem⟩ := h pr (List.mem_cons_self pr rest)
    obtain ⟨paths, hrec, hlen⟩ :=
      ih (fun x hx => h x (List.mem_cons_of_mem pr hx))
    refine ⟨ap :: paths, ?_, by simp [hlen]⟩
    show (match pr.2.audio_path with
      | some ap =>
        if ap ∈ fs then
          match assemblyLoop allowInc fs rest with
          | Except.ok paths => Except.ok (ap :: paths)
          | Except.error e => Except.error e
        else if allowInc then assemblyLoop allowInc fs rest
        else Except.error (pr.1, pr.2.title)
      | none =>
        if allowInc then assemblyLoop allowInc fs rest
        else Except.error (pr.1, pr.2.title)) = Except.ok (ap :: paths)
    simp only [hap, hrec]
    rw [if_pos hmem]

/-! ## Claim C3: render idempotence -/

/-- C3: a project rendered successfully once (resume on, `allow_partial`
off, no `from_chapter`, starting without a manifest on disk), rendered
again with resume on and no change to any chapter's raw text, the casting
table, or the audio-affecting config, performs zero synthesizer
invocations, still produces the assembled output, and returns the same
output file path. -/
theorem c3_render_idempotence (p : AudiobookProject) (out cr : String)
    (synth : Nat → Option Nat) (fs0 : List String)
    (hok : (renderProject p out cr synth true false none fs0 none).2 =
      Except.ok out) :
    (renderProject
        { p with chapters :=
            (renderProject p out cr synth true false none fs0 none).1.chapters }
        out cr synth true false none
        (renderProject p out cr synth true false none fs0 none).1.fs
        (renderProject p out cr synth true false none fs0 none).1.mdisk).2 =
      Except.ok out ∧
    (renderProject
        { p with chapters :=
            (renderProject p out cr synth true false none fs0 none).1.chapters }
        out cr synth true false none
        (renderProject p out cr synth true false none fs0 none).1.fs
        (renderProject p out cr synth true false none fs0 none).1.mdisk).1.synthCalls
      = 0 ∧
    out ∈ (renderProject
        { p with chapters :=
            (renderProject p out cr synth true false none fs0 none).1.chapters }
        out cr synth true false none
        (renderProject p out cr synth true false none fs0 none).1.fs
        (renderProject p out cr synth true false none fs0 none).1.mdisk).1.fs := by
  have hM0below : ∀ e ∈ ({ book_title := p.title } : CacheManifest).chapters,
      e.chapter_index < 0 := by
    intro e he
    simp [CacheManifest.chapters] at he
  have hm0 : (((if true = true then (none : Option CacheManifest)
      else none).bind (fun m => if 1 < m.version then none
        else some m)).getD { book_title := p.title }) =
      { book_title := p.title } := rfl
  -- the first render's loop cannot have aborted
  have hnone : (renderLoop cr (casting_hash p.casting)
      (render_params_hash p.config) synth true false none
      p.chapters.enum { book_title := p.title }
      { chapters := [], fs := fs0, mdisk := none }).2.2 = none := by
    rcases hL : renderLoop cr (casting_hash p.casting)
        (render_params_hash p.config) synth true false none
        p.chapters.enum { book_title := p.title }
        { chapters := [], fs := fs0, mdisk := none } with ⟨m1, st1, res⟩
    cases res with
    | none => rfl
    | some msg =>
      exfalso
      unfold renderProject at hok
      dsimp only at hok
      rw [hm0, hL] at hok
      simp at hok
  -- hence every chapter's synthesis succeeds
  have hs : ∀ j, j < p.chapters.length → (synth (0 + j)).isSome = true :=
    renderLoop_none_synth cr (casting_hash p.casting)
      (render_params_hash p.config) synth true p.chapters 0
      { book_title := p.title } { chapters := [], fs := fs0, mdisk := none }
      hM0below hnone
  -- the first render's loop, characterized
  have hfresh : renderLoop cr (casting_hash p.casting)
      (render_params_hash p.config) synth true false none
      p.chapters.enum { book_title := p.title }
      { chapters := [], fs := fs0, mdisk := none } =
      (freshManifest cr (casting_hash p.casting)
        (render_params_hash p.config) synth 0 p.chapters
        { book_title := p.title },
       { chapters := [] ++ freshChapters cr synth 0 p.chapters,
         fs := freshFs cr 0 p.chapters fs0,
         mdisk := if p.chapters.isEmpty then none
           else some (freshManifest cr (casting_hash p.casting)
             (render_params_hash p.config) synth 0 p.chapters
             { book_title := p.title }),
         synthCalls := 0 + p.chapters.length,
         rendered := 0 + p.chapters.length },
       none) :=
    renderLoop_fresh cr (casting_hash p.casting)
      (render_params_hash p.config) synth true false p.chapters 0
      { book_title := p.title } { chapters := [], fs := fs0, mdisk := none }
      hs hM0below
  -- the first render's assembly succeeds on every chapter
  have hallaudio1 : ∀ pr ∈ (freshChapters cr synth 0 p.chapters).enum,
      ∃ ap, pr.2.audio_path = some ap ∧ ap ∈ freshFs cr 0 p.chapters fs0 :=
    freshChapters_audio cr synth p.chapters 0 (freshFs cr 0 p.chapters fs0)
      (fun j h1 h2 => freshFs_mem_wav cr p.chapters 0 fs0 j h1 h2)
  obtain ⟨paths1, hasm1, hlen1⟩ :=
    assemblyLoop_all_ok false (freshFs cr 0 p.chapters fs0)
      ((freshChapters cr synth 0 p.chapters).enum) hallaudio1
  -- the first render, characterized up to the emptiness test
  have hcomp : renderProject p out cr synth true false none fs0 none =
      (if paths1.isEmpty then
        ({ chapters := [] ++ freshChapters cr synth 0 p.chapters,
           fs := freshFs cr 0 p.chapters fs0,
           mdisk := if p.chapters.isEmpty then none
             else some (freshManifest cr (casting_hash p.casting)
               (render_params_hash p.config) synth 0 p.chapters
               { book_title := p.title }),
           synthCalls := 0 + p.chapters.length,
           rendered := 0 + p.chapters.length },
         Except.error "No chapters rendered successfully.")
      else
        ({ chapters := [] ++ freshChapters cr synth 0 p.chapters,
           fs := out :: freshFs cr 0 p.chapters fs0,
           mdisk := if p.chapters.isEmpty then none
             else some (freshManifest cr (casting_hash p.casting)
               (render_params_hash p.config) synth 0 p.chapters
               { book_title := p.title }),
           synthCalls := 0 + p.chapters.length,
           rendered := 0 + p.chapters.length },
         Except.ok out)) := by
    unfold renderProject
    dsimp only
    rw [hm0, hfresh]
    dsimp only
    rw [show (([] : List Chapter) ++ freshChapters cr synth 0 p.chapters) =
      freshChapters cr synth 0 p.chapters from List.nil_append _]
    rw [hasm1]
  -- the project is nonempty and the first render returns the output path
  cases hpe : paths1.isEmpty with
  | true =>
    exfalso
    rw [hcomp, if_pos (by rw [hpe])] at hok
    simp at hok
  | false =>
    have hR1 : renderProject p out cr synth true false none fs0 none =
        ({ chapters := [] ++ freshChapters cr synth 0 p.chapters,
           fs := out :: freshFs cr 0 p.chapters fs0,
           mdisk := if p.chapters.isEmpty then none
             else some (freshManifest cr (casting_hash p.casting)
               (render_params_hash p.config) synth 0 p.chapters
               { book_title := p.title }),
           synthCalls := 0 + p.chapters.length,
           rendered := 0 + p.chapters.length },
         Except.ok out) := by
      rw [hcomp, if_neg (by rw [hpe]; simp)]
    have hlen0 : p.chapters.length ≠ 0 := by
      intro hc
      have h1 : paths1.length = 0 := by
        rw [hlen1, List.enum_length, freshChapters_length, hc]
      rw [List.length_eq_zero] at h1
      rw [h1] at hpe
      simp at hpe
    have hisE : p.chapters.isEmpty = false := by
      cases hchs : p.chapters with
      | nil => rw [hchs] at hlen0; simp at hlen0
      | cons a l => rfl
    -- entries of the fresh manifest validate against the new state
    have hh : ∀ j, j < (freshChapters cr synth 0 p.chapters).length →
        ∃ e, (freshManifest cr (casting_hash p.casting)
            (render_params_hash p.config) synth 0 p.chapters
            { book_title := p.title }).get_entry (0 + j) = some e ∧
          e.is_valid (chapter_text_hash
              ((freshChapters cr synth 0 p.chapters).getD j blankChapter))
            (casting_hash p.casting) (render_params_hash p.config)
            (out :: freshFs cr 0 p.chapters fs0) = true := by
      intro j hj
      rw [freshChapters_length cr synth p.chapters 0] at hj
      refine ⟨okEntry cr (0 + j)
        (chapter_text_hash (p.chapters.getD j blankChapter))
        (casting_hash p.casting) (render_params_hash p.config)
        (dOf synth (0 + j)),
        getEntry_freshManifest cr (casting_hash p.casting)
          (render_params_hash p.config) synth p.chapters 0
          { book_title := p.title } j hj, ?_⟩
      have hth : chapter_text_hash
          ((freshChapters cr synth 0 p.chapters).getD j blankChapter) =
          chapter_text_hash (p.chapters.getD j blankChapter) := by
        unfold chapter_text_hash
        rw [freshChapters_raw_text]
      rw [hth]
      apply okEntry_is_valid
      apply List.mem_cons_of_mem
      rw [Nat.zero_add]
      exact freshFs_mem_wav cr p.chapters 0 fs0 j (by omega) (by omega)
    -- the second render's loop: every chapter is a cache hit
    have hloop2 : renderLoop cr (casting_hash p.casting)
        (render_params_hash p.config) synth true false none
        (freshChapters cr synth 0 p.chapters).enum
        (freshManifest cr (casting_hash p.casting)
          (render_params_hash p.config) synth 0 p.chapters
          { book_title := p.title })
        { chapters := [], fs := out :: freshFs cr 0 p.chapters fs0,
          mdisk := some (freshManifest cr (casting_hash p.casting)
            (render_params_hash p.config) synth 0 p.chapters
            { book_title := p.title }) } =
        (freshManifest cr (casting_hash p.casting)
          (render_params_hash p.config) synth 0 p.chapters
          { book_title := p.title },
         { chapters := [] ++ hitChapters
             (freshManifest cr (casting_hash p.casting)
               (render_params_hash p.config) synth 0 p.chapters
               { book_title := p.title }) 0
             (freshChapters cr synth 0 p.chapters),
           fs := out :: freshFs cr 0 p.chapters fs0,
           mdisk := some (freshManifest cr (casting_hash p.casting)
             (render_params_hash p.config) synth 0 p.chapters
             { book_title := p.title }),
           skipped_cached :=
             0 + (freshChapters cr synth 0 p.chapters).length },
         none) :=
      renderLoop_all_hit cr (casting_hash p.casting)
        (render_params_hash p.config) synth false
        (freshChapters cr synth 0 p.chapters) 0
        (freshManifest cr (casting_hash p.casting)
          (render_params_hash p.config) synth 0 p.chapters
          { book_title := p.title })
        { chapters := [], fs := out :: freshFs cr 0 p.chapters fs0,
          mdisk := some (freshManifest cr (casting_hash p.casting)
            (render_params_hash p.config) synth 0 p.chapters
            { book_title := p.title }) }
        hh
    -- the second render's assembly succeeds on every chapter
    have hallaudio2 : ∀ pr ∈ (hitChapters
        (freshManifest cr (casting_hash p.casting)
          (render_params_hash p.config) synth 0 p.chapters
          { book_title := p.title }) 0
        (freshChapters cr synth 0 p.chapters)).enum,
        ∃ ap, pr.2.audio_path = some ap ∧
          ap ∈ out :: freshFs cr 0 p.chapters fs0 :=
      hitChapters_audio _ (freshChapters cr synth 0 p.chapters)
        (out :: freshFs cr 0 p.chapters fs0) 0
        (fun j hj => by
          rw [freshChapters_length cr synth p.chapters 0] at hj
          refine ⟨okEntry cr (0 + j)
            (chapter_text_hash (p.chapters.getD j blankChapter))
            (casting_hash p.casting) (render_params_hash p.config)
            (dOf synth (0 + j)),
            getEntry_freshManifest cr (casting_hash p.casting)
              (render_params_hash p.config) synth p.chapters 0
              { book_title := p.title } j hj, ?_⟩
          show wavPath cr (0 + j) ∈ _
          apply List.mem_cons_of_mem
          rw [Nat.zero_add]
          exact freshFs_mem_wav cr p.chapters 0 fs0 j (by omega) (by omega))
    obtain ⟨paths2, hasm2, hlen2⟩ :=
      assemblyLoop_all_ok false (out :: freshFs cr 0 p.chapters fs0)
        ((hitChapters
          (freshManifest cr (casting_hash p.casting)
            (render_params_hash p.config) synth 0 p.chapters
            { book_title := p.title }) 0
          (freshChapters cr synth 0 p.chapters)).enum) hallaudio2
    have hpe2 : paths2.isEmpty = false := by
      cases hp2 : paths2 with
      | nil =>
        exfalso
        rw [hp2] at hlen2
        rw [List.enum_length, hitChapters_length, freshChapters_length]
          at hlen2
        exact hlen0 hlen2.symm
      | cons a l => rfl
    -- the second render, fully characterized
    have hm02 : (((if true = true then
        some (freshManifest cr (casting_hash p.casting)
          (render_params_hash p.config) synth 0 p.chapters
          { book_title := p.title }) else none).bind
        (fun m => if 1 < m.version then none else some m)).getD
        { book_title := p.title }) =
        freshManifest cr (casting_hash p.casting)
          (render_params_hash p.config) synth 0 p.chapters
          { book_title := p.title } := by
      show (if 1 < (freshManifest cr (casting_hash p.casting)
          (render_params_hash p.config) synth 0 p.chapters
          { book_title := p.title }).version then (none : Option CacheManifest)
          else some (freshManifest cr (casting_hash p.casting)
            (render_params_hash p.config) synth 0 p.chapters
            { book_title := p.title })).getD { book_title := p.title } = _
      rw [freshManifest_version]
      rfl
    have hR2 : renderProject
        { p with chapters := freshChapters cr synth 0 p.chapters }
        out cr synth true false none
        (out :: freshFs cr 0 p.chapters fs0)
        (some (freshManifest cr (casting_hash p.casting)
          (render_params_hash p.config) synth 0 p.chapters
          { book_title := p.title })) =
        ({ chapters := [] ++ hitChapters
             (freshManifest cr (casting_hash p.casting)
               (render_params_hash p.config) synth 0 p.chapters
               { book_title := p.title }) 0
             (freshChapters cr synth 0 p.chapters),
           fs := out :: (out :: freshFs cr 0 p.chapters fs0),
           mdisk := some (freshManifest cr (casting_hash p.casting)
             (render_params_hash p.config) synth 0 p.chapters
             { book_title := p.title }),
           skipped_cached :=
             0 + (freshChapters cr synth 0 p.chapters).length },
         Except.ok out) := by
      unfold renderProject
      dsimp only
      rw [hm02, hloop2]
      dsimp only [List.nil_append]
      rw [hasm2]
      simp only [hpe2, Bool.false_eq_true, if_false]
    rw [hR1]
    dsimp only [List.nil_append]
    rw [hisE]
    simp only [Bool.false_eq_true, if_false]
    rw [hR2]
    exact ⟨rfl, rfl, List.mem_cons_self _ _⟩

/-- Witness for C3 at a concrete one-chapter project with an
always-succeeding synthesizer. -/
theorem c3_witness :
    ((renderProject c3WitnessProject "out.m4b" "cache" (fun _ => some 7)
        true false none [] none).2 = Except.ok "out.m4b") ∧
    ((renderProject
        { c3WitnessProject with chapters :=
            (renderProject c3WitnessProject "out.m4b" "cache"
              (fun _ => some 7) true false none [] none).1.chapters }
        "out.m4b" "cache" (fun _ => some 7) true false none
        (renderProject c3WitnessProject "out.m4b" "cache" (fun _ => some 7)
          true false none [] none).1.fs
        (renderProject c3WitnessProject "out.m4b" "cache" (fun _ => some 7)
          true false none [] none).1.mdisk).2 = Except.ok "out.m4b" ∧
      (renderProject
        { c3WitnessProject with chapters :=
            (renderProject c3WitnessProject "out.m4b" "cache"
              (fun _ => some 7) true false none [] none).1.chapters }
        "out.m4b" "cache" (fun _ => some 7) true false none
        (renderProject c3WitnessProject "out.m4b" "cache" (fun _ => some 7)
          true false none [] none).1.fs
        (renderProject c3WitnessProject "out.m4b" "cache" (fun _ => some 7)
          true false none [] none).1.mdisk).1.synthCalls = 0 ∧
      "out.m4b" ∈ (renderProject
        { c3WitnessProject with chapters :=
            (renderProject c3WitnessProject "out.m4b" "cache"
              (fun _ => some 7) true false none [] none).1.chapters }
        "out.m4b" "cache" (fun _ => some 7) true false none
        (renderProject c3WitnessProject "out.m4b" "cache" (fun _ => some 7)
          true false none [] none).1.fs
        (renderProject c3WitnessProject "out.m4b" "cache" (fun _ => some 7)
          true false none [] none).1.mdisk).1.fs) :=
  ⟨rfl, c3_render_idempotence c3WitnessProject "out.m4b" "cache"
    (fun _ => some 7) [] rfl⟩

/-! ## Claim C4: failure containment -/

theorem renderLoop_append_none (cr ch_h p_h : String)
    (synth : Nat → Option Nat) (resume : Bool) (fc : Option Nat)
    (l1 : List (Nat × Chapter)) :
    ∀ (l2 : List (Nat × Chapter)) (m : CacheManifest) (st : RenderState)
      (m1 : CacheManifest) (st1 : RenderState),
      renderLoop cr ch_h p_h synth resume false fc l1 m st =
        (m1, st1, none) →
      renderLoop cr ch_h p_h synth resume false fc (l1 ++ l2) m st =
        renderLoop cr ch_h p_h synth resume false fc l2 m1 st1 := by
  induction l1 with
  | nil =>
    intro l2 m st m1 st1 h
    have h1 : m = m1 ∧ st = st1 := by
      have := h
      rw [renderLoop] at this
      exact ⟨congrArg Prod.fst this,
        congrArg (fun x => x.2.1) this⟩
    rw [List.nil_append, h1.1, h1.2]
  | cons pr rest ih =>
    rcases pr with ⟨i, ch⟩
    intro l2 m st m1 st1 h
    by_cases hskip : (fc.map (fun f => decide (i < f))).getD false = true
    · rw [renderLoop_skip cr ch_h p_h synth resume false fc i ch _ m st
        hskip] at h
      rw [List.cons_append,
        renderLoop_skip cr ch_h p_h synth resume false fc i ch _ m st
          hskip]
      exact ih l2 m _ m1 st1 h
    · rw [Bool.not_eq_true] at hskip
      by_cases hhit : (resume && (match m.get_entry i with
          | some e => e.is_valid (chapter_text_hash ch) ch_h p_h st.fs
          | none => false)) = true
      · rw [Bool.and_eq_true] at hhit
        obtain ⟨hres, hmatch⟩ := hhit
        cases he : m.get_entry i with
        | none =>
          rw [he] at hmatch
          simp at hmatch
        | some e =>
          rw [he] at hmatch
          subst hres
          rw [renderLoop_hit cr ch_h p_h synth false fc i ch _ m st e
            hskip he hmatch] at h
          rw [List.cons_append,
            renderLoop_hit cr ch_h p_h synth false fc i ch _ m st e
              hskip he hmatch]
          exact ih l2 m _ m1 st1 h
      · rw [Bool.not_eq_true] at hhit
        cases hd : synth i with
        | some d =>
          rw [renderLoop_miss_success cr ch_h p_h synth resume false fc
            i ch _ m st d hskip hhit hd] at h
          rw [List.cons_append,
            renderLoop_miss_success cr ch_h p_h synth resume false fc
              i ch _ m st d hskip hhit hd]
          exact ih l2 _ _ m1 st1 h
        | none =>
          rw [renderLoop_fail_abort cr ch_h p_h synth resume fc
            i ch _ m st hskip hhit hd] at h
          have := congrArg (fun x => x.2.2) h
          simp at this

theorem freshManifest_below (cr ch_h p_h : String)
    (synth : Nat → Option Nat) (chs : List Chapter) :
    ∀ (n : Nat) (m : CacheManifest),
      (∀ e ∈ m.chapters, e.chapter_index < n) →
      ∀ e ∈ (freshManifest cr ch_h p_h synth n chs m).chapters,
        e.chapter_index < n + chs.length := by
  induction chs with
  | nil =>
    intro n m hm e he
    have := hm e he
    simp only [List.length_nil]
    omega
  | cons c rest ih =>
    intro n m hm e he
    have h2 := ih (n + 1) _ (fun x hx => by
      rcases mem_setEntryList _ _ _ hx with h3 | h3
      · have := hm x h3
        omega
      · rw [h3]
        show n < n + 1
        omega) e he
    simp only [List.length_cons]
    omega

theorem getD_take (l : List Chapter) (k i : Nat) (hi : i < k)
    (d : Chapter) : (l.take k).getD i d = l.getD i d := by
  unfold List.getD
  rw [List.get?_eq_getElem?, List.get?_eq_getElem?,
    List.getElem?_take_of_lt hi]

/-- C4: in a render (resume on, `allow_partial` off, no `from_chapter`,
fresh manifest) where synthesis fails on chapter `k` after chapters
`0..k-1` synthesized successfully (so each reached `status="ok"`), the
call raises, and every chapter with index `i < k` keeps an ok manifest
entry pointing at its canonical WAV, the WAV is still on disk, and the
entry still validates against the current hashes: the failure handling of
chapter `k` neither deletes nor invalidates them. -/
theorem c4_failure_containment (p : AudiobookProject) (out cr : String)
    (synth : Nat → Option Nat) (fs0 : List String) (k : Nat)
    (hk : k < p.chapters.length) (hfk : synth k = none)
    (hpre : ∀ j, j < k → (synth j).isSome = true) :
    (∃ msg, (renderProject p out cr synth true false none fs0 none).2 =
      Except.error msg) ∧
    (∀ i, i < k →
      ∃ e, ((renderProject p out cr synth true false none fs0
            none).1.mdisk.getD { book_title := p.title }).get_entry i =
          some e ∧
        e.status = "ok" ∧ e.wav_path = wavPath cr i ∧
        e.wav_path ∈ (renderProject p out cr synth true false none fs0
          none).1.fs ∧
        e.is_valid (chapter_text_hash (p.chapters.getD i blankChapter))
          (casting_hash p.casting) (render_params_hash p.config)
          (renderProject p out cr synth true false none fs0 none).1.fs
          = true) := by
  have hm0 : (((if true = true then (none : Option CacheManifest)
      else none).bind (fun m => if 1 < m.version then none
        else some m)).getD { book_title := p.title }) =
      { book_title := p.title } := rfl
  have hM0below : ∀ e ∈ ({ book_title := p.title } : CacheManifest).chapters,
      e.chapter_index < 0 := by
    intro e he
    simp [CacheManifest.chapters] at he
  obtain ⟨ck, rest, hdrop⟩ : ∃ ck rest, p.chapters.drop k = ck :: rest := by
    cases hd : p.chapters.drop k with
    | nil =>
      exfalso
      have := congrArg List.length hd
      rw [List.length_drop] at this
      simp at this
      omega
    | cons a l => exact ⟨a, l, rfl⟩
  have htklen : (p.chapters.take k).length = k := by
    rw [List.length_take]
    omega
  have henum : p.chapters.enum =
      (p.chapters.take k).enumFrom 0 ++ (ck :: rest).enumFrom k := by
    have h1 : p.chapters = p.chapters.take k ++ ck :: rest := by
      rw [← hdrop, List.take_append_drop]
    calc p.chapters.enum
        = (p.chapters.take k ++ ck :: rest).enum := by rw [← h1]
      _ = (p.chapters.take k).enumFrom 0 ++
            (ck :: rest).enumFrom (0 + (p.chapters.take k).length) := by
          rw [show (p.chapters.take k ++ ck :: rest).enum =
            (p.chapters.take k ++ ck :: rest).enumFrom 0 from rfl,
            List.enumFrom_append]
      _ = _ := by rw [htklen, Nat.zero_add]
  have hsq : ∀ j, j < (p.chapters.take k).length →
      (synth (0 + j)).isSome = true := by
    intro j hj
    rw [htklen] at hj
    rw [Nat.zero_add]
    exact hpre j hj
  have hfreshk := renderLoop_fresh cr (casting_hash p.casting)
    (render_params_hash p.config) synth true false (p.chapters.take k) 0
    { book_title := p.title } { chapters := [], fs := fs0, mdisk := none }
    hsq hM0below
  have hMkbelow : ∀ e ∈ (freshManifest cr (casting_hash p.casting)
      (render_params_hash p.config) synth 0 (p.chapters.take k)
      { book_title := p.title }).chapters, e.chapter_index < k := by
    intro e he
    have := freshManifest_below cr (casting_hash p.casting)
      (render_params_hash p.config) synth (p.chapters.take k) 0
      { book_title := p.title } hM0below e he
    rw [htklen] at this
    omega
  have hRP : renderProject p out cr synth true false none fs0 none =
      ({ chapters := ((([] : List Chapter) ++
           freshChapters cr synth 0 (p.chapters.take k)) ++ [ck]) ++
           (rest.enumFrom (k + 1)).map Prod.snd,
         fs := (freshFs cr 0 (p.chapters.take k) fs0).filter
           (fun q => ¬ q = tmpWavPath cr k),
         mdisk := some ((freshManifest cr (casting_hash p.casting)
           (render_params_hash p.config) synth 0 (p.chapters.take k)
           { book_title := p.title }).set_entry
           (failedEntry k (chapter_text_hash ck) (casting_hash p.casting)
             (render_params_hash p.config))),
         synthCalls := (0 + (p.chapters.take k).length) + 1,
         rendered := 0 + (p.chapters.take k).length,
         failed := 0 + 1 },
       Except.error ("Chapter " ++ toString k ++ " ('" ++ ck.title ++
         "') failed: synthesis failed")) := by
    unfold renderProject
    dsimp only
    rw [hm0, henum,
      renderLoop_append_none cr (casting_hash p.casting)
        (render_params_hash p.config) synth true none
        ((p.chapters.take k).enumFrom 0) ((ck :: rest).enumFrom k)
        { book_title := p.title }
        { chapters := [], fs := fs0, mdisk := none } _ _ hfreshk]
    rw [show (ck :: rest).enumFrom k = (k, ck) :: rest.enumFrom (k + 1)
      from rfl]
    rw [renderLoop_fail_abort cr (casting_hash p.casting)
      (render_params_hash p.config) synth true none k ck
      (rest.enumFrom (k + 1)) _ _ (by simp)
      (by rw [getEntry_none_of_below _ k k hMkbelow (le_refl k)]; simp)
      hfk]
  constructor
  · exact ⟨"Chapter " ++ toString k ++ " ('" ++ ck.title ++
      "') failed: synthesis failed", by rw [hRP]⟩
  · intro i hi
    have hitk : i < (p.chapters.take k).length := by
      rw [htklen]
      exact hi
    have hge := getEntry_freshManifest cr (casting_hash p.casting)
      (render_params_hash p.config) synth (p.chapters.take k) 0
      { book_title := p.title } i hitk
    rw [Nat.zero_add] at hge
    have hmem : wavPath cr i ∈
        (freshFs cr 0 (p.chapters.take k) fs0).filter
          (fun q => ¬ q = tmpWavPath cr k) := by
      apply List.mem_filter.mpr
      refine ⟨freshFs_mem_wav cr (p.chapters.take k) 0 fs0 i (by omega)
        (by omega), ?_⟩
      simpa using wavPath_ne_tmp cr cr i k
    refine ⟨okEntry cr i
      (chapter_text_hash ((p.chapters.take k).getD i blankChapter))
      (casting_hash p.casting) (render_params_hash p.config)
      (dOf synth i), ?_, rfl, rfl, ?_, ?_⟩
    · rw [hRP]
      show ((freshManifest cr (casting_hash p.casting)
        (render_params_hash p.config) synth 0 (p.chapters.take k)
        { book_title := p.title }).set_entry
        (failedEntry k (chapter_text_hash ck) (casting_hash p.casting)
          (render_params_hash p.config))).get_entry i = _
      rw [getEntry_setEntry_ne _ _ i (by
        show i ≠ (failedEntry k (chapter_text_hash ck)
          (casting_hash p.casting) (render_params_hash p.config)).chapter_index
        show i ≠ k
        omega)]
      exact hge
    · rw [hRP]
      exact hmem
    · rw [hRP]
      show (okEntry cr i
        (chapter_text_hash ((p.chapters.take k).getD i blankChapter))
        (casting_hash p.casting) (render_params_hash p.config)
        (dOf synth i)).is_valid
        (chapter_text_hash (p.chapters.getD i blankChapter)) _ _ _ = true
      rw [← getD_take p.chapters k i hi blankChapter]
      exact okEntry_is_valid cr i _ _ _ _ _ hmem

/-- Witness for C4: two chapters, the synthesizer fails on chapter 1 after
chapter 0 rendered. -/
theorem c4_witness :
    (1 < c9CexProject.chapters.length ∧
      (fun i => if i = 0 then some 7 else none) 1 = (none : Option Nat) ∧
      (∀ j, j < 1 →
        (((fun i => if i = 0 then some 7 else none) : Nat → Option Nat)
          j).isSome = true)) ∧
    ((∃ msg, (renderProject c9CexProject "out.m4b" "cache"
        (fun i => if i = 0 then some 7 else none) true false none []
        none).2 = Except.error msg) ∧
     (∀ i, i < 1 →
      ∃ e, ((renderProject c9CexProject "out.m4b" "cache"
            (fun i => if i = 0 then some 7 else none) true false none []
            none).1.mdisk.getD { book_title := c9CexProject.title }).get_entry
          i = some e ∧
        e.status = "ok" ∧ e.wav_path = wavPath "cache" i ∧
        e.wav_path ∈ (renderProject c9CexProject "out.m4b" "cache"
          (fun i => if i = 0 then some 7 else none) true false none []
          none).1.fs ∧
        e.is_valid
          (chapter_text_hash (c9CexProject.chapters.getD i blankChapter))
          (casting_hash c9CexProject.casting)
          (render_params_hash c9CexProject.config)
          (renderProject c9CexProject "out.m4b" "cache"
            (fun i => if i = 0 then some 7 else none) true false none []
            none).1.fs = true)) :=
  ⟨⟨by decide, rfl, by decide⟩,
    c4_failure_containment c9CexProject "out.m4b" "cache"
      (fun i => if i = 0 then some 7 else none) [] 1 (by decide) rfl
      (by decide)⟩

/-! ## Claim C9: the assembly-time failure condition -/

/-- C9 (amended): with `allow_partial` false, the assembly-readiness check
fails precisely when some chapter — of ANY index, including indices below
`from_chapter`, which the check never consults — has no existing audio;
and with `allow_partial` true a run in which no chapter has existing audio
collects no paths (so `render_project` then fails its emptiness test).
The frozen claim's restriction of the condition to `[from_chapter, end)`
is refuted by `c9_counterexample`. -/
theorem c9_assembly_failure_condition (fs : List String)
    (l : List (Nat × Chapter)) :
    ((∃ it, assemblyLoop false fs l = Except.error it) ↔
      ∃ pr ∈ l, ∀ ap, pr.2.audio_path = some ap → ap ∉ fs) ∧
    ((∀ pr ∈ l, ∀ ap, pr.2.audio_path = some ap → ap ∉ fs) →
      assemblyLoop true fs l = Except.ok []) := by
  constructor
  · constructor
    · intro ⟨it, herr⟩
      induction l with
      | nil => simp [assemblyLoop] at herr
      | cons x rest ih =>
        cases haud : x.2.audio_path with
        | some ap =>
          by_cases hmem : ap ∈ fs
          · have hrest : ∃ pr ∈ rest, ∀ ap2,
                pr.2.audio_path = some ap2 → ap2 ∉ fs := by
              apply ih
              rw [show assemblyLoop false fs (x :: rest) =
                (match x.2.audio_path with
                | some ap =>
                  if ap ∈ fs then
                    match assemblyLoop false fs rest with
                    | Except.ok paths => Except.ok (ap :: paths)
                    | Except.error e => Except.error e
                  else if false then assemblyLoop false fs rest
                  else Except.error (x.1, x.2.title)
                | none =>
                  if false then assemblyLoop false fs rest
                  else Except.error (x.1, x.2.title)) from rfl] at herr
              simp only [haud] at herr
              rw [if_pos hmem] at herr
              cases hrec : assemblyLoop false fs rest with
              | ok paths =>
                rw [hrec] at herr
                simp at herr
              | error e2 =>
                rw [hrec] at herr
                exact herr
            obtain ⟨pr, hpr, hmiss⟩ := hrest
            exact ⟨pr, List.mem_cons_of_mem x hpr, hmiss⟩
          · refine ⟨x, List.mem_cons_self x rest, ?_⟩
            intro ap2 hap2
            rw [haud] at hap2
            cases hap2
            exact hmem
        | none =>
          refine ⟨x, List.mem_cons_self x rest, ?_⟩
          intro ap2 hap2
          rw [haud] at hap2
          cases hap2
    · intro ⟨pr, hpr, hmiss⟩
      induction l with
      | nil => simp at hpr
      | cons x rest ih =>
        rcases List.mem_cons.mp hpr with rfl | hpr2
        · cases haud : pr.2.audio_path with
          | some ap =>
            refine ⟨(pr.1, pr.2.title), ?_⟩
            show (match pr.2.audio_path with
              | some ap =>
                if ap ∈ fs then
                  match assemblyLoop false fs rest with
                  | Except.ok paths => Except.ok (ap :: paths)
                  | Except.error e => Except.error e
                else if false then assemblyLoop false fs rest
                else Except.error (pr.1, pr.2.title)
              | none =>
                if false then assemblyLoop false fs rest
                else Except.error (pr.1, pr.2.title)) =
              Except.error (pr.1, pr.2.title)
            simp only [haud]
            rw [if_neg (hmiss ap haud)]
            rfl
          | none =>
            refine ⟨(pr.1, pr.2.title), ?_⟩
            show (match pr.2.audio_path with
              | some ap =>
                if ap ∈ fs then
                  match assemblyLoop false fs rest with
                  | Except.ok paths => Except.ok (ap :: paths)
                  | Except.error e => Except.error e
                else if false then assemblyLoop false fs rest
                else Except.error (pr.1, pr.2.title)
              | none =>
                if false then assemblyLoop false fs rest
                else Except.error (pr.1, pr.2.title)) =
              Except.error (pr.1, pr.2.title)
            simp only [haud]
            rfl
        · obtain ⟨it, hit⟩ := ih hpr2
          cases haud : x.2.audio_path with
          | some ap =>
            by_cases hmem : ap ∈ fs
            · refine ⟨it, ?_⟩
              show (match x.2.audio_path with
                | some ap =>
                  if ap ∈ fs then
                    match assemblyLoop false fs rest with
                    | Except.ok paths => Except.ok (ap :: paths)
                    | Except.error e => Except.error e
                  else if false then assemblyLoop false fs rest
                  else Except.error (x.1, x.2.title)
                | none =>
                  if false then assemblyLoop false fs rest
                  else Except.error (x.1, x.2.title)) = Except.error it
              simp only [haud]
              rw [if_pos hmem, hit]
            · refine ⟨(x.1, x.2.title), ?_⟩
              show (match x.2.audio_path with
                | some ap =>
                  if ap ∈ fs then
                    match assemblyLoop false fs rest with
                    | Except.ok paths => Except.ok (ap :: paths)
                    | Except.error e => Except.error e
                  else if false then assemblyLoop false fs rest
                  else Except.error (x.1, x.2.title)
                | none =>
                  if false then assemblyLoop false fs rest
                  else Except.error (x.1, x.2.title)) =
                Except.error (x.1, x.2.title)
              simp only [haud]
              rw [if_neg hmem]
              rfl
          | none =>
            refine ⟨(x.1, x.2.title), ?_⟩
            show (match x.2.audio_path with
              | some ap =>
                if ap ∈ fs then
                  match assemblyLoop false fs rest with
                  | Except.ok paths => Except.ok (ap :: paths)
                  | Except.error e => Except.error e
                else if false then assemblyLoop false fs rest
                else Except.error (x.1, x.2.title)
              | none =>
                if false then assemblyLoop false fs rest
                else Except.error (x.1, x.2.title)) =
              Except.error (x.1, x.2.title)
            simp only [haud]
            rfl
  · intro hall
    induction l with
    | nil => rfl
    | cons x rest ih =>
      have hx := hall x (List.mem_cons_self x rest)
      have hrec := ih (fun pr hpr => hall pr (List.mem_cons_of_mem x hpr))
      cases haud : x.2.audio_path with
      | some ap =>
        show (match x.2.audio_path with
          | some ap =>
            if ap ∈ fs then
              match assemblyLoop true fs rest with
              | Except.ok paths => Except.ok (ap :: paths)
              | Except.error e => Except.error e
            else if true then assemblyLoop true fs rest
            else Except.error (x.1, x.2.title)
          | none =>
            if true then assemblyLoop true fs rest
            else Except.error (x.1, x.2.title)) = Except.ok []
        simp only [haud]
        rw [if_neg (hx ap haud), if_pos trivial]
        exact hrec
      | none =>
        show (match x.2.audio_path with
          | some ap =>
            if ap ∈ fs then
              match assemblyLoop true fs rest with
              | Except.ok paths => Except.ok (ap :: paths)
              | Except.error e => Except.error e
            else if true then assemblyLoop true fs rest
            else Except.error (x.1, x.2.title)
          | none =>
            if true then assemblyLoop true fs rest
            else Except.error (x.1, x.2.title)) = Except.ok []
        simp only [haud]
        rw [if_pos trivial]
        exact hrec

/-- C9 counterexample to the frozen claim: rendering `c9CexProject` with
`from_chapter = 1` renders chapter 1 fine (its audio exists on disk), yet
assembly raises for chapter 0 — an index below `from_chapter`, which the
claim says cannot by itself cause the failure. -/
theorem c9_counterexample :
    ((renderProject c9CexProject "out.m4b" "cache" (fun _ => some 7) true
        false (some 1) [] none).2 = Except.error (noAudioMsg 0 "Ch0")) ∧
    (∀ pr ∈ (renderProject c9CexProject "out.m4b" "cache" (fun _ => some 7)
        true false (some 1) [] none).1.chapters.enum,
      1 ≤ pr.1 → pr.2.audio_path = some (wavPath "cache" 1) ∧
        wavPath "cache" 1 ∈ (renderProject c9CexProject "out.m4b" "cache"
          (fun _ => some 7) true false (some 1) [] none).1.fs) :=
  ⟨rfl, by decide⟩

end Audiobooker
